import Mathlib

/-!
# RAPtor sparse-matrix kernels: a shallow embedding

The embedding follows `raptor/core/matrix.hpp`.

* `aligned_vector<double>` is a `List α`; the scalar type `α` is kept abstract.  The kernels
  only need `0`, `+`, `-` and `*`; statements "in exact arithmetic" are proved for every
  commutative ring `α`, statements about the storage-order accumulation are proved with no
  algebraic law at all.
* `aligned_vector<int>` is a `List Nat`, and the `int` fields `n_rows`, `n_cols`, `nnz`, ... are
  `Nat`: every kernel uses them only as (non-negative) loop bounds and subscripts.
* `v[i]` is `load v i` and `v[i] = a` is `store v i a`.  A subscript outside the vector is
  undefined behaviour in C++; here such a read gives `0` and such a write does nothing.  The
  well-formedness predicates below exclude every out-of-range subscript.
* `for (int i = 0; i < n; i++)` is a left fold over `List.range n`, and
  `for (int j = start; j < end; j++)` a left fold over `List.range' start (end - start)`.
-/

namespace raptor

/-! ## Vectors -/

/-- Read `v[i]`. -/
def load {α : Type} [Zero α] (v : List α) (i : Nat) : α := v.getD i 0

/-- Write `v[i] = a`. -/
def store {α : Type} (v : List α) (i : Nat) (a : α) : List α := v.set i a

/-- The index list of `for (int j = start; j < end; j++)`. -/
def span (start stop : Nat) : List Nat := List.range' start (stop - start)

/-! ## The `Matrix` base class -/

/-- The data members of `class Matrix`. -/
structure Matrix (α : Type) where
  idx1 : List Nat
  idx2 : List Nat
  vals : List α
  n_rows : Nat
  n_cols : Nat
  nnz : Nat
  sorted : Bool
  diag_first : Bool

/-- A `COOMatrix` has the members of `Matrix`: `idx1` rows, `idx2` columns. -/
abbrev COOMatrix (α : Type) := Matrix α

/-- A `CSRMatrix` has the members of `Matrix`: `idx1` row pointer, `idx2` columns. -/
abbrev CSRMatrix (α : Type) := Matrix α

/-- A `CSCMatrix` has the members of `Matrix`: `idx1` column pointer, `idx2` rows. -/
abbrev CSCMatrix (α : Type) := Matrix α

/-- The data members of `class BSRMatrix`. -/
structure BSRMatrix (α : Type) extends Matrix α where
  b_rows : Nat
  b_cols : Nat
  n_blocks : Nat
  b_size : Nat

section kernels

variable {α : Type} [Zero α] [Add α] [Sub α] [Mul α]

/-- The loop `for (int i = 0; i < n; i++) b[i] = 0.0;`. -/
def zero_fill (n : Nat) (b : List α) : List α :=
  (List.range n).foldl (fun b i => store b i 0) b

/-- The loop `for (int i = 0; i < n; i++) r[i] = b[i];`. -/
def copy_fill (n : Nat) (b r : List α) : List α :=
  (List.range n).foldl (fun r i => store r i (load b i)) r

/-! ## COOMatrix kernels -/

namespace COOMatrix

def mult_append_helper (A : COOMatrix α) (x b : List α) : List α :=
  (List.range A.nnz).foldl
    (fun b i => store b (load A.idx1 i)
      (load b (load A.idx1 i) + load A.vals i * load x (load A.idx2 i))) b

def mult_append_T_helper (A : COOMatrix α) (x b : List α) : List α :=
  (List.range A.nnz).foldl
    (fun b i => store b (load A.idx2 i)
      (load b (load A.idx2 i) + load A.vals i * load x (load A.idx1 i))) b

def mult_append_neg_helper (A : COOMatrix α) (x b : List α) : List α :=
  (List.range A.nnz).foldl
    (fun b i => store b (load A.idx1 i)
      (load b (load A.idx1 i) - load A.vals i * load x (load A.idx2 i))) b

def mult_append_neg_T_helper (A : COOMatrix α) (x b : List α) : List α :=
  (List.range A.nnz).foldl
    (fun b i => store b (load A.idx2 i)
      (load b (load A.idx2 i) - load A.vals i * load x (load A.idx1 i))) b

def mult_helper (A : COOMatrix α) (x b : List α) : List α :=
  mult_append_helper A x (zero_fill A.n_rows b)

def mult_T_helper (A : COOMatrix α) (x b : List α) : List α :=
  mult_append_T_helper A x (zero_fill A.n_cols b)

def residual_helper (A : COOMatrix α) (x b r : List α) : List α :=
  (List.range A.nnz).foldl
    (fun r i => store r (load A.idx1 i)
      (load r (load A.idx1 i) - load A.vals i * load x (load A.idx2 i)))
    (copy_fill A.n_rows b r)

end COOMatrix

/-! ## CSRMatrix kernels -/

namespace CSRMatrix

def mult_append_helper (A : CSRMatrix α) (x b : List α) : List α :=
  (List.range A.n_rows).foldl
    (fun b i =>
      (span (load A.idx1 i) (load A.idx1 (i + 1))).foldl
        (fun b j => store b i (load b i + load A.vals j * load x (load A.idx2 j))) b) b

def mult_append_T_helper (A : CSRMatrix α) (x b : List α) : List α :=
  (List.range A.n_rows).foldl
    (fun b i =>
      (span (load A.idx1 i) (load A.idx1 (i + 1))).foldl
        (fun b j => store b (load A.idx2 j)
          (load b (load A.idx2 j) + load A.vals j * load x i)) b) b

def mult_append_neg_helper (A : CSRMatrix α) (x b : List α) : List α :=
  (List.range A.n_rows).foldl
    (fun b i =>
      (span (load A.idx1 i) (load A.idx1 (i + 1))).foldl
        (fun b j => store b i (load b i - load A.vals j * load x (load A.idx2 j))) b) b

def mult_append_neg_T_helper (A : CSRMatrix α) (x b : List α) : List α :=
  (List.range A.n_rows).foldl
    (fun b i =>
      (span (load A.idx1 i) (load A.idx1 (i + 1))).foldl
        (fun b j => store b (load A.idx2 j)
          (load b (load A.idx2 j) - load A.vals j * load x i)) b) b

def mult_helper (A : CSRMatrix α) (x b : List α) : List α :=
  mult_append_helper A x (zero_fill A.n_rows b)

def mult_T_helper (A : CSRMatrix α) (x b : List α) : List α :=
  mult_append_T_helper A x (zero_fill A.n_cols b)

def residual_helper (A : CSRMatrix α) (x b r : List α) : List α :=
  (List.range A.n_rows).foldl
    (fun r i =>
      (span (load A.idx1 i) (load A.idx1 (i + 1))).foldl
        (fun r j => store r i (load r i - load A.vals j * load x (load A.idx2 j))) r)
    (copy_fill A.n_rows b r)

end CSRMatrix

/-! ## CSCMatrix kernels -/

namespace CSCMatrix

def mult_append_helper (A : CSCMatrix α) (x b : List α) : List α :=
  (List.range A.n_cols).foldl
    (fun b i =>
      (span (load A.idx1 i) (load A.idx1 (i + 1))).foldl
        (fun b j => store b (load A.idx2 j)
          (load b (load A.idx2 j) + load A.vals j * load x i)) b) b

def mult_append_T_helper (A : CSCMatrix α) (x b : List α) : List α :=
  (List.range A.n_cols).foldl
    (fun b i =>
      (span (load A.idx1 i) (load A.idx1 (i + 1))).foldl
        (fun b j => store b i (load b i + load A.vals j * load x (load A.idx2 j))) b) b

def mult_append_neg_helper (A : CSCMatrix α) (x b : List α) : List α :=
  (List.range A.n_cols).foldl
    (fun b i =>
      (span (load A.idx1 i) (load A.idx1 (i + 1))).foldl
        (fun b j => store b (load A.idx2 j)
          (load b (load A.idx2 j) - load A.vals j * load x i)) b) b

def mult_append_neg_T_helper (A : CSCMatrix α) (x b : List α) : List α :=
  (List.range A.n_cols).foldl
    (fun b i =>
      (span (load A.idx1 i) (load A.idx1 (i + 1))).foldl
        (fun b j => store b i (load b i - load A.vals j * load x (load A.idx2 j))) b) b

def mult_helper (A : CSCMatrix α) (x b : List α) : List α :=
  mult_append_helper A x (zero_fill A.n_rows b)

def mult_T_helper (A : CSCMatrix α) (x b : List α) : List α :=
  mult_append_T_helper A x (zero_fill A.n_cols b)

def residual_helper (A : CSCMatrix α) (x b r : List α) : List α :=
  (List.range A.n_cols).foldl
    (fun r i =>
      (span (load A.idx1 i) (load A.idx1 (i + 1))).foldl
        (fun r j => store r (load A.idx2 j)
          (load r (load A.idx2 j) - load A.vals j * load x i)) r)
    (copy_fill A.n_rows b r)

end CSCMatrix

/-! ## BSRMatrix kernels -/

namespace BSRMatrix

def block_mult_helper (A : BSRMatrix α) (row num_blocks_prev col : Nat) (x b : List α) :
    List α :=
  let upper_i := row * A.b_rows
  let upper_j := col * A.b_cols
  let data_offset := num_blocks_prev * A.b_size
  (List.range A.b_rows).foldl
    (fun b i =>
      (List.range A.b_cols).foldl
        (fun b j => store b (upper_i + i)
          (load b (upper_i + i) + load A.vals (i * A.b_cols + j + data_offset) *
            load x (upper_j + j))) b) b

def block_mult_T_helper (A : BSRMatrix α) (row num_blocks_prev col : Nat) (x b : List α) :
    List α :=
  let upper_i := row * A.b_rows
  let upper_j := col * A.b_cols
  let data_offset := num_blocks_prev * A.b_size
  (List.range A.b_rows).foldl
    (fun b i =>
      (List.range A.b_cols).foldl
        (fun b j => store b (upper_j + j)
          (load b (upper_j + j) + load A.vals (i * A.b_cols + j + data_offset) *
            load x (upper_i + i))) b) b

def block_mult_neg_helper (A : BSRMatrix α) (row num_blocks_prev col : Nat) (x b : List α) :
    List α :=
  let upper_i := row * A.b_rows
  let upper_j := col * A.b_cols
  let data_offset := num_blocks_prev * A.b_size
  (List.range A.b_rows).foldl
    (fun b i =>
      (List.range A.b_cols).foldl
        (fun b j => store b (upper_i + i)
          (load b (upper_i + i) - load A.vals (i * A.b_cols + j + data_offset) *
            load x (upper_j + j))) b) b

def block_mult_neg_T_helper (A : BSRMatrix α) (row num_blocks_prev col : Nat) (x b : List α) :
    List α :=
  let upper_i := row * A.b_rows
  let upper_j := col * A.b_cols
  let data_offset := num_blocks_prev * A.b_size
  (List.range A.b_rows).foldl
    (fun b i =>
      (List.range A.b_cols).foldl
        (fun b j => store b (upper_j + j)
          (load b (upper_j + j) - load A.vals (i * A.b_cols + j + data_offset) *
            load x (upper_i + i))) b) b

def block_res_helper (A : BSRMatrix α) (row num_blocks_prev col : Nat) (x r : List α) :
    List α :=
  let upper_i := row * A.b_rows
  let upper_j := col * A.b_cols
  let data_offset := num_blocks_prev * A.b_size
  (List.range A.b_rows).foldl
    (fun r i =>
      (List.range A.b_cols).foldl
        (fun r j => store r (upper_i + i)
          (load r (upper_i + i) - load A.vals (i * A.b_cols + j + data_offset) *
            load x (upper_j + j))) r) r

def mult_append_helper (A : BSRMatrix α) (x b : List α) : List α :=
  let rowsOfBlocks := A.n_rows / A.b_rows
  (List.range rowsOfBlocks).foldl
    (fun b i =>
      (span (load A.idx1 i) (load A.idx1 (i + 1))).foldl
        (fun b j => block_mult_helper A i j (load A.idx2 j) x b) b) b

def mult_append_T_helper (A : BSRMatrix α) (x b : List α) : List α :=
  (List.range (A.n_rows / A.b_rows)).foldl
    (fun b i =>
      (span (load A.idx1 i) (load A.idx1 (i + 1))).foldl
        (fun b j => block_mult_T_helper A i j (load A.idx2 j) x b) b) b

def mult_append_neg_helper (A : BSRMatrix α) (x b : List α) : List α :=
  (List.range (A.n_rows / A.b_rows)).foldl
    (fun b i =>
      (span (load A.idx1 i) (load A.idx1 (i + 1))).foldl
        (fun b j => block_mult_neg_helper A i j (load A.idx2 j) x b) b) b

def mult_append_neg_T_helper (A : BSRMatrix α) (x b : List α) : List α :=
  (List.range (A.n_rows / A.b_rows)).foldl
    (fun b i =>
      (span (load A.idx1 i) (load A.idx1 (i + 1))).foldl
        (fun b j => block_mult_neg_T_helper A i j (load A.idx2 j) x b) b) b

def mult_helper (A : BSRMatrix α) (x b : List α) : List α :=
  mult_append_helper A x (zero_fill A.n_rows b)

def mult_T_helper (A : BSRMatrix α) (x b : List α) : List α :=
  mult_append_T_helper A x (zero_fill A.n_cols b)

def residual_helper (A : BSRMatrix α) (x b r : List α) : List α :=
  (List.range (A.n_rows / A.b_rows)).foldl
    (fun r i =>
      (span (load A.idx1 i) (load A.idx1 (i + 1))).foldl
        (fun r j => block_res_helper A i j (load A.idx2 j) x r) r)
    (copy_fill A.n_rows b r)

end BSRMatrix

/-! ## The polymorphic entry points of `Matrix`

A `Matrix*` points to an object of one of the four classes; the templates `mult`, `mult_T`,
... of the base class call the virtual `*_helper` of that class. -/

/-- An object of one of the four matrix classes. -/
inductive AnyMatrix (α : Type) where
  | coo (A : COOMatrix α)
  | csr (A : CSRMatrix α)
  | csc (A : CSCMatrix α)
  | bsr (A : BSRMatrix α)

/-- The base-class members of the object. -/
def AnyMatrix.base : AnyMatrix α → Matrix α
  | .coo A => A
  | .csr A => A
  | .csc A => A
  | .bsr A => A.toMatrix

def Matrix.mult : AnyMatrix α → List α → List α → List α
  | .coo A, x, b => COOMatrix.mult_helper A x b
  | .csr A, x, b => CSRMatrix.mult_helper A x b
  | .csc A, x, b => CSCMatrix.mult_helper A x b
  | .bsr A, x, b => BSRMatrix.mult_helper A x b

def Matrix.mult_T : AnyMatrix α → List α → List α → List α
  | .coo A, x, b => COOMatrix.mult_T_helper A x b
  | .csr A, x, b => CSRMatrix.mult_T_helper A x b
  | .csc A, x, b => CSCMatrix.mult_T_helper A x b
  | .bsr A, x, b => BSRMatrix.mult_T_helper A x b

def Matrix.mult_append : AnyMatrix α → List α → List α → List α
  | .coo A, x, b => COOMatrix.mult_append_helper A x b
  | .csr A, x, b => CSRMatrix.mult_append_helper A x b
  | .csc A, x, b => CSCMatrix.mult_append_helper A x b
  | .bsr A, x, b => BSRMatrix.mult_append_helper A x b

def Matrix.mult_append_T : AnyMatrix α → List α → List α → List α
  | .coo A, x, b => COOMatrix.mult_append_T_helper A x b
  | .csr A, x, b => CSRMatrix.mult_append_T_helper A x b
  | .csc A, x, b => CSCMatrix.mult_append_T_helper A x b
  | .bsr A, x, b => BSRMatrix.mult_append_T_helper A x b

def Matrix.mult_append_neg : AnyMatrix α → List α → List α → List α
  | .coo A, x, b => COOMatrix.mult_append_neg_helper A x b
  | .csr A, x, b => CSRMatrix.mult_append_neg_helper A x b
  | .csc A, x, b => CSCMatrix.mult_append_neg_helper A x b
  | .bsr A, x, b => BSRMatrix.mult_append_neg_helper A x b

def Matrix.mult_append_neg_T : AnyMatrix α → List α → List α → List α
  | .coo A, x, b => COOMatrix.mult_append_neg_T_helper A x b
  | .csr A, x, b => CSRMatrix.mult_append_neg_T_helper A x b
  | .csc A, x, b => CSCMatrix.mult_append_neg_T_helper A x b
  | .bsr A, x, b => BSRMatrix.mult_append_neg_T_helper A x b

def Matrix.residual : AnyMatrix α → List α → List α → List α → List α
  | .coo A, x, b, r => COOMatrix.residual_helper A x b r
  | .csr A, x, b, r => CSRMatrix.residual_helper A x b r
  | .csc A, x, b, r => CSCMatrix.residual_helper A x b r
  | .bsr A, x, b, r => BSRMatrix.residual_helper A x b r

end kernels

/-! ## Well-formedness -/

/-- A pointer array for `n` slices over `m` stored entries: length `n + 1`, first entry `0`,
non-decreasing, last entry `m`. -/
def PtrOK (ptr : List Nat) (n m : Nat) : Prop :=
  ptr.length = n + 1 ∧ load ptr 0 = 0 ∧ (∀ i < n, load ptr i ≤ load ptr (i + 1)) ∧ load ptr n = m

instance (ptr : List Nat) (n m : Nat) : Decidable (PtrOK ptr n m) := by
  unfold PtrOK; infer_instance

/-! ## Accumulation sequences

Every kernel is a sequence of accumulations `b[t] = b[t] op v`; `accum` runs such a sequence,
given as the list of its (target, term) pairs in execution order. -/

/-- Run the accumulations `b[u.1] = op b[u.1] u.2` for `u` in `us`, in order. -/
def accum {α : Type} [Zero α] (op : α → α → α) (us : List (Nat × α)) (b : List α) : List α :=
  us.foldl (fun b u => store b u.1 (op (load b u.1) u.2)) b

/-- The terms of `us` that are accumulated into position `r`, in order. -/
def termsAt {α : Type} (us : List (Nat × α)) (r : Nat) : List α :=
  (us.filter (fun u => u.1 = r)).map Prod.snd

/-- The sum of the terms of `us` that are accumulated into position `r`. -/
def sumAt {α : Type} [AddMonoid α] (us : List (Nat × α)) (r : Nat) : α :=
  (termsAt us r).sum

namespace COOMatrix

/-- The accumulations of `mult_append_helper` and its siblings, in storage order: entry `i`
sends `vals[i] * x[idx2[i]]` to row `idx1[i]`. -/
def rowUpdates {α : Type} [Zero α] [Mul α] (A : COOMatrix α) (x : List α) : List (Nat × α) :=
  (List.range A.nnz).map (fun i => (load A.idx1 i, load A.vals i * load x (load A.idx2 i)))

/-- The accumulations of the transposed kernels: entry `i` sends `vals[i] * x[idx1[i]]` to
column `idx2[i]`. -/
def colUpdates {α : Type} [Zero α] [Mul α] (A : COOMatrix α) (x : List α) : List (Nat × α) :=
  (List.range A.nnz).map (fun i => (load A.idx2 i, load A.vals i * load x (load A.idx1 i)))

/-- Well-formed COO storage: `nnz` triplets, every row below `n_rows`, every column below
`n_cols`. -/
def WF {α : Type} (A : COOMatrix α) : Prop :=
  A.idx1.length = A.nnz ∧ A.idx2.length = A.nnz ∧ A.vals.length = A.nnz ∧
    (∀ r ∈ A.idx1, r < A.n_rows) ∧ ∀ c ∈ A.idx2, c < A.n_cols

instance {α : Type} (A : COOMatrix α) : Decidable (WF A) := by
  unfold WF; infer_instance

/-- The dense matrix the storage denotes: the values of all triplets with key `(r, c)`,
summed. -/
def dense {α : Type} [AddCommMonoid α] (A : COOMatrix α) (r c : Nat) : α :=
  ∑ k in Finset.range A.nnz, if load A.idx1 k = r ∧ load A.idx2 k = c then load A.vals k else 0

end COOMatrix

namespace CSRMatrix

/-- The accumulations of the CSR row sweep: row `i` receives `vals[j] * x[idx2[j]]` for `j` in
row `i`'s slice. -/
def rowUpdates {α : Type} [Zero α] [Mul α] (A : CSRMatrix α) (x : List α) : List (Nat × α) :=
  (List.range A.n_rows).flatMap (fun i =>
    (span (load A.idx1 i) (load A.idx1 (i + 1))).map
      (fun j => (i, load A.vals j * load x (load A.idx2 j))))

/-- The accumulations of the transposed CSR sweep: column `idx2[j]` receives `vals[j] * x[i]`
for `j` in row `i`'s slice. -/
def colUpdates {α : Type} [Zero α] [Mul α] (A : CSRMatrix α) (x : List α) : List (Nat × α) :=
  (List.range A.n_rows).flatMap (fun i =>
    (span (load A.idx1 i) (load A.idx1 (i + 1))).map
      (fun j => (load A.idx2 j, load A.vals j * load x i)))

/-- Well-formed CSR storage. -/
def WF {α : Type} (A : CSRMatrix α) : Prop :=
  PtrOK A.idx1 A.n_rows A.idx2.length ∧ A.vals.length = A.idx2.length ∧
    ∀ c ∈ A.idx2, c < A.n_cols

instance {α : Type} (A : CSRMatrix α) : Decidable (WF A) := by
  unfold WF; infer_instance

/-- The dense matrix the storage denotes: the values stored in row `r`'s slice with column
index `c`, summed. -/
def dense {α : Type} [AddCommMonoid α] (A : CSRMatrix α) (r c : Nat) : α :=
  ∑ k in Finset.Ico (load A.idx1 r) (load A.idx1 (r + 1)),
    if load A.idx2 k = c then load A.vals k else 0

end CSRMatrix

namespace CSCMatrix

/-- The accumulations of the CSC column sweep: row `idx2[j]` receives `vals[j] * x[i]` for `j`
in column `i`'s slice. -/
def rowUpdates {α : Type} [Zero α] [Mul α] (A : CSCMatrix α) (x : List α) : List (Nat × α) :=
  (List.range A.n_cols).flatMap (fun i =>
    (span (load A.idx1 i) (load A.idx1 (i + 1))).map
      (fun j => (load A.idx2 j, load A.vals j * load x i)))

/-- The accumulations of the transposed CSC sweep: column `i` receives `vals[j] * x[idx2[j]]`
for `j` in column `i`'s slice. -/
def colUpdates {α : Type} [Zero α] [Mul α] (A : CSCMatrix α) (x : List α) : List (Nat × α) :=
  (List.range A.n_cols).flatMap (fun i =>
    (span (load A.idx1 i) (load A.idx1 (i + 1))).map
      (fun j => (i, load A.vals j * load x (load A.idx2 j))))

/-- Well-formed CSC storage. -/
def WF {α : Type} (A : CSCMatrix α) : Prop :=
  PtrOK A.idx1 A.n_cols A.idx2.length ∧ A.vals.length = A.idx2.length ∧
    ∀ r ∈ A.idx2, r < A.n_rows

instance {α : Type} (A : CSCMatrix α) : Decidable (WF A) := by
  unfold WF; infer_instance

/-- The dense matrix the storage denotes: the values stored in column `c`'s slice with row
index `r`, summed. -/
def dense {α : Type} [AddCommMonoid α] (A : CSCMatrix α) (r c : Nat) : α :=
  ∑ k in Finset.Ico (load A.idx1 c) (load A.idx1 (c + 1)),
    if load A.idx2 k = r then load A.vals k else 0

end CSCMatrix

namespace BSRMatrix

/-- The accumulations of one dense block, as `block_mult_helper` runs them. -/
def blockRowUpdates {α : Type} [Zero α] [Mul α] (A : BSRMatrix α) (row k col : Nat)
    (x : List α) : List (Nat × α) :=
  (List.range A.b_rows).flatMap (fun i =>
    (List.range A.b_cols).map (fun j =>
      (row * A.b_rows + i,
        load A.vals (i * A.b_cols + j + k * A.b_size) * load x (col * A.b_cols + j))))

/-- The accumulations of one dense block, as `block_mult_T_helper` runs them. -/
def blockColUpdates {α : Type} [Zero α] [Mul α] (A : BSRMatrix α) (row k col : Nat)
    (x : List α) : List (Nat × α) :=
  (List.range A.b_rows).flatMap (fun i =>
    (List.range A.b_cols).map (fun j =>
      (col * A.b_cols + j,
        load A.vals (i * A.b_cols + j + k * A.b_size) * load x (row * A.b_rows + i))))

/-- The accumulations of the BSR block-row sweep. -/
def rowUpdates {α : Type} [Zero α] [Mul α] (A : BSRMatrix α) (x : List α) : List (Nat × α) :=
  (List.range (A.n_rows / A.b_rows)).flatMap (fun i =>
    (span (load A.idx1 i) (load A.idx1 (i + 1))).flatMap
      (fun j => blockRowUpdates A i j (load A.idx2 j) x))

/-- The accumulations of the transposed BSR block-row sweep. -/
def colUpdates {α : Type} [Zero α] [Mul α] (A : BSRMatrix α) (x : List α) : List (Nat × α) :=
  (List.range (A.n_rows / A.b_rows)).flatMap (fun i =>
    (span (load A.idx1 i) (load A.idx1 (i + 1))).flatMap
      (fun j => blockColUpdates A i j (load A.idx2 j) x))

/-- Well-formed BSR storage. -/
def WF {α : Type} (A : BSRMatrix α) : Prop :=
  0 < A.b_rows ∧ 0 < A.b_cols ∧ A.n_rows % A.b_rows = 0 ∧ A.n_cols % A.b_cols = 0 ∧
    A.b_size = A.b_rows * A.b_cols ∧ PtrOK A.idx1 (A.n_rows / A.b_rows) A.n_blocks ∧
    A.idx2.length = A.n_blocks ∧ A.vals.length = A.n_blocks * A.b_size ∧
    ∀ c ∈ A.idx2, c < A.n_cols / A.b_cols

instance {α : Type} (A : BSRMatrix α) : Decidable (WF A) := by
  unfold WF; infer_instance

/-- The dense matrix the storage denotes: position `(r, c)` lies in block row `r / b_rows` and
block column `c / b_cols`, at the block-local position `(r % b_rows, c % b_cols)`; the scalars
that the stored blocks of that block row and block column hold there, summed. -/
def dense {α : Type} [AddCommMonoid α] (A : BSRMatrix α) (r c : Nat) : α :=
  ∑ k in Finset.Ico (load A.idx1 (r / A.b_rows)) (load A.idx1 (r / A.b_rows + 1)),
    if load A.idx2 k = c / A.b_cols then
      load A.vals (k * A.b_size + (r % A.b_rows) * A.b_cols + c % A.b_cols)
    else 0

end BSRMatrix

namespace AnyMatrix

/-- Well-formedness of the object, by class. -/
def WF {α : Type} : AnyMatrix α → Prop
  | .coo A => COOMatrix.WF A
  | .csr A => CSRMatrix.WF A
  | .csc A => CSCMatrix.WF A
  | .bsr A => BSRMatrix.WF A

instance {α : Type} (M : AnyMatrix α) : Decidable (WF M) := by
  cases M <;> unfold WF <;> infer_instance

/-- The dense matrix the object denotes, by class. -/
def dense {α : Type} [AddCommMonoid α] : AnyMatrix α → Nat → Nat → α
  | .coo A => COOMatrix.dense A
  | .csr A => CSRMatrix.dense A
  | .csc A => CSCMatrix.dense A
  | .bsr A => BSRMatrix.dense A

/-- The accumulations of `mult_append`, `mult_append_neg` and `residual`, by class. -/
def rowUpdates {α : Type} [Zero α] [Mul α] : AnyMatrix α → List α → List (Nat × α)
  | .coo A => COOMatrix.rowUpdates A
  | .csr A => CSRMatrix.rowUpdates A
  | .csc A => CSCMatrix.rowUpdates A
  | .bsr A => BSRMatrix.rowUpdates A

/-- The accumulations of `mult_append_T` and `mult_append_neg_T`, by class. -/
def colUpdates {α : Type} [Zero α] [Mul α] : AnyMatrix α → List α → List (Nat × α)
  | .coo A => COOMatrix.colUpdates A
  | .csr A => CSRMatrix.colUpdates A
  | .csc A => CSCMatrix.colUpdates A
  | .bsr A => BSRMatrix.colUpdates A

end AnyMatrix

/-- The stored triplets `(row, column, value)` of a COO matrix, in storage order. -/
def COOMatrix.triplets {α : Type} (A : COOMatrix α) : List (Nat × Nat × α) :=
  List.zip A.idx1 (List.zip A.idx2 A.vals)

/-- `ts'` is `ts` with two triplets of one key, carrying `a` and `a'`, replaced by one triplet
of that key carrying `a + a'` (at the place of the first). -/
def COOMatrix.Merged {α : Type} [Add α] (ts ts' : List (Nat × Nat × α)) : Prop :=
  ∃ (l1 l2 l3 : List (Nat × Nat × α)) (r c : Nat) (a a' : α),
    ts = l1 ++ (r, c, a) :: l2 ++ (r, c, a') :: l3 ∧ ts' = l1 ++ (r, c, a + a') :: l2 ++ l3

/-! ## Example matrices

The 2 x 3 matrix with rows `1 0 2` and `0 3 0`, in each format, over the integers. -/

/-- The example in CSR storage. -/
def exCSR : CSRMatrix ℤ :=
  { idx1 := [0, 2, 3], idx2 := [0, 2, 1], vals := [1, 2, 3], n_rows := 2, n_cols := 3,
    nnz := 3, sorted := true, diag_first := false }

/-- The example in CSC storage. -/
def exCSC : CSCMatrix ℤ :=
  { idx1 := [0, 1, 2, 3], idx2 := [0, 1, 0], vals := [1, 3, 2], n_rows := 2, n_cols := 3,
    nnz := 3, sorted := true, diag_first := false }

/-- The example in COO storage, unsorted and with the entry `(0, 0)` split into `5 + (-4)`. -/
def exCOO : COOMatrix ℤ :=
  { idx1 := [0, 1, 0, 0], idx2 := [0, 1, 2, 0], vals := [5, 3, 2, -4], n_rows := 2,
    n_cols := 3, nnz := 4, sorted := false, diag_first := false }

/-- A 2 x 4 BSR matrix of two 2 x 2 blocks, with rows `1 2 5 6` and `3 4 7 8`. -/
def exBSR : BSRMatrix ℤ :=
  { idx1 := [0, 2], idx2 := [0, 1], vals := [1, 2, 3, 4, 5, 6, 7, 8], n_rows := 2,
    n_cols := 4, nnz := 8, sorted := true, diag_first := false, b_rows := 2, b_cols := 2,
    n_blocks := 2, b_size := 4 }

/-! ## Sparse-sparse products

`spgemm` and `spgemm_T` are non-const virtual members returning a `CSRMatrix*`.  A call is
modelled by the pair of the receiver after the call and the returned pointer, `none` for
`NULL`. -/

/-- `COOMatrix::spgemm`: `return NULL;`. -/
def COOMatrix.spgemm {α : Type} (A : COOMatrix α) (_B : CSRMatrix α) :
    COOMatrix α × Option (CSRMatrix α) := (A, none)

/-- `COOMatrix::spgemm_T`: `return NULL;`. -/
def COOMatrix.spgemm_T {α : Type} (A : COOMatrix α) (_A : CSCMatrix α) :
    COOMatrix α × Option (CSRMatrix α) := (A, none)

/-- `CSCMatrix::spgemm`: `return NULL;`. -/
def CSCMatrix.spgemm {α : Type} (A : CSCMatrix α) (_B : CSRMatrix α) :
    CSCMatrix α × Option (CSRMatrix α) := (A, none)

/-- `CSCMatrix::spgemm_T`: `return NULL;`. -/
def CSCMatrix.spgemm_T {α : Type} (A : CSCMatrix α) (_A : CSCMatrix α) :
    CSCMatrix α × Option (CSRMatrix α) := (A, none)

/-- `BSRMatrix::spgemm`: `return NULL;`. -/
def BSRMatrix.spgemm {α : Type} (A : BSRMatrix α) (_B : CSRMatrix α) :
    BSRMatrix α × Option (CSRMatrix α) := (A, none)

/-- `BSRMatrix::spgemm_T`: `return NULL;`. -/
def BSRMatrix.spgemm_T {α : Type} (A : BSRMatrix α) (_A : CSCMatrix α) :
    BSRMatrix α × Option (CSRMatrix α) := (A, none)

/-- The two members `CSRMatrix::spgemm` and `CSRMatrix::spgemm_T`: matrix.hpp only declares
them, so the dispatch below takes their bodies as a parameter. -/
structure CSRProducts (α : Type) where
  spgemm : CSRMatrix α → CSRMatrix α → CSRMatrix α × Option (CSRMatrix α)
  spgemm_T : CSRMatrix α → CSCMatrix α → CSRMatrix α × Option (CSRMatrix α)

/-- The virtual call `spgemm(B)` on an object of any class. -/
def Matrix.spgemm {α : Type} (P : CSRProducts α) :
    AnyMatrix α → CSRMatrix α → AnyMatrix α × Option (CSRMatrix α)
  | .coo A, B => ((COOMatrix.spgemm A B).map AnyMatrix.coo id)
  | .csr A, B => ((P.spgemm A B).map AnyMatrix.csr id)
  | .csc A, B => ((CSCMatrix.spgemm A B).map AnyMatrix.csc id)
  | .bsr A, B => ((BSRMatrix.spgemm A B).map AnyMatrix.bsr id)

/-- The virtual call `spgemm_T(A)` on an object of any class. -/
def Matrix.spgemm_T {α : Type} (P : CSRProducts α) :
    AnyMatrix α → CSCMatrix α → AnyMatrix α × Option (CSRMatrix α)
  | .coo A, B => ((COOMatrix.spgemm_T A B).map AnyMatrix.coo id)
  | .csr A, B => ((P.spgemm_T A B).map AnyMatrix.csr id)
  | .csc A, B => ((CSCMatrix.spgemm_T A B).map AnyMatrix.csc id)
  | .bsr A, B => ((BSRMatrix.spgemm_T A B).map AnyMatrix.bsr id)

/-- The overload `CSRMatrix* Matrix::mult(const CSRMatrix* B)`: `return spgemm(B);`. -/
def Matrix.mult_matrix {α : Type} (P : CSRProducts α) (M : AnyMatrix α) (B : CSRMatrix α) :
    AnyMatrix α × Option (CSRMatrix α) :=
  Matrix.spgemm P M B

/-- The overload `CSRMatrix* Matrix::mult_T(const CSCMatrix* A)`: `return spgemm_T(A);`. -/
def Matrix.mult_T_matrix {α : Type} (P : CSRProducts α) (M : AnyMatrix α) (A : CSCMatrix α) :
    AnyMatrix α × Option (CSRMatrix α) :=
  Matrix.spgemm_T P M A

/-! ## BSRMatrix constructors

A constructor either yields the object or does not return: `exit(-1)` ends the process, and an
integer division by zero or a `std::copy` into a vector that is too short is undefined
behaviour.  The `int` arguments are `Nat`: the
constructors are described for non-negative dimensions. -/

/-- Why a constructor did not return an object. -/
inductive Abort where
  /-- The call `exit(code)`. -/
  | fatal_exit (code : Int)
  /-- An integer division by zero (undefined behaviour). -/
  | division_by_zero
  /-- A write past the end of a vector (undefined behaviour). -/
  | buffer_overflow
  deriving DecidableEq, Repr

/-- `BSRMatrix(int _nrows, int _ncols, int _brows, int _bcols, int _nblocks = 0, int _nnz = 0)`.
`resize` fills `idx1` with zeros; `reserve` changes no contents.  The member `nnz` keeps the
`0` of the base constructor.  When `_nblocks` is `0` and a block dimension is `0` the source
leaves `n_blocks` uninitialised (here `0`). -/
def BSRMatrix.ctor {α : Type} (_nrows _ncols _brows _bcols : Nat) (_nblocks : Nat)
    (_nnz : Nat) : Except Abort (BSRMatrix α) :=
  if _nrows % _brows ≠ 0 ∨ _ncols % _bcols ≠ 0 then
    .error (.fatal_exit (-1))
  else
    let n_blocks :=
      if _nblocks ≠ 0 then _nblocks
      else if _brows ≠ 0 ∧ _bcols ≠ 0 then _nrows / _brows * _ncols / _bcols
      else 0
    .ok { idx1 := List.replicate (_nrows / _brows + 1) 0, idx2 := [], vals := [],
          n_rows := _nrows, n_cols := _ncols, nnz := 0, sorted := false, diag_first := false,
          b_rows := _brows, b_cols := _bcols, n_blocks := n_blocks,
          b_size := _brows * _bcols }

/-- The running state of the dense-buffer constructor. -/
structure BSRScan (α : Type) where
  idx1 : List Nat
  idx2 : List Nat
  vals : List α
  nnz : Nat
  n_blocks : Nat
  data_offset : Nat

/-- The body of the loop over `j` in the dense-buffer constructor: collect in `test` the
scalars of the block with `fabs(val) > zero_tol`; when there is one, append the whole block;
advance `data_offset`. -/
def BSRMatrix.scan_block {α : Type} [LinearOrderedRing α] (zero_tol : α) (b_size : Nat)
    (_data : List α) (s : BSRScan α) (j : Nat) : BSRScan α :=
  let test : List α :=
    (span s.data_offset (s.data_offset + b_size)).foldl
      (fun test k => if |load _data k| > zero_tol then test ++ [load _data k] else test) []
  let s1 : BSRScan α :=
    if test.length > 0 then
      let s2 : BSRScan α :=
        (span s.data_offset (s.data_offset + b_size)).foldl
          (fun s k => { s with vals := s.vals ++ [load _data k], nnz := s.nnz + 1 }) s
      { s2 with n_blocks := s2.n_blocks + 1, idx2 := s2.idx2 ++ [j] }
    else s
  { s1 with data_offset := s1.data_offset + b_size }

/-- `BSRMatrix(int _nrows, int _ncols, int _brows, int _bcols, double* _data)`; `zero_tol` is
the constant of `types.hpp`. -/
def BSRMatrix.ctor_data {α : Type} [LinearOrderedRing α] (zero_tol : α)
    (_nrows _ncols _brows _bcols : Nat) (_data : List α) : Except Abort (BSRMatrix α) :=
  if _nrows % _brows ≠ 0 ∨ _ncols % _bcols ≠ 0 then
    .error (.fatal_exit (-1))
  else
    let b_size := _brows * _bcols
    let s0 : BSRScan α :=
      { idx1 := store (List.replicate (_nrows / _brows + 1) 0) 0 0, idx2 := [], vals := [],
        nnz := 0, n_blocks := 0, data_offset := 0 }
    let s : BSRScan α :=
      (List.range (_nrows / _brows)).foldl
        (fun s i =>
          let s1 := (List.range (_ncols / _bcols)).foldl
            (BSRMatrix.scan_block zero_tol b_size _data) s
          { s1 with idx1 := store s1.idx1 (i + 1) s1.idx2.length }) s0
    .ok { idx1 := s.idx1, idx2 := s.idx2, vals := s.vals, n_rows := _nrows, n_cols := _ncols,
          nnz := s.nnz, sorted := false, diag_first := false, b_rows := _brows,
          b_cols := _bcols, n_blocks := s.n_blocks, b_size := b_size }

/-- `std::copy(src.begin(), src.end(), dst.begin())`: the first `src.size()` elements of `dst`
are overwritten; when `src` is longer than `dst` the copy writes past the end of `dst`. -/
def std_copy {α : Type} (src dst : List α) : Except Abort (List α) :=
  if src.length ≤ dst.length then .ok (src ++ dst.drop src.length)
  else .error .buffer_overflow

/-- `BSRMatrix(int _nrows, int _ncols, int _brows, int _bcols, aligned_vector<int>& rowptr,
aligned_vector<int>& cols, aligned_vector<double>& data)`.  `b_size = nnz/n_blocks` divides by
`cols.size()`. -/
def BSRMatrix.ctor_arrays {α : Type} [Zero α] (_nrows _ncols _brows _bcols : Nat)
    (rowptr cols : List Nat) (data : List α) : Except Abort (BSRMatrix α) :=
  if _nrows % _brows ≠ 0 ∨ _ncols % _bcols ≠ 0 then
    .error (.fatal_exit (-1))
  else
    let nnz := data.length
    let n_blocks := cols.length
    if n_blocks = 0 then
      .error .division_by_zero
    else do
      let b_size := nnz / n_blocks
      let idx1 ← std_copy rowptr (List.replicate (_nrows / _brows + 1) 0)
      let idx2 ← std_copy cols (List.replicate n_blocks 0)
      let vals ← std_copy data (List.replicate nnz 0)
      return { idx1 := idx1, idx2 := idx2, vals := vals,
               n_rows := _nrows, n_cols := _ncols, nnz := nnz, sorted := false,
               diag_first := false, b_rows := _brows, b_cols := _bcols, n_blocks := n_blocks,
               b_size := b_size }

/-! ## Matrix, COOMatrix, CSRMatrix and CSCMatrix constructors

`reserve` changes no contents and is left out; `resize(n)` on a vector keeps its first `n`
elements and pads with zeros. -/

/-- `v.resize(n)`. -/
def vresize {α : Type} [Zero α] (v : List α) (n : Nat) : List α :=
  v.take n ++ List.replicate (n - v.length) 0

/-- `Matrix(int _nrows, int _ncols)`. -/
def Matrix.ctor {α : Type} (_nrows _ncols : Nat) : Matrix α :=
  { idx1 := [], idx2 := [], vals := [], n_rows := _nrows, n_cols := _ncols, nnz := 0,
    sorted := false, diag_first := false }

/-- `Matrix()`. -/
def Matrix.ctor_default {α : Type} : Matrix α :=
  { idx1 := [], idx2 := [], vals := [], n_rows := 0, n_cols := 0, nnz := 0,
    sorted := false, diag_first := false }

namespace COOMatrix

/-- `COOMatrix()`. -/
def ctor_default {α : Type} : COOMatrix α := Matrix.ctor_default

/-- `COOMatrix(int _nrows, int _ncols, int nnz_per_row = 1)`: only reserves. -/
def ctor {α : Type} (_nrows _ncols : Nat) (_nnz_per_row : Nat) : COOMatrix α :=
  Matrix.ctor _nrows _ncols

/-- `COOMatrix(int _nrows, int _ncols, double* _data)`; `zero_tol` is the constant of
`types.hpp`. -/
def ctor_data {α : Type} [LinearOrderedRing α] (zero_tol : α) (_nrows _ncols : Nat)
    (_data : List α) : COOMatrix α :=
  let A : COOMatrix α := { (Matrix.ctor _nrows _ncols : Matrix α) with nnz := 0 }
  (List.range A.n_rows).foldl
    (fun A i =>
      (List.range A.n_cols).foldl
        (fun A j =>
          let val := load _data (i * A.n_cols + j)
          if |val| > zero_tol then
            { A with idx1 := A.idx1 ++ [i], idx2 := A.idx2 ++ [j], vals := A.vals ++ [val],
                     nnz := A.nnz + 1 }
          else A) A) A

/-- `COOMatrix(int _nrows, int _ncols, aligned_vector<int>& rows, aligned_vector<int>& cols,
aligned_vector<double>& data)`.  The first statement is `nnz = idx1.size();`, read from the
still empty member `idx1`. -/
def ctor_arrays {α : Type} [Zero α] (_nrows _ncols : Nat) (rows cols : List Nat)
    (data : List α) : Except Abort (COOMatrix α) := do
  let A : COOMatrix α := Matrix.ctor _nrows _ncols
  let nnz := A.idx1.length
  let idx1 ← std_copy rows (vresize A.idx1 nnz)
  let idx2 ← std_copy cols (vresize A.idx2 nnz)
  let vals ← std_copy data (vresize A.vals nnz)
  return { A with idx1 := idx1, idx2 := idx2, vals := vals, nnz := nnz }

end COOMatrix

namespace CSRMatrix

/-- `CSRMatrix()`. -/
def ctor_default {α : Type} : CSRMatrix α := Matrix.ctor_default

/-- `CSRMatrix(int _nrows, int _ncols, int _nnz = 0)`. -/
def ctor {α : Type} (_nrows _ncols : Nat) (_nnz : Nat) : CSRMatrix α :=
  let A : CSRMatrix α := Matrix.ctor _nrows _ncols
  { A with idx1 := vresize A.idx1 (_nrows + 1) }

/-- `CSRMatrix(int _nrows, int _ncols, double* _data)`; `zero_tol` is the constant of
`types.hpp`. -/
def ctor_data {α : Type} [LinearOrderedRing α] (zero_tol : α) (_nrows _ncols : Nat)
    (_data : List α) : CSRMatrix α :=
  let A : CSRMatrix α := { (Matrix.ctor _nrows _ncols : Matrix α) with
    n_rows := _nrows, n_cols := _ncols, nnz := 0 }
  let A : CSRMatrix α := { A with idx1 := store (vresize A.idx1 (A.n_rows + 1)) 0 0 }
  (List.range A.n_rows).foldl
    (fun A i =>
      let A1 := (List.range A.n_cols).foldl
        (fun A j =>
          let val := load _data (i * A.n_cols + j)
          if |val| > zero_tol then
            { A with idx2 := A.idx2 ++ [j], vals := A.vals ++ [val], nnz := A.nnz + 1 }
          else A) A
      { A1 with idx1 := store A1.idx1 (i + 1) A1.nnz }) A

/-- `CSRMatrix(int _nrows, int _ncols, aligned_vector<int>& rowptr, aligned_vector<int>& cols,
aligned_vector<double>& data)`. -/
def ctor_arrays {α : Type} [Zero α] (_nrows _ncols : Nat) (rowptr cols : List Nat)
    (data : List α) : Except Abort (CSRMatrix α) := do
  let A : CSRMatrix α := Matrix.ctor _nrows _ncols
  let nnz := cols.length
  let idx1 ← std_copy rowptr (vresize A.idx1 (A.n_rows + 1))
  let idx2 ← std_copy cols (vresize A.idx2 nnz)
  let vals ← std_copy data (vresize A.vals nnz)
  return { A with idx1 := idx1, idx2 := idx2, vals := vals, nnz := nnz }

end CSRMatrix

namespace CSCMatrix

/-- `CSCMatrix()`. -/
def ctor_default {α : Type} : CSCMatrix α := Matrix.ctor_default

/-- `CSCMatrix(int _nrows, int _ncols, int _nnz = 0)`; its last statement is `nnz = _nnz;`. -/
def ctor {α : Type} (_nrows _ncols : Nat) (_nnz : Nat) : CSCMatrix α :=
  let A : CSCMatrix α := Matrix.ctor _nrows _ncols
  { A with idx1 := vresize A.idx1 (_ncols + 1), nnz := _nnz }

/-- `CSCMatrix(int _nrows, int _ncols, double* _data)`; `zero_tol` is the constant of
`types.hpp`.  The scalar read for column `i` and row `j` is `_data[i*n_cols + j]`. -/
def ctor_data {α : Type} [LinearOrderedRing α] (zero_tol : α) (_nrows _ncols : Nat)
    (_data : List α) : CSCMatrix α :=
  let A : CSCMatrix α := Matrix.ctor _nrows _ncols
  let A : CSCMatrix α := { A with idx1 := store (vresize A.idx1 (A.n_cols + 1)) 0 0 }
  (List.range A.n_cols).foldl
    (fun A i =>
      let A1 := (List.range A.n_rows).foldl
        (fun A j =>
          let val := load _data (i * A.n_cols + j)
          if |val| > zero_tol then
            { A with idx2 := A.idx2 ++ [j], vals := A.vals ++ [val], nnz := A.nnz + 1 }
          else A) A
      { A1 with idx1 := store A1.idx1 (i + 1) A1.nnz }) A

/-- `CSCMatrix(int _nrows, int _ncols, aligned_vector<int>& colptr, aligned_vector<int>& rows,
aligned_vector<double>& data)`. -/
def ctor_arrays {α : Type} [Zero α] (_nrows _ncols : Nat) (colptr rows : List Nat)
    (data : List α) : Except Abort (CSCMatrix α) := do
  let A : CSCMatrix α := Matrix.ctor _nrows _ncols
  let nnz := rows.length
  let idx1 ← std_copy colptr (vresize A.idx1 (A.n_cols + 1))
  let idx2 ← std_copy rows (vresize A.idx2 nnz)
  let vals ← std_copy data (vresize A.vals nnz)
  return { A with idx1 := idx1, idx2 := idx2, vals := vals, nnz := nnz }

end CSCMatrix

/-- `BSRMatrix()`: the base members are those of `Matrix()`; the block members are left
uninitialised, so their values are arbitrary. -/
def BSRMatrix.ctor_default {α : Type} (b_rows b_cols n_blocks b_size : Nat) : BSRMatrix α :=
  { (Matrix.ctor_default : Matrix α) with
    b_rows := b_rows, b_cols := b_cols, n_blocks := n_blocks, b_size := b_size }

/-! ## What the dense-buffer scans retain -/

/-- The elements `v[start], ..., v[stop-1]`. -/
def slice {β : Type} (v : List β) (start stop : Nat) : List β :=
  (v.drop start).take (stop - start)

/-- The positions `j < L` of line `i` of a buffer read with stride `stride` whose scalar
`data[i*stride + j]` has magnitude above `zero_tol`, ascending. -/
def keptAt {α : Type} [LinearOrderedRing α] (zero_tol : α) (data : List α)
    (stride L i : Nat) : List Nat :=
  (List.range L).filter (fun j => decide (|load data (i * stride + j)| > zero_tol))

/-- The number of scalars retained in the first `k` lines. -/
def keptBefore {α : Type} [LinearOrderedRing α] (zero_tol : α) (data : List α)
    (stride L k : Nat) : Nat :=
  ((List.range k).flatMap (keptAt zero_tol data stride L)).length

/-- The triplets `(i, j, D[i*n_cols + j])` of the positions of a row-major buffer whose
magnitude is above `zero_tol`, in row-major order. -/
def keptTriplets {α : Type} [LinearOrderedRing α] (zero_tol : α) (D : List α)
    (n_rows n_cols : Nat) : List (Nat × Nat × α) :=
  (List.range n_rows).flatMap (fun i =>
    (keptAt zero_tol D n_cols n_cols i).map (fun j => (i, j, load D (i * n_cols + j))))

/-- Row-major order of keys: an earlier row, or the same row and an earlier column. -/
def keyLt {α : Type} (t u : Nat × Nat × α) : Prop :=
  t.1 < u.1 ∨ (t.1 = u.1 ∧ t.2.1 < u.2.1)

/-- Whether the `b_size` scalars of the buffer from offset `d` on hold one of magnitude above
`zero_tol`. -/
def blockKept {α : Type} [LinearOrderedRing α] (zero_tol : α) (data : List α)
    (b_size d : Nat) : Bool :=
  (span d (d + b_size)).any (fun k => decide (|load data k| > zero_tol))

/-- The `b_size` scalars of the buffer from offset `d` on. -/
def blockScalars {α : Type} [Zero α] (data : List α) (b_size d : Nat) : List α :=
  (span d (d + b_size)).map (fun k => load data k)

/-- Of `L` consecutive blocks starting at offset `d0`, those that are kept, ascending. -/
def keptBlocksFrom {α : Type} [LinearOrderedRing α] (zero_tol : α) (data : List α)
    (b_size d0 L : Nat) : List Nat :=
  (List.range L).filter (fun j => blockKept zero_tol data b_size (d0 + j * b_size))

/-- The block columns kept in block row `i` of a buffer in block format with `ncb` blocks per
block row: block `(i, j)` occupies the offsets from `(i*ncb + j)*b_size` on. -/
def keptBlocksAt {α : Type} [LinearOrderedRing α] (zero_tol : α) (data : List α)
    (b_size ncb i : Nat) : List Nat :=
  (List.range ncb).filter (fun j => blockKept zero_tol data b_size ((i * ncb + j) * b_size))

/-- The number of blocks kept in the first `k` block rows. -/
def keptBlocksBefore {α : Type} [LinearOrderedRing α] (zero_tol : α) (data : List α)
    (b_size ncb k : Nat) : Nat :=
  ((List.range k).flatMap (keptBlocksAt zero_tol data b_size ncb)).length

/-- The row-major buffer of the 2 x 2 matrix with rows `1 0` and `0 2`. -/
def exDense : List ℤ := [1, 0, 0, 2]

/-- The row-major buffer of the 2 x 2 matrix with rows `1 2` and `3 4`. -/
def exDenseFull : List ℤ := [1, 2, 3, 4]

/-- A buffer in block format for a 2 x 4 matrix with 2 x 2 blocks: one block with all
scalars non-zero and one all-zero block. -/
def exBlockDense : List ℤ := [1, 2, 3, 4, 0, 0, 0, 0]

/-- The row-major dense buffer of the `n x n` identity matrix. -/
def identityBuffer {α : Type} [Zero α] [One α] (n : Nat) : List α :=
  (List.range (n * n)).map (fun k => if k / n = k % n then 1 else 0)

/-- The COO storage of `A` with the triplet `(r, c, v)` stored after the others. -/
def COOMatrix.withTriplet {α : Type} (A : COOMatrix α) (r c : Nat) (v : α) : COOMatrix α :=
  { A with idx1 := A.idx1 ++ [r], idx2 := A.idx2 ++ [c], vals := A.vals ++ [v],
           nnz := A.nnz + 1 }

/-- The storage of `A` with the `k`-th stored value replaced by `v`. -/
def Matrix.withValue {α : Type} (A : Matrix α) (k : Nat) (v : α) : Matrix α :=
  { A with vals := store A.vals k v }

/-! ## Relating the formats -/

/-- The same arrays with the two dimensions exchanged. -/
def Matrix.swapDims {α : Type} (A : Matrix α) : Matrix α :=
  { A with n_rows := A.n_cols, n_cols := A.n_rows }

/-- The BSR object over the arrays and dimensions of `A` with 1 x 1 blocks. -/
def BSRMatrix.ofScalar {α : Type} (A : Matrix α) (n_blocks : Nat) : BSRMatrix α :=
  { A with b_rows := 1, b_cols := 1, n_blocks := n_blocks, b_size := 1 }

/-- The dot product of two vectors, `sum_i u[i] * v[i]`. -/
def dot {α : Type} [CommRing α] (u v : List α) : α :=
  (List.zipWith (· * ·) u v).sum

/-- The object is one that a dimension/reservation constructor has just built:
`COOMatrix(n, m, hint)`, `CSRMatrix(n, m, hint)`, `CSCMatrix(n, m, hint)` or
`BSRMatrix(n, m, br, bc, nb, hint)` (positive block dimensions, run to completion). -/
def AnyMatrix.Reserved {α : Type} (M : AnyMatrix α) : Prop :=
  (∃ n m hint, M = .coo (COOMatrix.ctor n m hint)) ∨
  (∃ n m hint, M = .csr (CSRMatrix.ctor n m hint)) ∨
  (∃ n m hint, M = .csc (CSCMatrix.ctor n m hint)) ∨
  (∃ n m br bc nb hint A, 0 < br ∧ 0 < bc ∧ BSRMatrix.ctor n m br bc nb hint = .ok A ∧
    M = .bsr A)

/-- The storage holds no entry: no triplets (COO), a zero-filled pointer array with one entry
per row (CSR), column (CSC) or block row (BSR) plus one. -/
def AnyMatrix.EmptyStorage {α : Type} : AnyMatrix α → Prop
  | .coo A => COOMatrix.triplets A = [] ∧ A.nnz = 0
  | .csr A => A.idx1 = List.replicate (A.n_rows + 1) 0
  | .csc A => A.idx1 = List.replicate (A.n_cols + 1) 0
  | .bsr A => A.idx1 = List.replicate (A.n_rows / A.b_rows + 1) 0

/-! ## Kernels with every subscript checked

The kernels above are total: a subscript out of range reads `0` or writes nothing.  The
`_chk` twin of a kernel is the same loop nest with every subscript `v[i]` checked: it returns
`none` as soon as one is out of range. -/

section checked

variable {α : Type} [Zero α] [Add α] [Sub α] [Mul α]

/-- The read `v[i]`, checked: `none` when `i` is out of range. -/
def load_chk {β : Type} (v : List β) (i : Nat) : Option β := v[i]?

/-- The write `v[i] = a`, checked: `none` when `i` is out of range. -/
def store_chk {β : Type} (v : List β) (i : Nat) (a : β) : Option (List β) :=
  if i < v.length then some (v.set i a) else none

/-- The statement `b[t] = op(b[t], vals[k] * x[c])` (`+=` or `-=`), its three reads and its
write checked. -/
def update_chk (op : α → α → α) (vals x b : List α) (t k c : Nat) : Option (List α) := do
  let v ← load_chk vals k
  let xc ← load_chk x c
  let bt ← load_chk b t
  store_chk b t (op bt (v * xc))

/-- The loop `for (int i = 0; i < n; i++) b[i] = 0.0;`, checked. -/
def zero_fill_chk (n : Nat) (b : List α) : Option (List α) :=
  (List.range n).foldlM (fun b i => store_chk b i 0) b

/-- The loop `for (int i = 0; i < n; i++) r[i] = b[i];`, checked. -/
def copy_fill_chk (n : Nat) (b r : List α) : Option (List α) :=
  (List.range n).foldlM (fun r i => do
    let v ← load_chk b i
    store_chk r i v) r

namespace COOMatrix

def mult_append_helper_chk (A : COOMatrix α) (x b : List α) : Option (List α) :=
  (List.range A.nnz).foldlM
    (fun b i => do
      let t ← load_chk A.idx1 i
      let c ← load_chk A.idx2 i
      update_chk (· + ·) A.vals x b t i c) b

def mult_append_T_helper_chk (A : COOMatrix α) (x b : List α) : Option (List α) :=
  (List.range A.nnz).foldlM
    (fun b i => do
      let t ← load_chk A.idx2 i
      let c ← load_chk A.idx1 i
      update_chk (· + ·) A.vals x b t i c) b

def mult_append_neg_helper_chk (A : COOMatrix α) (x b : List α) : Option (List α) :=
  (List.range A.nnz).foldlM
    (fun b i => do
      let t ← load_chk A.idx1 i
      let c ← load_chk A.idx2 i
      update_chk (· - ·) A.vals x b t i c) b

def mult_append_neg_T_helper_chk (A : COOMatrix α) (x b : List α) : Option (List α) :=
  (List.range A.nnz).foldlM
    (fun b i => do
      let t ← load_chk A.idx2 i
      let c ← load_chk A.idx1 i
      update_chk (· - ·) A.vals x b t i c) b

def mult_helper_chk (A : COOMatrix α) (x b : List α) : Option (List α) := do
  let b ← zero_fill_chk A.n_rows b
  mult_append_helper_chk A x b

def mult_T_helper_chk (A : COOMatrix α) (x b : List α) : Option (List α) := do
  let b ← zero_fill_chk A.n_cols b
  mult_append_T_helper_chk A x b

def residual_helper_chk (A : COOMatrix α) (x b r : List α) : Option (List α) := do
  let r ← copy_fill_chk A.n_rows b r
  (List.range A.nnz).foldlM
    (fun r i => do
      let t ← load_chk A.idx1 i
      let c ← load_chk A.idx2 i
      update_chk (· - ·) A.vals x r t i c) r

end COOMatrix

namespace CSRMatrix

def mult_append_helper_chk (A : CSRMatrix α) (x b : List α) : Option (List α) :=
  (List.range A.n_rows).foldlM
    (fun b i => do
      let start ← load_chk A.idx1 i
      let stop ← load_chk A.idx1 (i + 1)
      (span start stop).foldlM
        (fun b j => do
          let c ← load_chk A.idx2 j
          update_chk (· + ·) A.vals x b i j c) b) b

def mult_append_T_helper_chk (A : CSRMatrix α) (x b : List α) : Option (List α) :=
  (List.range A.n_rows).foldlM
    (fun b i => do
      let start ← load_chk A.idx1 i
      let stop ← load_chk A.idx1 (i + 1)
      (span start stop).foldlM
        (fun b j => do
          let c ← load_chk A.idx2 j
          update_chk (· + ·) A.vals x b c j i) b) b

def mult_append_neg_helper_chk (A : CSRMatrix α) (x b : List α) : Option (List α) :=
  (List.range A.n_rows).foldlM
    (fun b i => do
      let start ← load_chk A.idx1 i
      let stop ← load_chk A.idx1 (i + 1)
      (span start stop).foldlM
        (fun b j => do
          let c ← load_chk A.idx2 j
          update_chk (· - ·) A.vals x b i j c) b) b

def mult_append_neg_T_helper_chk (A : CSRMatrix α) (x b : List α) : Option (List α) :=
  (List.range A.n_rows).foldlM
    (fun b i => do
      let start ← load_chk A.idx1 i
      let stop ← load_chk A.idx1 (i + 1)
      (span start stop).foldlM
        (fun b j => do
          let c ← load_chk A.idx2 j
          update_chk (· - ·) A.vals x b c j i) b) b

def mult_helper_chk (A : CSRMatrix α) (x b : List α) : Option (List α) := do
  let b ← zero_fill_chk A.n_rows b
  mult_append_helper_chk A x b

def mult_T_helper_chk (A : CSRMatrix α) (x b : List α) : Option (List α) := do
  let b ← zero_fill_chk A.n_cols b
  mult_append_T_helper_chk A x b

def residual_helper_chk (A : CSRMatrix α) (x b r : List α) : Option (List α) := do
  let r ← copy_fill_chk A.n_rows b r
  (List.range A.n_rows).foldlM
    (fun r i => do
      let start ← load_chk A.idx1 i
      let stop ← load_chk A.idx1 (i + 1)
      (span start stop).foldlM
        (fun r j => do
          let c ← load_chk A.idx2 j
          update_chk (· - ·) A.vals x r i j c) r) r

end CSRMatrix

namespace CSCMatrix

def mult_append_helper_chk (A : CSCMatrix α) (x b : List α) : Option (List α) :=
  (List.range A.n_cols).foldlM
    (fun b i => do
      let start ← load_chk A.idx1 i
      let stop ← load_chk A.idx1 (i + 1)
      (span start stop).foldlM
        (fun b j => do
          let c ← load_chk A.idx2 j
          update_chk (· + ·) A.vals x b c j i) b) b

def mult_append_T_helper_chk (A : CSCMatrix α) (x b : List α) : Option (List α) :=
  (List.range A.n_cols).foldlM
    (fun b i => do
      let start ← load_chk A.idx1 i
      let stop ← load_chk A.idx1 (i + 1)
      (span start stop).foldlM
        (fun b j => do
          let c ← load_chk A.idx2 j
          update_chk (· + ·) A.vals x b i j c) b) b

def mult_append_neg_helper_chk (A : CSCMatrix α) (x b : List α) : Option (List α) :=
  (List.range A.n_cols).foldlM
    (fun b i => do
      let start ← load_chk A.idx1 i
      let stop ← load_chk A.idx1 (i + 1)
      (span start stop).foldlM
        (fun b j => do
          let c ← load_chk A.idx2 j
          update_chk (· - ·) A.vals x b c j i) b) b

def mult_append_neg_T_helper_chk (A : CSCMatrix α) (x b : List α) : Option (List α) :=
  (List.range A.n_cols).foldlM
    (fun b i => do
      let start ← load_chk A.idx1 i
      let stop ← load_chk A.idx1 (i + 1)
      (span start stop).foldlM
        (fun b j => do
          let c ← load_chk A.idx2 j
          update_chk (· - ·) A.vals x b i j c) b) b

def mult_helper_chk (A : CSCMatrix α) (x b : List α) : Option (List α) := do
  let b ← zero_fill_chk A.n_rows b
  mult_append_helper_chk A x b

def mult_T_helper_chk (A : CSCMatrix α) (x b : List α) : Option (List α) := do
  let b ← zero_fill_chk A.n_cols b
  mult_append_T_helper_chk A x b

def residual_helper_chk (A : CSCMatrix α) (x b r : List α) : Option (List α) := do
  let r ← copy_fill_chk A.n_rows b r
  (List.range A.n_cols).foldlM
    (fun r i => do
      let start ← load_chk A.idx1 i
      let stop ← load_chk A.idx1 (i + 1)
      (span start stop).foldlM
        (fun r j => do
          let c ← load_chk A.idx2 j
          update_chk (· - ·) A.vals x r c j i) r) r

end CSCMatrix

namespace BSRMatrix

def block_mult_helper_chk (A : BSRMatrix α) (row num_blocks_prev col : Nat) (x b : List α) :
    Option (List α) :=
  let upper_i := row * A.b_rows
  let upper_j := col * A.b_cols
  let data_offset := num_blocks_prev * A.b_size
  (List.range A.b_rows).foldlM
    (fun b i =>
      (List.range A.b_cols).foldlM
        (fun b j => update_chk (· + ·) A.vals x b (upper_i + i) (i * A.b_cols + j + data_offset)
          (upper_j + j)) b) b

def block_mult_T_helper_chk (A : BSRMatrix α) (row num_blocks_prev col : Nat) (x b : List α) :
    Option (List α) :=
  let upper_i := row * A.b_rows
  let upper_j := col * A.b_cols
  let data_offset := num_blocks_prev * A.b_size
  (List.range A.b_rows).foldlM
    (fun b i =>
      (List.range A.b_cols).foldlM
        (fun b j => update_chk (· + ·) A.vals x b (upper_j + j) (i * A.b_cols + j + data_offset)
          (upper_i + i)) b) b

def block_mult_neg_helper_chk (A : BSRMatrix α) (row num_blocks_prev col : Nat) (x b : List α) :
    Option (List α) :=
  let upper_i := row * A.b_rows
  let upper_j := col * A.b_cols
  let data_offset := num_blocks_prev * A.b_size
  (List.range A.b_rows).foldlM
    (fun b i =>
      (List.range A.b_cols).foldlM
        (fun b j => update_chk (· - ·) A.vals x b (upper_i + i) (i * A.b_cols + j + data_offset)
          (upper_j + j)) b) b

def block_mult_neg_T_helper_chk (A : BSRMatrix α) (row num_blocks_prev col : Nat) (x b : List α) :
    Option (List α) :=
  let upper_i := row * A.b_rows
  let upper_j := col * A.b_cols
  let data_offset := num_blocks_prev * A.b_size
  (List.range A.b_rows).foldlM
    (fun b i =>
      (List.range A.b_cols).foldlM
        (fun b j => update_chk (· - ·) A.vals x b (upper_j + j) (i * A.b_cols + j + data_offset)
          (upper_i + i)) b) b

def block_res_helper_chk (A : BSRMatrix α) (row num_blocks_prev col : Nat) (x r : List α) :
    Option (List α) :=
  let upper_i := row * A.b_rows
  let upper_j := col * A.b_cols
  let data_offset := num_blocks_prev * A.b_size
  (List.range A.b_rows).foldlM
    (fun r i =>
      (List.range A.b_cols).foldlM
        (fun r j => update_chk (· - ·) A.vals x r (upper_i + i) (i * A.b_cols + j + data_offset)
          (upper_j + j)) r) r

def mult_append_helper_chk (A : BSRMatrix α) (x b : List α) : Option (List α) :=
  (List.range (A.n_rows / A.b_rows)).foldlM
    (fun b i => do
      let start ← load_chk A.idx1 i
      let stop ← load_chk A.idx1 (i + 1)
      (span start stop).foldlM
        (fun b j => do
          let c ← load_chk A.idx2 j
          block_mult_helper_chk A i j c x b) b) b

def mult_append_T_helper_chk (A : BSRMatrix α) (x b : List α) : Option (List α) :=
  (List.range (A.n_rows / A.b_rows)).foldlM
    (fun b i => do
      let start ← load_chk A.idx1 i
      let stop ← load_chk A.idx1 (i + 1)
      (span start stop).foldlM
        (fun b j => do
          let c ← load_chk A.idx2 j
          block_mult_T_helper_chk A i j c x b) b) b

def mult_append_neg_helper_chk (A : BSRMatrix α) (x b : List α) : Option (List α) :=
  (List.range (A.n_rows / A.b_rows)).foldlM
    (fun b i => do
      let start ← load_chk A.idx1 i
      let stop ← load_chk A.idx1 (i + 1)
      (span start stop).foldlM
        (fun b j => do
          let c ← load_chk A.idx2 j
          block_mult_neg_helper_chk A i j c x b) b) b

def mult_append_neg_T_helper_chk (A : BSRMatrix α) (x b : List α) : Option (List α) :=
  (List.range (A.n_rows / A.b_rows)).foldlM
    (fun b i => do
      let start ← load_chk A.idx1 i
      let stop ← load_chk A.idx1 (i + 1)
      (span start stop).foldlM
        (fun b j => do
          let c ← load_chk A.idx2 j
          block_mult_neg_T_helper_chk A i j c x b) b) b

def mult_helper_chk (A : BSRMatrix α) (x b : List α) : Option (List α) := do
  let b ← zero_fill_chk A.n_rows b
  mult_append_helper_chk A x b

def mult_T_helper_chk (A : BSRMatrix α) (x b : List α) : Option (List α) := do
  let b ← zero_fill_chk A.n_cols b
  mult_append_T_helper_chk A x b

def residual_helper_chk (A : BSRMatrix α) (x b r : List α) : Option (List α) := do
  let r ← copy_fill_chk A.n_rows b r
  (List.range (A.n_rows / A.b_rows)).foldlM
    (fun r i => do
      let start ← load_chk A.idx1 i
      let stop ← load_chk A.idx1 (i + 1)
      (span start stop).foldlM
        (fun r j => do
          let c ← load_chk A.idx2 j
          block_res_helper_chk A i j c x r) r) r

end BSRMatrix

def Matrix.mult_chk : AnyMatrix α → List α → List α → Option (List α)
  | .coo A, x, b => COOMatrix.mult_helper_chk A x b
  | .csr A, x, b => CSRMatrix.mult_helper_chk A x b
  | .csc A, x, b => CSCMatrix.mult_helper_chk A x b
  | .bsr A, x, b => BSRMatrix.mult_helper_chk A x b

def Matrix.mult_T_chk : AnyMatrix α → List α → List α → Option (List α)
  | .coo A, x, b => COOMatrix.mult_T_helper_chk A x b
  | .csr A, x, b => CSRMatrix.mult_T_helper_chk A x b
  | .csc A, x, b => CSCMatrix.mult_T_helper_chk A x b
  | .bsr A, x, b => BSRMatrix.mult_T_helper_chk A x b

def Matrix.mult_append_chk : AnyMatrix α → List α → List α → Option (List α)
  | .coo A, x, b => COOMatrix.mult_append_helper_chk A x b
  | .csr A, x, b => CSRMatrix.mult_append_helper_chk A x b
  | .csc A, x, b => CSCMatrix.mult_append_helper_chk A x b
  | .bsr A, x, b => BSRMatrix.mult_append_helper_chk A x b

def Matrix.mult_append_T_chk : AnyMatrix α → List α → List α → Option (List α)
  | .coo A, x, b => COOMatrix.mult_append_T_helper_chk A x b
  | .csr A, x, b => CSRMatrix.mult_append_T_helper_chk A x b
  | .csc A, x, b => CSCMatrix.mult_append_T_helper_chk A x b
  | .bsr A, x, b => BSRMatrix.mult_append_T_helper_chk A x b

def Matrix.mult_append_neg_chk : AnyMatrix α → List α → List α → Option (List α)
  | .coo A, x, b => COOMatrix.mult_append_neg_helper_chk A x b
  | .csr A, x, b => CSRMatrix.mult_append_neg_helper_chk A x b
  | .csc A, x, b => CSCMatrix.mult_append_neg_helper_chk A x b
  | .bsr A, x, b => BSRMatrix.mult_append_neg_helper_chk A x b

def Matrix.mult_append_neg_T_chk : AnyMatrix α → List α → List α → Option (List α)
  | .coo A, x, b => COOMatrix.mult_append_neg_T_helper_chk A x b
  | .csr A, x, b => CSRMatrix.mult_append_neg_T_helper_chk A x b
  | .csc A, x, b => CSCMatrix.mult_append_neg_T_helper_chk A x b
  | .bsr A, x, b => BSRMatrix.mult_append_neg_T_helper_chk A x b

def Matrix.residual_chk : AnyMatrix α → List α → List α → List α → Option (List α)
  | .coo A, x, b, r => COOMatrix.residual_helper_chk A x b r
  | .csr A, x, b, r => CSRMatrix.residual_helper_chk A x b r
  | .csc A, x, b, r => CSCMatrix.residual_helper_chk A x b r
  | .bsr A, x, b, r => BSRMatrix.residual_helper_chk A x b r

end checked

/-! ## The subscripts read from the dense buffer -/

/-- The subscripts at which `CSCMatrix(int _nrows, int _ncols, double* _data)` evaluates
`_data[...]`, in execution order: the loop nest of the constructor, keeping only the
subscript `i*n_cols + j` of each read. -/
def CSCMatrix.ctor_data_reads (_nrows _ncols : Nat) : List Nat :=
  (List.range _ncols).foldl
    (fun log i =>
      (List.range _nrows).foldl
        (fun log j => log ++ [i * _ncols + j]) log) []

/-- The body of the loop over `j` in the BSR dense-buffer constructor, keeping only
`data_offset` and the subscripts `k` of the reads `_data[k]`: one per scalar of the block in
the test loop, and one more per scalar when the block is appended. -/
def BSRMatrix.scan_block_reads {α : Type} [LinearOrderedRing α] (zero_tol : α) (b_size : Nat)
    (_data : List α) (s : Nat × List Nat) (_j : Nat) : Nat × List Nat :=
  let data_offset := s.1
  let test : List α :=
    (span data_offset (data_offset + b_size)).foldl
      (fun test k => if |load _data k| > zero_tol then test ++ [load _data k] else test) []
  let log1 : List Nat :=
    (span data_offset (data_offset + b_size)).foldl (fun log k => log ++ [k]) s.2
  let log2 : List Nat :=
    if test.length > 0 then
      (span data_offset (data_offset + b_size)).foldl (fun log k => log ++ [k]) log1
    else log1
  (data_offset + b_size, log2)

/-- The subscripts at which `BSRMatrix(int, int, int, int, double* _data)` evaluates
`_data[...]`, in execution order (for dimensions the constructor accepts). -/
def BSRMatrix.ctor_data_reads {α : Type} [LinearOrderedRing α] (zero_tol : α)
    (_nrows _ncols _brows _bcols : Nat) (_data : List α) : List Nat :=
  ((List.range (_nrows / _brows)).foldl
    (fun s _i =>
      (List.range (_ncols / _bcols)).foldl
        (BSRMatrix.scan_block_reads zero_tol (_brows * _bcols) _data) s) (0, [])).2

/-- Block `(I, J)` of a buffer in block format with `ncb` blocks per block row: the
contiguous slice `data[(I*ncb + J)*b_size .. +b_size)`. -/
def blockSlice {α : Type} (data : List α) (ncb b_size I J : Nat) : List α :=
  slice data ((I * ncb + J) * b_size) ((I * ncb + J) * b_size + b_size)

/-- Whether block `(I, J)` holds a scalar of magnitude above `zero_tol`. -/
def blockIsKept {α : Type} [LinearOrderedRing α] (zero_tol : α) (data : List α)
    (ncb b_size I J : Nat) : Bool :=
  (blockSlice data ncb b_size I J).any (fun v => decide (|v| > zero_tol))

/-! ## ParVector

`par_vector.hpp`.  Every process of `MPI_COMM_WORLD` holds one `ParVector`; a distributed
vector is the family of these objects, listed by rank.  The scalar type `data_t` is `α`, and
`pow` of `math.h` is a parameter. -/

/-- The members of `class ParVector`: `local` (the entries of `*local`, a `Vector` of
`local_n` entries; the pointer is set only when `local_n` is not 0), `global_n`, `local_n`. -/
structure ParVector (α : Type) where
  «local» : List α
  global_n : Nat
  local_n : Nat

/-- Modelled from the spec: `lpNorm<p>` of the Vector contract (`vector.hpp` is not among the
sources): the p-norm of a fixed-length numeric buffer, the p-th root of the sum of the p-th
powers of the magnitudes of its entries. -/
def Vector.lpNorm {α : Type} [LinearOrderedField α] (pow : α → α → α) (p : Nat)
    (v : List α) : α :=
  pow ((v.map (fun a => pow |a| (p : α))).sum) (1 / (p : α))

/-- `MPI_Allreduce(MPI_IN_PLACE, &result, 1, MPI_DATA_T, MPI_SUM, MPI_COMM_WORLD)`: the value
every process holds in `result` after the call, given the values the processes held before
it, by rank. -/
def MPI_Allreduce_SUM {α : Type} [AddMonoid α] (results : List α) : α :=
  results.sum

/-- The value of `result` in `ParVector::norm<p>()` when the process reaches the collective
call; `lpNorm` stands for `Vector::lpNorm<p>`. -/
def ParVector.norm_local {α : Type} [LinearOrderedField α] (pow : α → α → α)
    (lpNorm : List α → α) (p : Nat) (x : ParVector α) : α :=
  if x.local_n ≠ 0 then
    let result := lpNorm x.«local»
    pow result (p : α)
  else
    0

/-- `template<int p> data_t ParVector::norm() const`, called by every process of `world`
on its own object: the value each call returns. -/
def ParVector.norm {α : Type} [LinearOrderedField α] (pow : α → α → α)
    (lpNorm : List α → α) (p : Nat) (world : List (ParVector α)) : α :=
  let result := MPI_Allreduce_SUM (world.map (ParVector.norm_local pow lpNorm p))
  pow result (1 / (p : α))

/-! # Theorems -/

/-! ## Vector lemmas -/

section lemmas

theorem length_store {α : Type} (v : List α) (i : Nat) (a : α) : (store v i a).length = v.length := by
  simp [store]

theorem load_store {α : Type} [Zero α] (v : List α) (i j : Nat) (a : α) :
    load (store v i a) j = if i = j ∧ i < v.length then a else load v j := by
  unfold load store
  simp only [List.getD_eq_getElem?_getD, List.getElem?_set]
  by_cases h : i = j
  · subst h
    by_cases hl : i < v.length
    · simp [hl]
    · simp [hl, List.getElem?_eq_none (not_lt.mp hl)]
  · simp [h]

theorem load_store_same {α : Type} [Zero α] (v : List α) (i : Nat) (a : α) (h : i < v.length) :
    load (store v i a) i = a := by
  simp [load_store, h]

theorem load_store_ne {α : Type} [Zero α] (v : List α) (i j : Nat) (a : α) (h : i ≠ j) :
    load (store v i a) j = load v j := by
  simp [load_store, h]

theorem store_of_le {α : Type} (v : List α) (i : Nat) (a : α) (h : v.length ≤ i) : store v i a = v := by
  unfold store
  exact List.set_eq_of_length_le h

theorem load_of_le {α : Type} [Zero α] (v : List α) (i : Nat) (h : v.length ≤ i) : load v i = 0 := by
  unfold load
  simp [List.getElem?_eq_none h]

theorem vec_ext {α : Type} [Zero α] (u v : List α) (hl : u.length = v.length)
    (h : ∀ i < u.length, load u i = load v i) : u = v := by
  apply List.ext_getElem hl
  intro i h1 h2
  have := h i h1
  simpa [load, List.getD_eq_getElem?_getD, List.getElem?_eq_getElem h1,
    List.getElem?_eq_getElem h2] using this

/-! ## Accumulation lemmas -/

theorem length_accum {α : Type} [Zero α] (op : α → α → α) (us : List (Nat × α)) (b : List α) :
    (accum op us b).length = b.length := by
  induction us generalizing b with
  | nil => rfl
  | cons u us ih =>
    show (accum op us (store b u.1 (op (load b u.1) u.2))).length = b.length
    rw [ih, length_store]

theorem accum_nil {α : Type} [Zero α] (op : α → α → α) (b : List α) : accum op [] b = b := rfl

theorem accum_cons {α : Type} [Zero α] (op : α → α → α) (u : Nat × α) (us : List (Nat × α))
    (b : List α) : accum op (u :: us) b = accum op us (store b u.1 (op (load b u.1) u.2)) := rfl

theorem accum_append {α : Type} [Zero α] (op : α → α → α) (us vs : List (Nat × α))
    (b : List α) : accum op (us ++ vs) b = accum op vs (accum op us b) := by
  simp [accum, List.foldl_append]

theorem accum_map {α ι : Type} [Zero α] (op : α → α → α) (g : ι → Nat × α) (l : List ι)
    (b : List α) :
    accum op (l.map g) b = l.foldl (fun b j => store b (g j).1 (op (load b (g j).1) (g j).2)) b := by
  simp [accum, List.foldl_map]

theorem accum_flatMap {α ι : Type} [Zero α] (op : α → α → α) (g : ι → List (Nat × α))
    (l : List ι) (b : List α) :
    accum op (l.flatMap g) b = l.foldl (fun b i => accum op (g i) b) b := by
  induction l generalizing b with
  | nil => rfl
  | cons i l ih => simp [List.flatMap_cons, accum_append, ih]

theorem termsAt_nil {α : Type} (r : Nat) : termsAt ([] : List (Nat × α)) r = [] := rfl

theorem termsAt_cons {α : Type} (u : Nat × α) (us : List (Nat × α)) (r : Nat) :
    termsAt (u :: us) r = if u.1 = r then u.2 :: termsAt us r else termsAt us r := by
  unfold termsAt
  by_cases h : u.1 = r <;> simp [List.filter_cons, h]

theorem termsAt_append {α : Type} (us vs : List (Nat × α)) (r : Nat) :
    termsAt (us ++ vs) r = termsAt us r ++ termsAt vs r := by
  simp [termsAt]

/-- Position `r` of the result of an accumulation sequence is the left fold of `op` over the
terms aimed at `r`, in execution order, starting from the old `b[r]`. -/
theorem load_accum {α : Type} [Zero α] (op : α → α → α) (us : List (Nat × α)) (b : List α)
    (r : Nat) (hr : r < b.length) :
    load (accum op us b) r = (termsAt us r).foldl op (load b r) := by
  induction us generalizing b with
  | nil => rfl
  | cons u us ih =>
    rw [accum_cons, ih _ (by rw [length_store]; exact hr), termsAt_cons]
    by_cases h : u.1 = r
    · subst h
      simp [load_store_same _ _ _ hr]
    · simp [h, load_store_ne _ _ _ _ h]

theorem termsAt_map_const {α ι : Type} (i r : Nat) (t : ι → α) (l : List ι) :
    termsAt (l.map (fun j => (i, t j))) r = if i = r then l.map t else [] := by
  induction l with
  | nil => simp [termsAt]
  | cons j l ih =>
    rw [List.map_cons, termsAt_cons, ih]
    by_cases h : i = r <;> simp [h]

theorem termsAt_sweep {α ι : Type} (n r : Nat) (l : Nat → List ι) (t : Nat → ι → α) :
    termsAt ((List.range n).flatMap (fun i => (l i).map (fun j => (i, t i j)))) r =
      if r < n then (l r).map (t r) else [] := by
  induction n with
  | zero => simp [termsAt]
  | succ n ih =>
    rw [List.range_succ, List.flatMap_append, termsAt_append, ih]
    simp only [List.flatMap_cons, List.flatMap_nil, List.append_nil]
    rw [termsAt_map_const]
    by_cases h1 : r < n
    · have h2 : n ≠ r := by omega
      have h3 : r < n + 1 := by omega
      simp [h1, h2, h3]
    · by_cases h2 : n = r
      · subst h2
        simp
      · have h3 : ¬ r < n + 1 := by omega
        simp [h1, h2, h3]

/-! ## Filling loops -/

theorem length_fill {α : Type} (F : Nat → α) (n : Nat) (b : List α) :
    ((List.range n).foldl (fun b i => store b i (F i)) b).length = b.length := by
  induction n with
  | zero => rfl
  | succ n ih => rw [List.range_succ, List.foldl_append]; simp [length_store, ih]

theorem load_fill {α : Type} [Zero α] (F : Nat → α) (n : Nat) (b : List α) (i : Nat) :
    load ((List.range n).foldl (fun b i => store b i (F i)) b) i =
      if i < n ∧ i < b.length then F i else load b i := by
  induction n with
  | zero => simp
  | succ n ih =>
    rw [List.range_succ, List.foldl_append]
    simp only [List.foldl_cons, List.foldl_nil]
    rw [load_store, length_fill, ih]
    by_cases h1 : n = i
    · subst h1
      by_cases h2 : n < b.length <;> simp [h2]
    · by_cases h2 : i < n
      · have h3 : i < n + 1 := by omega
        simp [h1, h2, h3]
      · have h3 : ¬ i < n + 1 := by omega
        simp [h1, h2, h3]

theorem length_zero_fill {α : Type} [Zero α] (n : Nat) (b : List α) :
    (zero_fill n b).length = b.length := length_fill _ n b

theorem load_zero_fill {α : Type} [Zero α] (n : Nat) (b : List α) (i : Nat) (h : i < n) :
    load (zero_fill n b) i = 0 := by
  unfold zero_fill
  rw [load_fill]
  by_cases h2 : i < b.length
  · simp [h, h2]
  · simp [h2, load_of_le b i (not_lt.mp h2)]

theorem length_copy_fill {α : Type} [Zero α] (n : Nat) (b r : List α) :
    (copy_fill n b r).length = r.length := length_fill _ n r

theorem load_copy_fill {α : Type} [Zero α] (n : Nat) (b r : List α) (i : Nat) (h : i < n)
    (hr : i < r.length) : load (copy_fill n b r) i = load b i := by
  unfold copy_fill
  rw [load_fill]
  simp [h, hr]

/-! ## CSR row sweep -/

theorem CSRMatrix.csr_mult_append_helper_eq {α : Type} [Zero α] [Add α] [Sub α] [Mul α]
    (A : CSRMatrix α) (x b : List α) :
    CSRMatrix.mult_append_helper A x b = accum (· + ·) (CSRMatrix.rowUpdates A x) b := by
  simp only [CSRMatrix.mult_append_helper, CSRMatrix.rowUpdates, accum_flatMap, accum_map]

/-! ## Every kernel is an accumulation sequence -/

theorem BSRMatrix.block_mult_helper_eq {α : Type} [Zero α] [Add α] [Sub α] [Mul α]
    (A : BSRMatrix α) (row k col : Nat) (x b : List α) :
    BSRMatrix.block_mult_helper A row k col x b =
      accum (· + ·) (BSRMatrix.blockRowUpdates A row k col x) b := by
  simp only [BSRMatrix.block_mult_helper, BSRMatrix.blockRowUpdates, accum_flatMap, accum_map]

theorem BSRMatrix.block_mult_T_helper_eq {α : Type} [Zero α] [Add α] [Sub α] [Mul α]
    (A : BSRMatrix α) (row k col : Nat) (x b : List α) :
    BSRMatrix.block_mult_T_helper A row k col x b =
      accum (· + ·) (BSRMatrix.blockColUpdates A row k col x) b := by
  simp only [BSRMatrix.block_mult_T_helper, BSRMatrix.blockColUpdates, accum_flatMap, accum_map]

theorem BSRMatrix.block_mult_neg_helper_eq {α : Type} [Zero α] [Add α] [Sub α] [Mul α]
    (A : BSRMatrix α) (row k col : Nat) (x b : List α) :
    BSRMatrix.block_mult_neg_helper A row k col x b =
      accum (· - ·) (BSRMatrix.blockRowUpdates A row k col x) b := by
  simp only [BSRMatrix.block_mult_neg_helper, BSRMatrix.blockRowUpdates, accum_flatMap, accum_map]

theorem BSRMatrix.block_mult_neg_T_helper_eq {α : Type} [Zero α] [Add α] [Sub α] [Mul α]
    (A : BSRMatrix α) (row k col : Nat) (x b : List α) :
    BSRMatrix.block_mult_neg_T_helper A row k col x b =
      accum (· - ·) (BSRMatrix.blockColUpdates A row k col x) b := by
  simp only [BSRMatrix.block_mult_neg_T_helper, BSRMatrix.blockColUpdates, accum_flatMap, accum_map]

theorem BSRMatrix.block_res_helper_eq {α : Type} [Zero α] [Add α] [Sub α] [Mul α]
    (A : BSRMatrix α) (row k col : Nat) (x b : List α) :
    BSRMatrix.block_res_helper A row k col x b =
      accum (· - ·) (BSRMatrix.blockRowUpdates A row k col x) b := by
  simp only [BSRMatrix.block_res_helper, BSRMatrix.blockRowUpdates, accum_flatMap, accum_map]

theorem COOMatrix.coo_mult_append_helper_eq {α : Type} [Zero α] [Add α] [Sub α] [Mul α]
    (A : COOMatrix α) (x b : List α) :
    COOMatrix.mult_append_helper A x b = accum (· + ·) (COOMatrix.rowUpdates A x) b := by
  simp only [COOMatrix.mult_append_helper, COOMatrix.rowUpdates, accum_flatMap, accum_map]

theorem COOMatrix.coo_mult_append_T_helper_eq {α : Type} [Zero α] [Add α] [Sub α] [Mul α]
    (A : COOMatrix α) (x b : List α) :
    COOMatrix.mult_append_T_helper A x b = accum (· + ·) (COOMatrix.colUpdates A x) b := by
  simp only [COOMatrix.mult_append_T_helper, COOMatrix.colUpdates, accum_flatMap, accum_map]

theorem COOMatrix.coo_mult_append_neg_helper_eq {α : Type} [Zero α] [Add α] [Sub α] [Mul α]
    (A : COOMatrix α) (x b : List α) :
    COOMatrix.mult_append_neg_helper A x b = accum (· - ·) (COOMatrix.rowUpdates A x) b := by
  simp only [COOMatrix.mult_append_neg_helper, COOMatrix.rowUpdates, accum_flatMap, accum_map]

theorem COOMatrix.coo_mult_append_neg_T_helper_eq {α : Type} [Zero α] [Add α] [Sub α] [Mul α]
    (A : COOMatrix α) (x b : List α) :
    COOMatrix.mult_append_neg_T_helper A x b = accum (· - ·) (COOMatrix.colUpdates A x) b := by
  simp only [COOMatrix.mult_append_neg_T_helper, COOMatrix.colUpdates, accum_flatMap, accum_map]

theorem COOMatrix.coo_residual_helper_eq {α : Type} [Zero α] [Add α] [Sub α] [Mul α]
    (A : COOMatrix α) (x b r : List α) :
    COOMatrix.residual_helper A x b r =
      accum (· - ·) (COOMatrix.rowUpdates A x) (copy_fill A.n_rows b r) := by
  simp only [COOMatrix.residual_helper, COOMatrix.rowUpdates, accum_flatMap, accum_map]

theorem CSRMatrix.csr_mult_append_T_helper_eq {α : Type} [Zero α] [Add α] [Sub α] [Mul α]
    (A : CSRMatrix α) (x b : List α) :
    CSRMatrix.mult_append_T_helper A x b = accum (· + ·) (CSRMatrix.colUpdates A x) b := by
  simp only [CSRMatrix.mult_append_T_helper, CSRMatrix.colUpdates, accum_flatMap, accum_map]

theorem CSRMatrix.csr_mult_append_neg_helper_eq {α : Type} [Zero α] [Add α] [Sub α] [Mul α]
    (A : CSRMatrix α) (x b : List α) :
    CSRMatrix.mult_append_neg_helper A x b = accum (· - ·) (CSRMatrix.rowUpdates A x) b := by
  simp only [CSRMatrix.mult_append_neg_helper, CSRMatrix.rowUpdates, accum_flatMap, accum_map]

theorem CSRMatrix.csr_mult_append_neg_T_helper_eq {α : Type} [Zero α] [Add α] [Sub α] [Mul α]
    (A : CSRMatrix α) (x b : List α) :
    CSRMatrix.mult_append_neg_T_helper A x b = accum (· - ·) (CSRMatrix.colUpdates A x) b := by
  simp only [CSRMatrix.mult_append_neg_T_helper, CSRMatrix.colUpdates, accum_flatMap, accum_map]

theorem CSRMatrix.csr_residual_helper_eq {α : Type} [Zero α] [Add α] [Sub α] [Mul α]
    (A : CSRMatrix α) (x b r : List α) :
    CSRMatrix.residual_helper A x b r =
      accum (· - ·) (CSRMatrix.rowUpdates A x) (copy_fill A.n_rows b r) := by
  simp only [CSRMatrix.residual_helper, CSRMatrix.rowUpdates, accum_flatMap, accum_map]

theorem CSCMatrix.csc_mult_append_helper_eq {α : Type} [Zero α] [Add α] [Sub α] [Mul α]
    (A : CSCMatrix α) (x b : List α) :
    CSCMatrix.mult_append_helper A x b = accum (· + ·) (CSCMatrix.rowUpdates A x) b := by
  simp only [CSCMatrix.mult_append_helper, CSCMatrix.rowUpdates, accum_flatMap, accum_map]

theorem CSCMatrix.csc_mult_append_T_helper_eq {α : Type} [Zero α] [Add α] [Sub α] [Mul α]
    (A : CSCMatrix α) (x b : List α) :
    CSCMatrix.mult_append_T_helper A x b = accum (· + ·) (CSCMatrix.colUpdates A x) b := by
  simp only [CSCMatrix.mult_append_T_helper, CSCMatrix.colUpdates, accum_flatMap, accum_map]

theorem CSCMatrix.csc_mult_append_neg_helper_eq {α : Type} [Zero α] [Add α] [Sub α] [Mul α]
    (A : CSCMatrix α) (x b : List α) :
    CSCMatrix.mult_append_neg_helper A x b = accum (· - ·) (CSCMatrix.rowUpdates A x) b := by
  simp only [CSCMatrix.mult_append_neg_helper, CSCMatrix.rowUpdates, accum_flatMap, accum_map]

theorem CSCMatrix.csc_mult_append_neg_T_helper_eq {α : Type} [Zero α] [Add α] [Sub α] [Mul α]
    (A : CSCMatrix α) (x b : List α) :
    CSCMatrix.mult_append_neg_T_helper A x b = accum (· - ·) (CSCMatrix.colUpdates A x) b := by
  simp only [CSCMatrix.mult_append_neg_T_helper, CSCMatrix.colUpdates, accum_flatMap, accum_map]

theorem CSCMatrix.csc_residual_helper_eq {α : Type} [Zero α] [Add α] [Sub α] [Mul α]
    (A : CSCMatrix α) (x b r : List α) :
    CSCMatrix.residual_helper A x b r =
      accum (· - ·) (CSCMatrix.rowUpdates A x) (copy_fill A.n_rows b r) := by
  simp only [CSCMatrix.residual_helper, CSCMatrix.rowUpdates, accum_flatMap, accum_map]

theorem BSRMatrix.bsr_mult_append_helper_eq {α : Type} [Zero α] [Add α] [Sub α] [Mul α]
    (A : BSRMatrix α) (x b : List α) :
    BSRMatrix.mult_append_helper A x b = accum (· + ·) (BSRMatrix.rowUpdates A x) b := by
  simp only [BSRMatrix.mult_append_helper, BSRMatrix.rowUpdates, accum_flatMap, accum_map, BSRMatrix.block_mult_helper_eq]

theorem BSRMatrix.bsr_mult_append_T_helper_eq {α : Type} [Zero α] [Add α] [Sub α] [Mul α]
    (A : BSRMatrix α) (x b : List α) :
    BSRMatrix.mult_append_T_helper A x b = accum (· + ·) (BSRMatrix.colUpdates A x) b := by
  simp only [BSRMatrix.mult_append_T_helper, BSRMatrix.colUpdates, accum_flatMap, accum_map, BSRMatrix.block_mult_T_helper_eq]

theorem BSRMatrix.bsr_mult_append_neg_helper_eq {α : Type} [Zero α] [Add α] [Sub α] [Mul α]
    (A : BSRMatrix α) (x b : List α) :
    BSRMatrix.mult_append_neg_helper A x b = accum (· - ·) (BSRMatrix.rowUpdates A x) b := by
  simp only [BSRMatrix.mult_append_neg_helper, BSRMatrix.rowUpdates, accum_flatMap, accum_map, BSRMatrix.block_mult_neg_helper_eq]

theorem BSRMatrix.bsr_mult_append_neg_T_helper_eq {α : Type} [Zero α] [Add α] [Sub α] [Mul α]
    (A : BSRMatrix α) (x b : List α) :
    BSRMatrix.mult_append_neg_T_helper A x b = accum (· - ·) (BSRMatrix.colUpdates A x) b := by
  simp only [BSRMatrix.mult_append_neg_T_helper, BSRMatrix.colUpdates, accum_flatMap, accum_map, BSRMatrix.block_mult_neg_T_helper_eq]

theorem BSRMatrix.bsr_residual_helper_eq {α : Type} [Zero α] [Add α] [Sub α] [Mul α]
    (A : BSRMatrix α) (x b r : List α) :
    BSRMatrix.residual_helper A x b r =
      accum (· - ·) (BSRMatrix.rowUpdates A x) (copy_fill A.n_rows b r) := by
  simp only [BSRMatrix.residual_helper, BSRMatrix.rowUpdates, accum_flatMap, accum_map, BSRMatrix.block_res_helper_eq]

theorem Matrix.mult_append_eq {α : Type} [Zero α] [Add α] [Sub α] [Mul α] (M : AnyMatrix α) (x b : List α) :
    Matrix.mult_append M x b = accum (· + ·) (AnyMatrix.rowUpdates M x) b := by
  cases M with
  | coo A => exact COOMatrix.coo_mult_append_helper_eq A x b
  | csr A => exact CSRMatrix.csr_mult_append_helper_eq A x b
  | csc A => exact CSCMatrix.csc_mult_append_helper_eq A x b
  | bsr A => exact BSRMatrix.bsr_mult_append_helper_eq A x b

theorem Matrix.mult_append_T_eq {α : Type} [Zero α] [Add α] [Sub α] [Mul α] (M : AnyMatrix α) (x b : List α) :
    Matrix.mult_append_T M x b = accum (· + ·) (AnyMatrix.colUpdates M x) b := by
  cases M with
  | coo A => exact COOMatrix.coo_mult_append_T_helper_eq A x b
  | csr A => exact CSRMatrix.csr_mult_append_T_helper_eq A x b
  | csc A => exact CSCMatrix.csc_mult_append_T_helper_eq A x b
  | bsr A => exact BSRMatrix.bsr_mult_append_T_helper_eq A x b

theorem Matrix.mult_append_neg_eq {α : Type} [Zero α] [Add α] [Sub α] [Mul α] (M : AnyMatrix α) (x b : List α) :
    Matrix.mult_append_neg M x b = accum (· - ·) (AnyMatrix.rowUpdates M x) b := by
  cases M with
  | coo A => exact COOMatrix.coo_mult_append_neg_helper_eq A x b
  | csr A => exact CSRMatrix.csr_mult_append_neg_helper_eq A x b
  | csc A => exact CSCMatrix.csc_mult_append_neg_helper_eq A x b
  | bsr A => exact BSRMatrix.bsr_mult_append_neg_helper_eq A x b

theorem Matrix.mult_append_neg_T_eq {α : Type} [Zero α] [Add α] [Sub α] [Mul α] (M : AnyMatrix α) (x b : List α) :
    Matrix.mult_append_neg_T M x b = accum (· - ·) (AnyMatrix.colUpdates M x) b := by
  cases M with
  | coo A => exact COOMatrix.coo_mult_append_neg_T_helper_eq A x b
  | csr A => exact CSRMatrix.csr_mult_append_neg_T_helper_eq A x b
  | csc A => exact CSCMatrix.csc_mult_append_neg_T_helper_eq A x b
  | bsr A => exact BSRMatrix.bsr_mult_append_neg_T_helper_eq A x b

theorem Matrix.mult_eq {α : Type} [Zero α] [Add α] [Sub α] [Mul α] (M : AnyMatrix α) (x b : List α) :
    Matrix.mult M x b =
      accum (· + ·) (AnyMatrix.rowUpdates M x) (zero_fill (AnyMatrix.base M).n_rows b) := by
  cases M with
  | coo A => exact COOMatrix.coo_mult_append_helper_eq A x _
  | csr A => exact CSRMatrix.csr_mult_append_helper_eq A x _
  | csc A => exact CSCMatrix.csc_mult_append_helper_eq A x _
  | bsr A => exact BSRMatrix.bsr_mult_append_helper_eq A x _

theorem Matrix.mult_T_eq {α : Type} [Zero α] [Add α] [Sub α] [Mul α] (M : AnyMatrix α) (x b : List α) :
    Matrix.mult_T M x b =
      accum (· + ·) (AnyMatrix.colUpdates M x) (zero_fill (AnyMatrix.base M).n_cols b) := by
  cases M with
  | coo A => exact COOMatrix.coo_mult_append_T_helper_eq A x _
  | csr A => exact CSRMatrix.csr_mult_append_T_helper_eq A x _
  | csc A => exact CSCMatrix.csc_mult_append_T_helper_eq A x _
  | bsr A => exact BSRMatrix.bsr_mult_append_T_helper_eq A x _

theorem Matrix.residual_eq {α : Type} [Zero α] [Add α] [Sub α] [Mul α] (M : AnyMatrix α) (x b r : List α) :
    Matrix.residual M x b r =
      accum (· - ·) (AnyMatrix.rowUpdates M x) (copy_fill (AnyMatrix.base M).n_rows b r) := by
  cases M with
  | coo A => exact COOMatrix.coo_residual_helper_eq A x b r
  | csr A => exact CSRMatrix.csr_residual_helper_eq A x b r
  | csc A => exact CSCMatrix.csc_residual_helper_eq A x b r
  | bsr A => exact BSRMatrix.bsr_residual_helper_eq A x b r

theorem CSRMatrix.csr_termsAt_rowUpdates {α : Type} [Zero α] [Mul α] (A : CSRMatrix α)
    (x : List α) (r : Nat) (hr : r < A.n_rows) :
    termsAt (CSRMatrix.rowUpdates A x) r =
      (span (load A.idx1 r) (load A.idx1 (r + 1))).map
        (fun j => load A.vals j * load x (load A.idx2 j)) := by
  unfold CSRMatrix.rowUpdates
  rw [termsAt_sweep]
  simp [hr]

/-! ## Exact arithmetic -/

theorem foldl_add_eq {α : Type} [AddMonoid α] (l : List α) (a : α) :
    l.foldl (· + ·) a = a + l.sum := by
  induction l generalizing a with
  | nil => simp
  | cons t l ih => simp [ih, add_assoc]

theorem foldl_sub_eq {α : Type} [AddCommGroup α] (l : List α) (a : α) :
    l.foldl (· - ·) a = a - l.sum := by
  induction l generalizing a with
  | nil => simp
  | cons t l ih => simp [ih, sub_sub]

theorem load_accum_add {α : Type} [AddMonoid α] (us : List (Nat × α)) (b : List α) (r : Nat)
    (hr : r < b.length) : load (accum (· + ·) us b) r = load b r + sumAt us r := by
  rw [load_accum _ _ _ _ hr, foldl_add_eq]; rfl

theorem load_accum_sub {α : Type} [AddCommGroup α] (us : List (Nat × α)) (b : List α) (r : Nat)
    (hr : r < b.length) : load (accum (· - ·) us b) r = load b r - sumAt us r := by
  rw [load_accum _ _ _ _ hr, foldl_sub_eq]; rfl

theorem sumAt_nil {α : Type} [AddMonoid α] (r : Nat) : sumAt ([] : List (Nat × α)) r = 0 := rfl

theorem sumAt_append {α : Type} [AddMonoid α] (us vs : List (Nat × α)) (r : Nat) :
    sumAt (us ++ vs) r = sumAt us r + sumAt vs r := by
  simp [sumAt, termsAt_append]

theorem sumAt_singleton {α : Type} [AddMonoid α] (u : Nat × α) (r : Nat) :
    sumAt [u] r = if u.1 = r then u.2 else 0 := by
  unfold sumAt
  rw [termsAt_cons, termsAt_nil]
  by_cases h : u.1 = r <;> simp [h]

theorem sumAt_flatMap_range {α : Type} [AddCommMonoid α] (n r : Nat) (g : Nat → List (Nat × α)) :
    sumAt ((List.range n).flatMap g) r = ∑ i in Finset.range n, sumAt (g i) r := by
  induction n with
  | zero => simp [sumAt_nil]
  | succ n ih =>
    rw [List.range_succ, List.flatMap_append, sumAt_append, ih, Finset.sum_range_succ]
    simp

theorem sumAt_map_range {α : Type} [AddCommMonoid α] (n r : Nat) (g : Nat → Nat × α) :
    sumAt ((List.range n).map g) r =
      ∑ i in Finset.range n, if (g i).1 = r then (g i).2 else 0 := by
  induction n with
  | zero => simp [sumAt_nil]
  | succ n ih =>
    rw [List.range_succ, List.map_append, sumAt_append, ih, Finset.sum_range_succ]
    simp [sumAt_singleton]

theorem Ico_span (a b : Nat) : Finset.Ico a (a + (b - a)) = Finset.Ico a b := by
  by_cases h : a ≤ b
  · rw [Nat.add_sub_cancel' h]
  · have h1 : b - a = 0 := by omega
    rw [h1, Nat.add_zero, Finset.Ico_self, Finset.Ico_eq_empty_of_le (by omega)]

theorem sumAt_flatMap_range' {α : Type} [AddCommMonoid α] (a d r : Nat)
    (g : Nat → List (Nat × α)) :
    sumAt ((List.range' a d).flatMap g) r = ∑ i in Finset.Ico a (a + d), sumAt (g i) r := by
  induction d with
  | zero => simp [sumAt_nil]
  | succ d ih =>
    rw [List.range'_1_concat, List.flatMap_append, sumAt_append, ih, ← Nat.add_assoc,
      Finset.sum_Ico_succ_top (Nat.le_add_right a d)]
    simp

theorem sumAt_flatMap_span {α : Type} [AddCommMonoid α] (a b r : Nat)
    (g : Nat → List (Nat × α)) :
    sumAt ((span a b).flatMap g) r = ∑ i in Finset.Ico a b, sumAt (g i) r := by
  unfold span
  rw [sumAt_flatMap_range', Ico_span]

theorem sumAt_map_range' {α : Type} [AddCommMonoid α] (a d r : Nat) (g : Nat → Nat × α) :
    sumAt ((List.range' a d).map g) r =
      ∑ i in Finset.Ico a (a + d), if (g i).1 = r then (g i).2 else 0 := by
  induction d with
  | zero => simp [sumAt_nil]
  | succ d ih =>
    rw [List.range'_1_concat, List.map_append, sumAt_append, ih, ← Nat.add_assoc,
      Finset.sum_Ico_succ_top (Nat.le_add_right a d)]
    simp [sumAt_singleton]

theorem sumAt_map_span {α : Type} [AddCommMonoid α] (a b r : Nat) (g : Nat → Nat × α) :
    sumAt ((span a b).map g) r =
      ∑ i in Finset.Ico a b, if (g i).1 = r then (g i).2 else 0 := by
  unfold span
  rw [sumAt_map_range', Ico_span]

/-! ## Dense denotation of the accumulated sums -/

theorem sum_pick {α : Type} [CommRing α] (n : Nat) (S : Finset Nat) (tgt : Nat → Nat)
    (v x : Nat → α) (h : ∀ k ∈ S, tgt k < n) :
    ∑ c in Finset.range n, (∑ k in S, if tgt k = c then v k else 0) * x c =
      ∑ k in S, v k * x (tgt k) := by
  simp only [Finset.sum_mul, ite_mul, zero_mul]
  rw [Finset.sum_comm]
  apply Finset.sum_congr rfl
  intro k hk
  rw [Finset.sum_ite_eq]
  simp [h k hk]

theorem PtrOK.le_last {ptr : List Nat} {n m : Nat} (h : PtrOK ptr n m) (i : Nat) (hi : i ≤ n) :
    load ptr i ≤ m := by
  obtain ⟨_, _, hmono, hlast⟩ := h
  have key : ∀ d, d ≤ n → load ptr (n - d) ≤ m := by
    intro d
    induction d with
    | zero => intro _; simp [hlast]
    | succ d ih =>
      intro hd
      have h1 := hmono (n - (d + 1)) (by omega)
      have h2 := ih (by omega)
      have h3 : n - (d + 1) + 1 = n - d := by omega
      rw [h3] at h1
      exact le_trans h1 h2
  have := key (n - i) (by omega)
  have h4 : n - (n - i) = i := by omega
  rwa [h4] at this

theorem PtrOK.slice_lt {ptr : List Nat} {n m : Nat} (h : PtrOK ptr n m) (i k : Nat)
    (hi : i < n) (hk : k ∈ Finset.Ico (load ptr i) (load ptr (i + 1))) : k < m := by
  have h1 := h.le_last (i + 1) (by omega)
  have h2 := (Finset.mem_Ico.mp hk).2
  omega

theorem load_mem {l : List Nat} (k : Nat) (hk : k < l.length) : load l k ∈ l := by
  unfold load
  rw [List.getD_eq_getElem?_getD, List.getElem?_eq_getElem hk]
  exact List.getElem_mem hk

/-! ## COO sums -/

theorem COOMatrix.coo_sumAt_rowUpdates {α : Type} [CommRing α] (A : COOMatrix α) (x : List α)
    (hA : COOMatrix.WF A) (r : Nat) :
    sumAt (COOMatrix.rowUpdates A x) r =
      ∑ c in Finset.range A.n_cols, COOMatrix.dense A r c * load x c := by
  obtain ⟨_, h2, _, _, hc⟩ := hA
  unfold COOMatrix.rowUpdates COOMatrix.dense
  rw [sumAt_map_range]
  have e : ∀ c k, (if load A.idx1 k = r ∧ load A.idx2 k = c then load A.vals k else 0) =
      (if load A.idx2 k = c then (if load A.idx1 k = r then load A.vals k else 0) else 0) := by
    intro c k
    by_cases h1 : load A.idx1 k = r <;> by_cases h2 : load A.idx2 k = c <;> simp [h1, h2]
  simp only [e]
  rw [sum_pick A.n_cols (Finset.range A.nnz) (fun k => load A.idx2 k)
    (fun k => if load A.idx1 k = r then load A.vals k else 0) (fun c => load x c)
    (fun k hk => hc _ (load_mem k (by rw [h2]; exact Finset.mem_range.mp hk)))]
  apply Finset.sum_congr rfl
  intro k _
  simp only [ite_mul, zero_mul]

theorem COOMatrix.coo_sumAt_colUpdates {α : Type} [CommRing α] (A : COOMatrix α) (x : List α)
    (hA : COOMatrix.WF A) (c : Nat) :
    sumAt (COOMatrix.colUpdates A x) c =
      ∑ r in Finset.range A.n_rows, COOMatrix.dense A r c * load x r := by
  obtain ⟨h1, _, _, hr, _⟩ := hA
  unfold COOMatrix.colUpdates COOMatrix.dense
  rw [sumAt_map_range]
  have e : ∀ r k, (if load A.idx1 k = r ∧ load A.idx2 k = c then load A.vals k else 0) =
      (if load A.idx1 k = r then (if load A.idx2 k = c then load A.vals k else 0) else 0) := by
    intro r k
    by_cases h1 : load A.idx1 k = r <;> by_cases h2 : load A.idx2 k = c <;> simp [h1, h2]
  simp only [e]
  rw [sum_pick A.n_rows (Finset.range A.nnz) (fun k => load A.idx1 k)
    (fun k => if load A.idx2 k = c then load A.vals k else 0) (fun r => load x r)
    (fun k hk => hr _ (load_mem k (by rw [h1]; exact Finset.mem_range.mp hk)))]
  apply Finset.sum_congr rfl
  intro k _
  simp only [ite_mul, zero_mul]

/-! ## CSR sums -/

theorem CSRMatrix.csr_sumAt_rowUpdates {α : Type} [CommRing α] (A : CSRMatrix α) (x : List α)
    (hA : CSRMatrix.WF A) (r : Nat) (hr : r < A.n_rows) :
    sumAt (CSRMatrix.rowUpdates A x) r =
      ∑ c in Finset.range A.n_cols, CSRMatrix.dense A r c * load x c := by
  obtain ⟨hp, _, hc⟩ := hA
  unfold CSRMatrix.dense
  rw [sum_pick A.n_cols _ (fun k => load A.idx2 k) (fun k => load A.vals k)
    (fun c => load x c) (fun k hk => hc _ (load_mem k (hp.slice_lt r k hr hk)))]
  unfold sumAt
  rw [CSRMatrix.csr_termsAt_rowUpdates A x r hr]
  unfold span
  have := sumAt_map_range' (load A.idx1 r) (load A.idx1 (r + 1) - load A.idx1 r) r
    (fun j => (r, load A.vals j * load x (load A.idx2 j)))
  rw [Ico_span] at this
  simp only [if_true] at this
  rw [← this]
  unfold sumAt
  rw [termsAt_map_const]
  simp

theorem CSRMatrix.csr_sumAt_colUpdates {α : Type} [CommRing α] (A : CSRMatrix α) (x : List α)
    (c : Nat) :
    sumAt (CSRMatrix.colUpdates A x) c =
      ∑ r in Finset.range A.n_rows, CSRMatrix.dense A r c * load x r := by
  unfold CSRMatrix.colUpdates CSRMatrix.dense
  rw [sumAt_flatMap_range]
  apply Finset.sum_congr rfl
  intro i _
  rw [sumAt_map_span, Finset.sum_mul]
  apply Finset.sum_congr rfl
  intro k _
  simp only [ite_mul, zero_mul]

/-! ## CSC sums -/

theorem CSCMatrix.csc_sumAt_rowUpdates {α : Type} [CommRing α] (A : CSCMatrix α) (x : List α)
    (r : Nat) :
    sumAt (CSCMatrix.rowUpdates A x) r =
      ∑ c in Finset.range A.n_cols, CSCMatrix.dense A r c * load x c := by
  unfold CSCMatrix.rowUpdates CSCMatrix.dense
  rw [sumAt_flatMap_range]
  apply Finset.sum_congr rfl
  intro i _
  rw [sumAt_map_span, Finset.sum_mul]
  apply Finset.sum_congr rfl
  intro k _
  simp only [ite_mul, zero_mul]

theorem CSCMatrix.csc_sumAt_colUpdates {α : Type} [CommRing α] (A : CSCMatrix α) (x : List α)
    (hA : CSCMatrix.WF A) (c : Nat) (hc : c < A.n_cols) :
    sumAt (CSCMatrix.colUpdates A x) c =
      ∑ r in Finset.range A.n_rows, CSCMatrix.dense A r c * load x r := by
  obtain ⟨hp, _, hr⟩ := hA
  unfold CSCMatrix.dense
  rw [sum_pick A.n_rows _ (fun k => load A.idx2 k) (fun k => load A.vals k)
    (fun r => load x r) (fun k hk => hr _ (load_mem k (hp.slice_lt c k hc hk)))]
  unfold CSCMatrix.colUpdates
  rw [sumAt_flatMap_range]
  simp only [sumAt_map_span]
  rw [Finset.sum_eq_single c]
  · simp
  · intro i _ hne
    simp [hne]
  · intro h
    exact absurd (Finset.mem_range.mpr hc) h

/-! ## Block index arithmetic -/

theorem div_block (b I i : Nat) (hi : i < b) : (I * b + i) / b = I := by
  have hb : 0 < b := by omega
  rw [Nat.add_comm, Nat.add_mul_div_right _ _ hb, Nat.div_eq_of_lt hi, Nat.zero_add]

theorem mod_block (b I i : Nat) (hi : i < b) : (I * b + i) % b = i := by
  rw [Nat.add_comm, Nat.add_mul_mod_self_right, Nat.mod_eq_of_lt hi]

theorem block_decomp (b I i r : Nat) (hi : i < b) :
    I * b + i = r ↔ I = r / b ∧ i = r % b := by
  constructor
  · intro h
    subst h
    exact ⟨(div_block b I i hi).symm, (mod_block b I i hi).symm⟩
  · rintro ⟨h1, h2⟩
    rw [h1, h2]
    exact Nat.div_add_mod' r b

theorem sum_range_blocks {α : Type} [AddCommMonoid α] (n b : Nat) (f : Nat → α) :
    ∑ r in Finset.range (n * b), f r =
      ∑ I in Finset.range n, ∑ i in Finset.range b, f (I * b + i) := by
  induction n with
  | zero => simp
  | succ n ih =>
    rw [Nat.succ_mul, Finset.sum_range_add, ih, Finset.sum_range_succ]

theorem sum_block_pick {α : Type} [AddCommMonoid α] (n b r : Nat) (hr : r < n * b)
    (F : Nat → Nat → α) :
    ∑ I in Finset.range n, ∑ i in Finset.range b, (if I * b + i = r then F I i else 0) =
      F (r / b) (r % b) := by
  have hb : 0 < b := by
    rcases Nat.eq_zero_or_pos b with h | h
    · subst h; simp at hr
    · exact h
  have hI : r / b < n := by
    rw [Nat.div_lt_iff_lt_mul hb]; exact hr
  rw [Finset.sum_eq_single (r / b)]
  · rw [Finset.sum_eq_single (r % b)]
    · simp [Nat.div_add_mod']
    · intro i hi hne
      have := block_decomp b (r / b) i r (Finset.mem_range.mp hi)
      have hn : ¬ (r / b * b + i = r) := fun h => hne (this.mp h).2
      simp [hn]
    · intro h
      exact absurd (Finset.mem_range.mpr (Nat.mod_lt r hb)) h
  · intro I _ hne
    apply Finset.sum_eq_zero
    intro i hi
    have := block_decomp b I i r (Finset.mem_range.mp hi)
    have hn : ¬ (I * b + i = r) := fun h => hne (this.mp h).1
    simp [hn]
  · intro h
    exact absurd (Finset.mem_range.mpr hI) h

/-! ## BSR sums -/

theorem BSRMatrix.sumAt_blockRowUpdates {α : Type} [CommRing α] (A : BSRMatrix α)
    (row k col : Nat) (x : List α) (r : Nat) :
    sumAt (BSRMatrix.blockRowUpdates A row k col x) r =
      ∑ i in Finset.range A.b_rows, if row * A.b_rows + i = r then
        ∑ j in Finset.range A.b_cols,
          load A.vals (i * A.b_cols + j + k * A.b_size) * load x (col * A.b_cols + j)
      else 0 := by
  unfold BSRMatrix.blockRowUpdates
  rw [sumAt_flatMap_range]
  apply Finset.sum_congr rfl
  intro i _
  rw [sumAt_map_range]
  by_cases h : row * A.b_rows + i = r <;> simp [h]

theorem BSRMatrix.sumAt_blockColUpdates {α : Type} [CommRing α] (A : BSRMatrix α)
    (row k col : Nat) (x : List α) (c : Nat) :
    sumAt (BSRMatrix.blockColUpdates A row k col x) c =
      ∑ i in Finset.range A.b_rows, ∑ j in Finset.range A.b_cols,
        if col * A.b_cols + j = c then
          load A.vals (i * A.b_cols + j + k * A.b_size) * load x (row * A.b_rows + i)
        else 0 := by
  unfold BSRMatrix.blockColUpdates
  rw [sumAt_flatMap_range]
  apply Finset.sum_congr rfl
  intro i _
  rw [sumAt_map_range]

theorem BSRMatrix.n_rows_eq {α : Type} (A : BSRMatrix α) (hA : BSRMatrix.WF A) :
    A.n_rows = A.n_rows / A.b_rows * A.b_rows :=
  (Nat.div_mul_cancel (Nat.dvd_of_mod_eq_zero hA.2.2.1)).symm

theorem BSRMatrix.n_cols_eq {α : Type} (A : BSRMatrix α) (hA : BSRMatrix.WF A) :
    A.n_cols = A.n_cols / A.b_cols * A.b_cols :=
  (Nat.div_mul_cancel (Nat.dvd_of_mod_eq_zero hA.2.2.2.1)).symm

/-- The sum accumulated into row `r`: the blocks of block row `r / b_rows`, each read along
its local row `r % b_rows`. -/
theorem BSRMatrix.sumAt_rowUpdates_slice {α : Type} [CommRing α] (A : BSRMatrix α)
    (x : List α) (hA : BSRMatrix.WF A) (r : Nat) (hr : r < A.n_rows) :
    sumAt (BSRMatrix.rowUpdates A x) r =
      ∑ k in Finset.Ico (load A.idx1 (r / A.b_rows)) (load A.idx1 (r / A.b_rows + 1)),
        ∑ j in Finset.range A.b_cols,
          load A.vals (r % A.b_rows * A.b_cols + j + k * A.b_size) *
            load x (load A.idx2 k * A.b_cols + j) := by
  unfold BSRMatrix.rowUpdates
  rw [sumAt_flatMap_range]
  simp only [sumAt_flatMap_span, BSRMatrix.sumAt_blockRowUpdates]
  have hr2 : r < A.n_rows / A.b_rows * A.b_rows := by
    rw [← BSRMatrix.n_rows_eq A hA]; exact hr
  rw [← sum_block_pick (A.n_rows / A.b_rows) A.b_rows r hr2 (fun I i =>
    ∑ k in Finset.Ico (load A.idx1 I) (load A.idx1 (I + 1)),
        ∑ j in Finset.range A.b_cols,
          load A.vals (i * A.b_cols + j + k * A.b_size) *
            load x (load A.idx2 k * A.b_cols + j))]
  apply Finset.sum_congr rfl
  intro I _
  rw [Finset.sum_comm]
  apply Finset.sum_congr rfl
  intro i _
  by_cases h : I * A.b_rows + i = r <;> simp [h]

theorem BSRMatrix.bsr_sumAt_rowUpdates {α : Type} [CommRing α] (A : BSRMatrix α) (x : List α)
    (hA : BSRMatrix.WF A) (r : Nat) (hr : r < A.n_rows) :
    sumAt (BSRMatrix.rowUpdates A x) r =
      ∑ c in Finset.range A.n_cols, BSRMatrix.dense A r c * load x c := by
  rw [BSRMatrix.sumAt_rowUpdates_slice A x hA r hr]
  have hbc : 0 < A.b_cols := hA.2.1
  have hI : r / A.b_rows < A.n_rows / A.b_rows := by
    rw [Nat.div_lt_iff_lt_mul hA.1, ← BSRMatrix.n_rows_eq A hA]; exact hr
  obtain ⟨_, _, _, _, _, hp, hl, _, hc⟩ := hA
  conv_rhs => rw [BSRMatrix.n_cols_eq A ⟨‹_›, ‹_›, ‹_›, ‹_›, ‹_›, hp, hl, ‹_›, hc⟩]
  rw [sum_range_blocks]
  conv_lhs => rw [Finset.sum_comm]
  conv_rhs => rw [Finset.sum_comm]
  apply Finset.sum_congr rfl
  intro j hj
  have hj' := Finset.mem_range.mp hj
  unfold BSRMatrix.dense
  have e : ∀ J, (∑ k in Finset.Ico (load A.idx1 (r / A.b_rows)) (load A.idx1 (r / A.b_rows + 1)),
      if load A.idx2 k = (J * A.b_cols + j) / A.b_cols then
        load A.vals (k * A.b_size + r % A.b_rows * A.b_cols + (J * A.b_cols + j) % A.b_cols)
      else 0) =
      ∑ k in Finset.Ico (load A.idx1 (r / A.b_rows)) (load A.idx1 (r / A.b_rows + 1)),
      if load A.idx2 k = J then
        load A.vals (r % A.b_rows * A.b_cols + j + k * A.b_size)
      else 0 := by
    intro J
    rw [div_block _ _ _ hj', mod_block _ _ _ hj']
    apply Finset.sum_congr rfl
    intro k _
    have : k * A.b_size + r % A.b_rows * A.b_cols + j =
        r % A.b_rows * A.b_cols + j + k * A.b_size := by omega
    rw [this]
  simp only [e]
  rw [sum_pick (A.n_cols / A.b_cols) _ (fun k => load A.idx2 k)
    (fun k => load A.vals (r % A.b_rows * A.b_cols + j + k * A.b_size))
    (fun J => load x (J * A.b_cols + j))
    (fun k hk => hc _ (load_mem k (by rw [hl]; exact hp.slice_lt _ k hI hk)))]

theorem sum_local_pick {α : Type} [AddCommMonoid α] (b J c : Nat) (hb : 0 < b) (T : Nat → α) :
    ∑ j in Finset.range b, (if J * b + j = c then T j else 0) =
      if J = c / b then T (c % b) else 0 := by
  by_cases h : J = c / b
  · rw [if_pos h, Finset.sum_eq_single (c % b)]
    · rw [if_pos]
      rw [h]; exact Nat.div_add_mod' c b
    · intro j hj hne
      have := block_decomp b J j c (Finset.mem_range.mp hj)
      have hn : ¬ (J * b + j = c) := fun e => hne (this.mp e).2
      simp [hn]
    · intro hn
      exact absurd (Finset.mem_range.mpr (Nat.mod_lt c hb)) hn
  · rw [if_neg h]
    apply Finset.sum_eq_zero
    intro j hj
    have := block_decomp b J j c (Finset.mem_range.mp hj)
    have hn : ¬ (J * b + j = c) := fun e => h (this.mp e).1
    simp [hn]

theorem BSRMatrix.bsr_sumAt_colUpdates {α : Type} [CommRing α] (A : BSRMatrix α) (x : List α)
    (hA : BSRMatrix.WF A) (c : Nat) :
    sumAt (BSRMatrix.colUpdates A x) c =
      ∑ r in Finset.range A.n_rows, BSRMatrix.dense A r c * load x r := by
  conv_rhs => rw [BSRMatrix.n_rows_eq A hA]
  rw [sum_range_blocks]
  unfold BSRMatrix.colUpdates
  rw [sumAt_flatMap_range]
  simp only [sumAt_flatMap_span, BSRMatrix.sumAt_blockColUpdates]
  apply Finset.sum_congr rfl
  intro I _
  rw [Finset.sum_comm]
  apply Finset.sum_congr rfl
  intro i hi
  have hi' := Finset.mem_range.mp hi
  unfold BSRMatrix.dense
  rw [div_block _ _ _ hi', mod_block _ _ _ hi', Finset.sum_mul]
  apply Finset.sum_congr rfl
  intro k _
  rw [sum_local_pick A.b_cols (load A.idx2 k) c hA.2.1
    (fun j => load A.vals (i * A.b_cols + j + k * A.b_size) * load x (I * A.b_rows + i))]
  have e : i * A.b_cols + c % A.b_cols + k * A.b_size =
      k * A.b_size + i * A.b_cols + c % A.b_cols := by omega
  by_cases h : load A.idx2 k = c / A.b_cols <;> simp [h, e]

/-! ## The accumulated sums of an object of any class -/

theorem AnyMatrix.any_sumAt_rowUpdates {α : Type} [CommRing α] (M : AnyMatrix α) (x : List α)
    (hM : AnyMatrix.WF M) (r : Nat) (hr : r < (AnyMatrix.base M).n_rows) :
    sumAt (AnyMatrix.rowUpdates M x) r =
      ∑ c in Finset.range (AnyMatrix.base M).n_cols, AnyMatrix.dense M r c * load x c := by
  cases M with
  | coo A => exact COOMatrix.coo_sumAt_rowUpdates A x hM r
  | csr A => exact CSRMatrix.csr_sumAt_rowUpdates A x hM r hr
  | csc A => exact CSCMatrix.csc_sumAt_rowUpdates A x r
  | bsr A => exact BSRMatrix.bsr_sumAt_rowUpdates A x hM r hr

theorem AnyMatrix.any_sumAt_colUpdates {α : Type} [CommRing α] (M : AnyMatrix α) (x : List α)
    (hM : AnyMatrix.WF M) (c : Nat) (hc : c < (AnyMatrix.base M).n_cols) :
    sumAt (AnyMatrix.colUpdates M x) c =
      ∑ r in Finset.range (AnyMatrix.base M).n_rows, AnyMatrix.dense M r c * load x r := by
  cases M with
  | coo A => exact COOMatrix.coo_sumAt_colUpdates A x hM c
  | csr A => exact CSRMatrix.csr_sumAt_colUpdates A x c
  | csc A => exact CSCMatrix.csc_sumAt_colUpdates A x hM c hc
  | bsr A => exact BSRMatrix.bsr_sumAt_colUpdates A x hM c

theorem Matrix.length_mult {α : Type} [Zero α] [Add α] [Sub α] [Mul α] (M : AnyMatrix α)
    (x b : List α) : (Matrix.mult M x b).length = b.length := by
  rw [Matrix.mult_eq, length_accum, length_zero_fill]

theorem Matrix.length_mult_T {α : Type} [Zero α] [Add α] [Sub α] [Mul α] (M : AnyMatrix α)
    (x b : List α) : (Matrix.mult_T M x b).length = b.length := by
  rw [Matrix.mult_T_eq, length_accum, length_zero_fill]

theorem Matrix.length_residual {α : Type} [Zero α] [Add α] [Sub α] [Mul α] (M : AnyMatrix α)
    (x b r : List α) : (Matrix.residual M x b r).length = r.length := by
  rw [Matrix.residual_eq, length_accum, length_copy_fill]

/-- The value `mult` leaves in `b[r]`, in exact arithmetic. -/
theorem Matrix.load_mult {α : Type} [CommRing α] (M : AnyMatrix α) (x b : List α)
    (hM : AnyMatrix.WF M) (hb : b.length = (AnyMatrix.base M).n_rows) (r : Nat)
    (hr : r < (AnyMatrix.base M).n_rows) :
    load (Matrix.mult M x b) r =
      ∑ c in Finset.range (AnyMatrix.base M).n_cols, AnyMatrix.dense M r c * load x c := by
  rw [Matrix.mult_eq, load_accum_add _ _ _ (by rw [length_zero_fill, hb]; exact hr),
    load_zero_fill _ _ _ hr, zero_add, AnyMatrix.any_sumAt_rowUpdates M x hM r hr]

/-- The value `mult_T` leaves in `b[c]`, in exact arithmetic. -/
theorem Matrix.load_mult_T {α : Type} [CommRing α] (M : AnyMatrix α) (x b : List α)
    (hM : AnyMatrix.WF M) (hb : b.length = (AnyMatrix.base M).n_cols) (c : Nat)
    (hc : c < (AnyMatrix.base M).n_cols) :
    load (Matrix.mult_T M x b) c =
      ∑ r in Finset.range (AnyMatrix.base M).n_rows, AnyMatrix.dense M r c * load x r := by
  rw [Matrix.mult_T_eq, load_accum_add _ _ _ (by rw [length_zero_fill, hb]; exact hc),
    load_zero_fill _ _ _ hc, zero_add, AnyMatrix.any_sumAt_colUpdates M x hM c hc]

/-! ## COO triplets -/

theorem load_cons_zero {α : Type} [Zero α] (a : α) (l : List α) : load (a :: l) 0 = a := rfl

theorem load_cons_succ {α : Type} [Zero α] (a : α) (l : List α) (k : Nat) :
    load (a :: l) (k + 1) = load l k := rfl

theorem sum_range_zip {α β : Type} [AddCommMonoid β] [Zero α] (f : Nat → Nat → α → β) :
    ∀ (l1 l2 : List Nat) (l3 : List α) (n : Nat), l1.length = n → l2.length = n →
      l3.length = n →
      ∑ k in Finset.range n, f (load l1 k) (load l2 k) (load l3 k) =
        ((List.zip l1 (List.zip l2 l3)).map (fun t => f t.1 t.2.1 t.2.2)).sum := by
  intro l1
  induction l1 with
  | nil =>
    intro l2 l3 n h1 _ _
    simp at h1
    subst h1
    simp
  | cons a l1 ih =>
    intro l2 l3 n h1 h2 h3
    cases n with
    | zero => simp at h1
    | succ n =>
      cases l2 with
      | nil => simp at h2
      | cons a2 l2 =>
        cases l3 with
        | nil => simp at h3
        | cons a3 l3 =>
          simp only [List.length_cons, Nat.add_right_cancel_iff] at h1 h2 h3
          rw [Finset.sum_range_succ']
          simp only [load_cons_succ, load_cons_zero, List.zip_cons_cons, List.map_cons,
            List.sum_cons]
          rw [ih l2 l3 n h1 h2 h3, add_comm]

theorem COOMatrix.dense_eq_sum {α : Type} [CommRing α] (A : COOMatrix α)
    (hA : COOMatrix.WF A) (r c : Nat) :
    COOMatrix.dense A r c =
      ((COOMatrix.triplets A).map
        (fun t => if t.1 = r ∧ t.2.1 = c then t.2.2 else 0)).sum := by
  obtain ⟨h1, h2, h3, _, _⟩ := hA
  unfold COOMatrix.dense COOMatrix.triplets
  exact sum_range_zip (fun i j v => if i = r ∧ j = c then v else 0) A.idx1 A.idx2 A.vals
    A.nnz h1 h2 h3

theorem COOMatrix.dense_perm {α : Type} [CommRing α] (A A' : COOMatrix α)
    (hA : COOMatrix.WF A) (hA' : COOMatrix.WF A')
    (h : (COOMatrix.triplets A').Perm (COOMatrix.triplets A)) (r c : Nat) :
    COOMatrix.dense A' r c = COOMatrix.dense A r c := by
  rw [COOMatrix.dense_eq_sum A hA, COOMatrix.dense_eq_sum A' hA']
  exact (h.map _).sum_eq

theorem COOMatrix.dense_merged {α : Type} [CommRing α] (A A' : COOMatrix α)
    (hA : COOMatrix.WF A) (hA' : COOMatrix.WF A')
    (h : COOMatrix.Merged (COOMatrix.triplets A) (COOMatrix.triplets A')) (r c : Nat) :
    COOMatrix.dense A' r c = COOMatrix.dense A r c := by
  rw [COOMatrix.dense_eq_sum A hA, COOMatrix.dense_eq_sum A' hA']
  obtain ⟨l1, l2, l3, r0, c0, a, a', e1, e2⟩ := h
  rw [e1, e2]
  simp only [List.map_append, List.map_cons, List.sum_append, List.sum_cons]
  by_cases hk : r0 = r ∧ c0 = c
  · simp only [hk, and_self, if_true]
    abel
  · simp [hk]

/-- Two well-formed COO matrices of the same dimensions that denote the same dense matrix
give the same product. -/
theorem COOMatrix.mult_helper_congr {α : Type} [CommRing α] (A A' : COOMatrix α)
    (x b : List α) (hA : COOMatrix.WF A) (hA' : COOMatrix.WF A')
    (hr : A'.n_rows = A.n_rows) (hc : A'.n_cols = A.n_cols) (hb : b.length = A.n_rows)
    (h : ∀ r c, COOMatrix.dense A' r c = COOMatrix.dense A r c) :
    COOMatrix.mult_helper A' x b = COOMatrix.mult_helper A x b := by
  have l1 : (COOMatrix.mult_helper A' x b).length = b.length :=
    Matrix.length_mult (.coo A') x b
  have l2 : (COOMatrix.mult_helper A x b).length = b.length :=
    Matrix.length_mult (.coo A) x b
  apply vec_ext _ _ (by rw [l1, l2])
  intro i hi
  rw [l1, hb] at hi
  have e1 : load (COOMatrix.mult_helper A' x b) i = _ :=
    Matrix.load_mult (.coo A') x b hA' (by rw [hb]; exact hr.symm) i (by rw [← hr] at hi; exact hi)
  have e2 : load (COOMatrix.mult_helper A x b) i = _ :=
    Matrix.load_mult (.coo A) x b hA hb i hi
  rw [e1, e2]
  show ∑ c in Finset.range A'.n_cols, COOMatrix.dense A' i c * load x c =
    ∑ c in Finset.range A.n_cols, COOMatrix.dense A i c * load x c
  rw [hc]
  simp only [h]

/-! ## Storage-order terms of the BSR sweep -/

theorem termsAt_flatMap {α ι : Type} (l : List ι) (g : ι → List (Nat × α)) (r : Nat) :
    termsAt (l.flatMap g) r = l.flatMap (fun i => termsAt (g i) r) := by
  induction l with
  | nil => rfl
  | cons i l ih => simp [List.flatMap_cons, termsAt_append, ih]

theorem flatMap_congr_mem {ι β : Type} (l : List ι) (f g : ι → List β)
    (h : ∀ i ∈ l, f i = g i) : l.flatMap f = l.flatMap g := by
  induction l with
  | nil => rfl
  | cons i l ih =>
    simp only [List.flatMap_cons]
    rw [h i (List.mem_cons_self i l), ih (fun j hj => h j (List.mem_cons_of_mem i hj))]

theorem flatMap_nil_fun {ι β : Type} (l : List ι) :
    l.flatMap (fun _ => ([] : List β)) = [] := by
  induction l with
  | nil => rfl
  | cons i l ih => simp [List.flatMap_cons]

theorem flatMap_range_pick {β : Type} (n i0 : Nat) (G : Nat → List β) :
    (List.range n).flatMap (fun i => if i = i0 then G i else []) =
      if i0 < n then G i0 else [] := by
  induction n with
  | zero => simp
  | succ n ih =>
    rw [List.range_succ, List.flatMap_append, ih]
    simp only [List.flatMap_cons, List.flatMap_nil, List.append_nil]
    by_cases h1 : i0 < n
    · have h2 : n ≠ i0 := by omega
      have h3 : i0 < n + 1 := by omega
      simp [h1, h2, h3]
    · by_cases h2 : n = i0
      · subst h2
        simp
      · have h3 : ¬ i0 < n + 1 := by omega
        simp [h1, h2, h3]

theorem foldl_flatMap {β ι γ : Type} (f : β → γ → β) (l : List ι) (g : ι → List γ) (a : β) :
    (l.flatMap g).foldl f a = l.foldl (fun acc i => (g i).foldl f acc) a := by
  induction l generalizing a with
  | nil => rfl
  | cons i l ih => simp [List.flatMap_cons, List.foldl_append, ih]

theorem BSRMatrix.termsAt_blockRowUpdates {α : Type} [Zero α] [Mul α] (A : BSRMatrix α)
    (row k col : Nat) (x : List α) (I i : Nat) (hi : i < A.b_rows) :
    termsAt (BSRMatrix.blockRowUpdates A row k col x) (I * A.b_rows + i) =
      if row = I then
        (List.range A.b_cols).map (fun j =>
          load A.vals (i * A.b_cols + j + k * A.b_size) * load x (col * A.b_cols + j))
      else [] := by
  unfold BSRMatrix.blockRowUpdates
  rw [termsAt_flatMap]
  simp only [termsAt_map_const]
  by_cases h : row = I
  · subst h
    rw [if_pos rfl]
    rw [flatMap_congr_mem _ _ (fun i' => if i' = i then (List.range A.b_cols).map (fun j =>
          load A.vals (i' * A.b_cols + j + k * A.b_size) * load x (col * A.b_cols + j))
        else [])]
    · rw [flatMap_range_pick, if_pos hi]
    · intro i' _
      by_cases e : i' = i
      · subst e; simp
      · have : ¬ (row * A.b_rows + i' = row * A.b_rows + i) := by omega
        simp [e, this]
  · rw [if_neg h, ← flatMap_nil_fun (List.range A.b_rows)]
    apply flatMap_congr_mem
    intro i' hi'
    have hi'' := List.mem_range.mp hi'
    have hne : ¬ (row * A.b_rows + i' = I * A.b_rows + i) := by
      intro e
      have := (block_decomp A.b_rows row i' _ hi'').mp e
      rw [div_block _ _ _ hi] at this
      exact h this.1
    simp [hne]

theorem BSRMatrix.bsr_termsAt_rowUpdates {α : Type} [Zero α] [Mul α] (A : BSRMatrix α)
    (x : List α) (I i : Nat) (hI : I < A.n_rows / A.b_rows) (hi : i < A.b_rows) :
    termsAt (BSRMatrix.rowUpdates A x) (I * A.b_rows + i) =
      (span (load A.idx1 I) (load A.idx1 (I + 1))).flatMap (fun k =>
        (List.range A.b_cols).map (fun j =>
          load A.vals (i * A.b_cols + j + k * A.b_size) *
            load x (load A.idx2 k * A.b_cols + j))) := by
  unfold BSRMatrix.rowUpdates
  rw [termsAt_flatMap]
  simp only [termsAt_flatMap, BSRMatrix.termsAt_blockRowUpdates A _ _ _ x I i hi]
  rw [flatMap_congr_mem _ _ (fun I' => if I' = I then
      (span (load A.idx1 I') (load A.idx1 (I' + 1))).flatMap (fun k =>
        (List.range A.b_cols).map (fun j =>
          load A.vals (i * A.b_cols + j + k * A.b_size) *
            load x (load A.idx2 k * A.b_cols + j))) else [])]
  · rw [flatMap_range_pick, if_pos hI]
  · intro I' _
    by_cases e : I' = I
    · subst e; simp
    · simp [e, flatMap_nil_fun]

/-! ## Consequences for the entry points -/

theorem accum_sub_accum_add {α : Type} [AddCommGroup α] (us : List (Nat × α)) (b : List α) :
    accum (· - ·) us (accum (· + ·) us b) = b := by
  apply vec_ext _ _ (by rw [length_accum, length_accum])
  intro i hi
  rw [length_accum, length_accum] at hi
  rw [load_accum_sub _ _ _ (by rw [length_accum]; exact hi), load_accum_add _ _ _ hi]
  abel

theorem zero_fill_eq_replicate {α : Type} [Zero α] (n : Nat) (b : List α) (hb : b.length = n) :
    zero_fill n b = List.replicate n 0 := by
  apply vec_ext _ _ (by rw [length_zero_fill, hb, List.length_replicate])
  intro i hi
  rw [length_zero_fill, hb] at hi
  rw [load_zero_fill _ _ _ hi]
  unfold load
  simp [List.getElem?_replicate, hi]

theorem zero_fill_replicate {α : Type} [Zero α] (n : Nat) :
    zero_fill n (List.replicate n (0 : α)) = List.replicate n 0 :=
  zero_fill_eq_replicate n _ (List.length_replicate _ _)

/-- Two well-formed objects, of any classes, where the second denotes the transpose of the
first: `mult` of the second is `mult_T` of the first. -/
theorem Matrix.mult_transposed {α : Type} [CommRing α] (M N : AnyMatrix α) (x b : List α)
    (hM : AnyMatrix.WF M) (hN : AnyMatrix.WF N)
    (hr : (AnyMatrix.base N).n_rows = (AnyMatrix.base M).n_cols)
    (hc : (AnyMatrix.base N).n_cols = (AnyMatrix.base M).n_rows)
    (hb : b.length = (AnyMatrix.base M).n_cols)
    (h : ∀ r c, AnyMatrix.dense N c r = AnyMatrix.dense M r c) :
    Matrix.mult N x b = Matrix.mult_T M x b := by
  apply vec_ext _ _ (by rw [Matrix.length_mult, Matrix.length_mult_T])
  intro i hi
  rw [Matrix.length_mult, hb] at hi
  rw [Matrix.load_mult N x b hN (by rw [hb, hr]) i (by rw [hr]; exact hi),
    Matrix.load_mult_T M x b hM hb i hi, hc]
  simp only [h]

/-! ## BSR constructors -/

/-- For positive block dimensions, the reservation constructor exits if and only if a
dimension is not divisible, and otherwise yields an object. -/
theorem BSRMatrix.ctor_fatal_iff {α : Type} (_nrows _ncols _brows _bcols _nblocks _nnz : Nat)
    (_hr : 0 < _brows) (_hc : 0 < _bcols) :
    ((BSRMatrix.ctor _nrows _ncols _brows _bcols _nblocks _nnz : Except Abort (BSRMatrix α)) =
        .error (.fatal_exit (-1)) ↔ (_nrows % _brows ≠ 0 ∨ _ncols % _bcols ≠ 0)) ∧
    ((_nrows % _brows = 0 ∧ _ncols % _bcols = 0) →
      ∃ A : BSRMatrix α, BSRMatrix.ctor _nrows _ncols _brows _bcols _nblocks _nnz = .ok A) := by
  unfold BSRMatrix.ctor
  by_cases h : _nrows % _brows ≠ 0 ∨ _ncols % _bcols ≠ 0
  · rw [if_pos h]
    refine ⟨by simp [h], fun h2 => ?_⟩
    rcases h with h | h
    · exact absurd h2.1 h
    · exact absurd h2.2 h
  · rw [if_neg h]
    exact ⟨by simp [h], fun _ => ⟨_, rfl⟩⟩

/-- For positive block dimensions, the dense-buffer constructor exits if and only if a
dimension is not divisible, and otherwise yields an object. -/
theorem BSRMatrix.ctor_data_fatal_iff {α : Type} [LinearOrderedRing α] (zero_tol : α)
    (_nrows _ncols _brows _bcols : Nat) (_data : List α) (_hr : 0 < _brows)
    (_hc : 0 < _bcols) :
    (BSRMatrix.ctor_data zero_tol _nrows _ncols _brows _bcols _data =
        .error (.fatal_exit (-1)) ↔ (_nrows % _brows ≠ 0 ∨ _ncols % _bcols ≠ 0)) ∧
    ((_nrows % _brows = 0 ∧ _ncols % _bcols = 0) →
      ∃ A : BSRMatrix α, BSRMatrix.ctor_data zero_tol _nrows _ncols _brows _bcols _data =
        .ok A) := by
  unfold BSRMatrix.ctor_data
  by_cases h : _nrows % _brows ≠ 0 ∨ _ncols % _bcols ≠ 0
  · rw [if_pos h]
    refine ⟨by simp [h], fun h2 => ?_⟩
    rcases h with h | h
    · exact absurd h2.1 h
    · exact absurd h2.2 h
  · rw [if_neg h]
    exact ⟨by simp [h], fun _ => ⟨_, rfl⟩⟩

/-! ## Prefixes and slices of concatenations -/

theorem length_flatMap_succ {β : Type} (f : Nat → List β) (k : Nat) :
    ((List.range (k + 1)).flatMap f).length = ((List.range k).flatMap f).length + (f k).length := by
  rw [List.range_succ, List.flatMap_append]
  simp

theorem length_flatMap_mono {β : Type} (f : Nat → List β) (i k : Nat) (h : i ≤ k) :
    ((List.range i).flatMap f).length ≤ ((List.range k).flatMap f).length := by
  induction k with
  | zero =>
    have : i = 0 := by omega
    subst this; exact le_refl _
  | succ k ih =>
    rcases Nat.eq_or_lt_of_le h with e | e
    · subst e; exact le_refl _
    · have := ih (by omega)
      rw [length_flatMap_succ]
      omega

theorem flatMap_range_split {β : Type} (f : Nat → List β) (N i : Nat) (hi : i < N) :
    ∃ rest : List β, (List.range N).flatMap f = (List.range i).flatMap f ++ f i ++ rest := by
  induction N with
  | zero => omega
  | succ N ih =>
    rw [List.range_succ, List.flatMap_append]
    rcases Nat.eq_or_lt_of_le (Nat.le_of_lt_succ hi) with e | e
    · subst e
      exact ⟨[], by simp⟩
    · obtain ⟨rest, hr⟩ := ih e
      exact ⟨rest ++ [N].flatMap f, by rw [hr]; simp⟩

theorem slice_flatMap {β : Type} (f : Nat → List β) (N i : Nat) (hi : i < N) :
    slice ((List.range N).flatMap f) ((List.range i).flatMap f).length
      ((List.range (i + 1)).flatMap f).length = f i := by
  obtain ⟨rest, hr⟩ := flatMap_range_split f N i hi
  unfold slice
  rw [hr, length_flatMap_succ, List.append_assoc, List.drop_left, Nat.add_sub_cancel_left,
    List.take_left]

/-- The pointer-filling loop `idx1[i+1] = F (i+1)` for `i < k`. -/
theorem load_ptr_fill (F : Nat → Nat) (k : Nat) (l : List Nat) (m : Nat) :
    load ((List.range k).foldl (fun l i => store l (i + 1) (F (i + 1))) l) m =
      if 1 ≤ m ∧ m ≤ k ∧ m < l.length then F m else load l m := by
  induction k with
  | zero =>
    have : ¬ (1 ≤ m ∧ m ≤ 0 ∧ m < l.length) := by omega
    rw [if_neg this]
    rfl
  | succ k ih =>
    rw [List.range_succ, List.foldl_append]
    simp only [List.foldl_cons, List.foldl_nil]
    rw [load_store, ih]
    have hl : ((List.range k).foldl (fun l i => store l (i + 1) (F (i + 1))) l).length =
        l.length := by
      clear ih
      induction k with
      | zero => rfl
      | succ k ih2 =>
        rw [List.range_succ, List.foldl_append]
        simp [length_store, ih2]
    rw [hl]
    by_cases h1 : k + 1 = m
    · subst h1
      by_cases h2 : k + 1 < l.length
      · simp [h2]
      · have : ¬ (1 ≤ k + 1 ∧ k + 1 ≤ k ∧ k + 1 < l.length) := by omega
        simp [h2, this]
    · by_cases h2 : 1 ≤ m ∧ m ≤ k ∧ m < l.length
      · have h3 : 1 ≤ m ∧ m ≤ k + 1 ∧ m < l.length := by omega
        simp [h1, h2, h3]
      · have h3 : ¬ (1 ≤ m ∧ m ≤ k + 1 ∧ m < l.length) := by omega
        simp [h1, h2, h3]

theorem length_ptr_fill (F : Nat → Nat) (k : Nat) (l : List Nat) :
    ((List.range k).foldl (fun l i => store l (i + 1) (F (i + 1))) l).length = l.length := by
  induction k with
  | zero => rfl
  | succ k ih =>
    rw [List.range_succ, List.foldl_append]
    simp [length_store, ih]

/-! ## The dense-buffer scans of CSRMatrix and CSCMatrix -/

theorem keptAt_succ {α : Type} [LinearOrderedRing α] (zero_tol : α) (data : List α)
    (stride L i : Nat) :
    keptAt zero_tol data stride (L + 1) i =
      keptAt zero_tol data stride L i ++
        (if |load data (i * stride + L)| > zero_tol then [L] else []) := by
  unfold keptAt
  rw [List.range_succ, List.filter_append]
  by_cases h : |load data (i * stride + L)| > zero_tol <;> simp [h]

theorem keptBefore_succ {α : Type} [LinearOrderedRing α] (zero_tol : α) (data : List α)
    (stride L k : Nat) :
    keptBefore zero_tol data stride L (k + 1) =
      keptBefore zero_tol data stride L k + (keptAt zero_tol data stride L k).length := by
  unfold keptBefore
  exact length_flatMap_succ _ k

/-- The loop over `j` of the CSR and CSC dense-buffer constructors, run for `j < L`. -/
theorem ptr_scan_line {α : Type} [LinearOrderedRing α] (zero_tol : α) (data : List α)
    (i L : Nat) (A : Matrix α) :
    (List.range L).foldl
        (fun (A : Matrix α) j =>
          let val := load data (i * A.n_cols + j)
          if |val| > zero_tol then
            { A with idx2 := A.idx2 ++ [j], vals := A.vals ++ [val], nnz := A.nnz + 1 }
          else A) A =
      { A with
        idx2 := A.idx2 ++ keptAt zero_tol data A.n_cols L i,
        vals := A.vals ++ (keptAt zero_tol data A.n_cols L i).map
          (fun j => load data (i * A.n_cols + j)),
        nnz := A.nnz + (keptAt zero_tol data A.n_cols L i).length } := by
  induction L with
  | zero => simp [keptAt]
  | succ L ih =>
    rw [List.range_succ, List.foldl_append, ih, keptAt_succ]
    by_cases h : |load data (i * A.n_cols + L)| > zero_tol
    · simp [h, Nat.add_assoc]
    · simp [h]

/-- The two nested loops of the CSR and CSC dense-buffer constructors, run for `k` lines of
`Lf A` positions each. -/
theorem ptr_scan {α : Type} [LinearOrderedRing α] (zero_tol : α) (data : List α)
    (Lf : Matrix α → Nat)
    (hL : ∀ (A : Matrix α) (i1 i2 : List Nat) (v : List α) (n : Nat),
      Lf { A with idx1 := i1, idx2 := i2, vals := v, nnz := n } = Lf A)
    (k : Nat) (A : Matrix α) :
    (List.range k).foldl
        (fun (A : Matrix α) i =>
          let A1 := (List.range (Lf A)).foldl
            (fun (A : Matrix α) j =>
              let val := load data (i * A.n_cols + j)
              if |val| > zero_tol then
                { A with idx2 := A.idx2 ++ [j], vals := A.vals ++ [val], nnz := A.nnz + 1 }
              else A) A
          { A1 with idx1 := store A1.idx1 (i + 1) A1.nnz }) A =
      { A with
        idx1 := (List.range k).foldl
          (fun l i => store l (i + 1)
            (A.nnz + keptBefore zero_tol data A.n_cols (Lf A) (i + 1))) A.idx1,
        idx2 := A.idx2 ++ (List.range k).flatMap (keptAt zero_tol data A.n_cols (Lf A)),
        vals := A.vals ++ (List.range k).flatMap (fun i =>
          (keptAt zero_tol data A.n_cols (Lf A) i).map (fun j => load data (i * A.n_cols + j))),
        nnz := A.nnz + keptBefore zero_tol data A.n_cols (Lf A) k } := by
  induction k with
  | zero => simp [keptBefore]
  | succ k ih =>
    rw [List.range_succ, List.foldl_append, ih]
    simp only [List.foldl_cons, List.foldl_nil, hL]
    rw [ptr_scan_line]
    simp only [List.foldl_append, List.foldl_cons, List.foldl_nil, List.flatMap_append,
      List.flatMap_cons, List.flatMap_nil, List.append_nil, List.append_assoc,
      keptBefore_succ, Nat.add_assoc]

theorem vresize_nil {α : Type} [Zero α] (n : Nat) :
    vresize ([] : List α) n = List.replicate n 0 := by
  simp [vresize]

theorem load_replicate_zero {α : Type} [Zero α] (n m : Nat) :
    load (List.replicate n (0 : α)) m = 0 := by
  unfold load
  by_cases h : m < n
  · simp [List.getElem?_replicate, h]
  · simp [List.getElem?_replicate, h]

theorem keptBefore_zero {α : Type} [LinearOrderedRing α] (zero_tol : α) (data : List α)
    (stride L : Nat) : keptBefore zero_tol data stride L 0 = 0 := rfl

theorem keptBefore_mono {α : Type} [LinearOrderedRing α] (zero_tol : α) (data : List α)
    (stride L i k : Nat) (h : i ≤ k) :
    keptBefore zero_tol data stride L i ≤ keptBefore zero_tol data stride L k :=
  length_flatMap_mono _ i k h

theorem mem_keptAt {α : Type} [LinearOrderedRing α] (zero_tol : α) (data : List α)
    (stride L i j : Nat) :
    j ∈ keptAt zero_tol data stride L i ↔ j < L ∧ |load data (i * stride + j)| > zero_tol := by
  simp [keptAt, List.mem_filter]

theorem pairwise_keptAt {α : Type} [LinearOrderedRing α] (zero_tol : α) (data : List α)
    (stride L i : Nat) : (keptAt zero_tol data stride L i).Pairwise (· < ·) :=
  List.Pairwise.filter _ (List.pairwise_lt_range L)

/-- The pointer array after the filling loop of a dense-buffer constructor: `K + 1` entries,
entry `i` the number of stored items of the first `i` lines. -/
theorem ptr_fill_spec (cnt : Nat → Nat) (h0 : cnt 0 = 0) (K : Nat) :
    ((List.range K).foldl (fun l i => store l (i + 1) (0 + cnt (i + 1)))
        (store (vresize ([] : List Nat) (K + 1)) 0 0)).length = K + 1 ∧
    ∀ i ≤ K, load ((List.range K).foldl (fun l i => store l (i + 1) (0 + cnt (i + 1)))
        (store (vresize ([] : List Nat) (K + 1)) 0 0)) i = cnt i := by
  have e := length_ptr_fill (fun m => 0 + cnt m) K (store (vresize ([] : List Nat) (K + 1)) 0 0)
  have hl : (store (vresize ([] : List Nat) (K + 1)) 0 0).length = K + 1 := by
    rw [length_store, vresize_nil, List.length_replicate]
  refine ⟨by rw [e, hl], fun i hi => ?_⟩
  rw [load_ptr_fill (fun m => 0 + cnt m) K, hl]
  by_cases h1 : 1 ≤ i
  · have : 1 ≤ i ∧ i ≤ K ∧ i < K + 1 := by omega
    rw [if_pos this, Nat.zero_add]
  · have h2 : i = 0 := by omega
    subst h2
    have : ¬ (1 ≤ 0 ∧ 0 ≤ K ∧ 0 < K + 1) := by omega
    rw [if_neg this, load_store_same _ _ _ (by rw [vresize_nil, List.length_replicate]; omega),
      h0]

/-- Bound-consistency of a pointer array whose entry `i` is a running count. -/
theorem ptrOK_of_counts (ptr : List Nat) (cnt : Nat → Nat) (K : Nat) (h0 : cnt 0 = 0)
    (hmono : ∀ i, cnt i ≤ cnt (i + 1)) (hlen : ptr.length = K + 1)
    (hval : ∀ i ≤ K, load ptr i = cnt i) : PtrOK ptr K (cnt K) := by
  refine ⟨hlen, by rw [hval 0 (Nat.zero_le _), h0], fun i hi => ?_, hval K (le_refl _)⟩
  rw [hval i (by omega), hval (i + 1) (by omega)]
  exact hmono i

/-- The members of the object the CSR dense-buffer constructor builds. -/
theorem CSRMatrix.csr_ctor_data_eq {α : Type} [LinearOrderedRing α] (zero_tol : α)
    (n m : Nat) (D : List α) :
    CSRMatrix.ctor_data zero_tol n m D =
      { idx1 := (List.range n).foldl
          (fun l i => store l (i + 1) (0 + keptBefore zero_tol D m m (i + 1)))
          (store (vresize ([] : List Nat) (n + 1)) 0 0),
        idx2 := (List.range n).flatMap (keptAt zero_tol D m m),
        vals := (List.range n).flatMap (fun i =>
          (keptAt zero_tol D m m i).map (fun j => load D (i * m + j))),
        n_rows := n, n_cols := m, nnz := keptBefore zero_tol D m m n,
        sorted := false, diag_first := false } := by
  unfold CSRMatrix.ctor_data
  simp only []
  rw [ptr_scan zero_tol D (fun A => A.n_cols) (fun _ _ _ _ _ => rfl)]
  simp [Matrix.ctor]

/-- The members of the object the CSC dense-buffer constructor builds: line `i` of the scan
is column `i`, read at `_data[i*n_cols + j]` for the rows `j < n_rows`. -/
theorem CSCMatrix.csc_ctor_data_eq {α : Type} [LinearOrderedRing α] (zero_tol : α)
    (n m : Nat) (D : List α) :
    CSCMatrix.ctor_data zero_tol n m D =
      { idx1 := (List.range m).foldl
          (fun l i => store l (i + 1) (0 + keptBefore zero_tol D m n (i + 1)))
          (store (vresize ([] : List Nat) (m + 1)) 0 0),
        idx2 := (List.range m).flatMap (keptAt zero_tol D m n),
        vals := (List.range m).flatMap (fun i =>
          (keptAt zero_tol D m n i).map (fun j => load D (i * m + j))),
        n_rows := n, n_cols := m, nnz := keptBefore zero_tol D m n m,
        sorted := false, diag_first := false } := by
  unfold CSCMatrix.ctor_data
  simp only []
  rw [ptr_scan zero_tol D (fun A => A.n_rows) (fun _ _ _ _ _ => rfl)]
  simp [Matrix.ctor]

/-! ## The dense-buffer scan of COOMatrix -/

theorem length_flatMap_map {β γ : Type} (f : Nat → List β) (g : Nat → β → γ) (k : Nat) :
    ((List.range k).flatMap (fun i => (f i).map (g i))).length =
      ((List.range k).flatMap f).length := by
  induction k with
  | zero => rfl
  | succ k ih => rw [length_flatMap_succ, length_flatMap_succ, ih, List.length_map]

/-- The loop over `j` of the COO dense-buffer constructor, run for `j < L`. -/
theorem coo_scan_line {α : Type} [LinearOrderedRing α] (zero_tol : α) (data : List α)
    (i L : Nat) (A : Matrix α) :
    (List.range L).foldl
        (fun (A : Matrix α) j =>
          let val := load data (i * A.n_cols + j)
          if |val| > zero_tol then
            { A with idx1 := A.idx1 ++ [i], idx2 := A.idx2 ++ [j], vals := A.vals ++ [val],
                     nnz := A.nnz + 1 }
          else A) A =
      { A with
        idx1 := A.idx1 ++ (keptAt zero_tol data A.n_cols L i).map (fun _ => i),
        idx2 := A.idx2 ++ keptAt zero_tol data A.n_cols L i,
        vals := A.vals ++ (keptAt zero_tol data A.n_cols L i).map
          (fun j => load data (i * A.n_cols + j)),
        nnz := A.nnz + (keptAt zero_tol data A.n_cols L i).length } := by
  induction L with
  | zero => simp [keptAt]
  | succ L ih =>
    rw [List.range_succ, List.foldl_append, ih, keptAt_succ]
    by_cases h : |load data (i * A.n_cols + L)| > zero_tol
    · simp [h, Nat.add_assoc]
    · simp [h]

/-- The two nested loops of the COO dense-buffer constructor, run for `k` rows. -/
theorem coo_scan {α : Type} [LinearOrderedRing α] (zero_tol : α) (data : List α)
    (k : Nat) (A : Matrix α) :
    (List.range k).foldl
        (fun (A : Matrix α) i =>
          (List.range A.n_cols).foldl
            (fun (A : Matrix α) j =>
              let val := load data (i * A.n_cols + j)
              if |val| > zero_tol then
                { A with idx1 := A.idx1 ++ [i], idx2 := A.idx2 ++ [j],
                         vals := A.vals ++ [val], nnz := A.nnz + 1 }
              else A) A) A =
      { A with
        idx1 := A.idx1 ++ (List.range k).flatMap (fun i =>
          (keptAt zero_tol data A.n_cols A.n_cols i).map (fun _ => i)),
        idx2 := A.idx2 ++ (List.range k).flatMap (keptAt zero_tol data A.n_cols A.n_cols),
        vals := A.vals ++ (List.range k).flatMap (fun i =>
          (keptAt zero_tol data A.n_cols A.n_cols i).map
            (fun j => load data (i * A.n_cols + j))),
        nnz := A.nnz + keptBefore zero_tol data A.n_cols A.n_cols k } := by
  induction k with
  | zero => simp [keptBefore]
  | succ k ih =>
    rw [List.range_succ, List.foldl_append, ih]
    simp only [List.foldl_cons, List.foldl_nil]
    rw [coo_scan_line]
    simp only [List.flatMap_append, List.flatMap_cons, List.flatMap_nil, List.append_nil,
      List.append_assoc, keptBefore_succ, Nat.add_assoc]

theorem length_keptTriplets {α : Type} [LinearOrderedRing α] (zero_tol : α) (D : List α)
    (n m : Nat) : (keptTriplets zero_tol D n m).length = keptBefore zero_tol D m m n := by
  unfold keptTriplets keptBefore
  exact length_flatMap_map _ _ n

/-- The members of the object the COO dense-buffer constructor builds. -/
theorem COOMatrix.coo_ctor_data_eq {α : Type} [LinearOrderedRing α] (zero_tol : α)
    (n m : Nat) (D : List α) :
    COOMatrix.ctor_data zero_tol n m D =
      { idx1 := (keptTriplets zero_tol D n m).map (fun t => t.1),
        idx2 := (keptTriplets zero_tol D n m).map (fun t => t.2.1),
        vals := (keptTriplets zero_tol D n m).map (fun t => t.2.2),
        n_rows := n, n_cols := m, nnz := (keptTriplets zero_tol D n m).length,
        sorted := false, diag_first := false } := by
  have e1 : (keptTriplets zero_tol D n m).map (fun t => t.1) =
      (List.range n).flatMap (fun i => (keptAt zero_tol D m m i).map (fun _ => i)) := by
    unfold keptTriplets
    rw [List.map_flatMap]
    simp only [List.map_map, Function.comp_def]
  have e2 : (keptTriplets zero_tol D n m).map (fun t => t.2.1) =
      (List.range n).flatMap (keptAt zero_tol D m m) := by
    unfold keptTriplets
    rw [List.map_flatMap]
    simp only [List.map_map, Function.comp_def, List.map_id']
  have e3 : (keptTriplets zero_tol D n m).map (fun t => t.2.2) =
      (List.range n).flatMap (fun i =>
        (keptAt zero_tol D m m i).map (fun j => load D (i * m + j))) := by
    unfold keptTriplets
    rw [List.map_flatMap]
    simp only [List.map_map, Function.comp_def]
  rw [e1, e2, e3, length_keptTriplets]
  unfold COOMatrix.ctor_data
  simp only []
  rw [coo_scan]
  simp only [Matrix.ctor, List.nil_append, Nat.zero_add]

theorem COOMatrix.triplets_ctor_data {α : Type} [LinearOrderedRing α] (zero_tol : α)
    (n m : Nat) (D : List α) :
    COOMatrix.triplets (COOMatrix.ctor_data zero_tol n m D) = keptTriplets zero_tol D n m := by
  rw [COOMatrix.coo_ctor_data_eq]
  unfold COOMatrix.triplets
  simp only [List.zip_map']
  simp

theorem mem_keptTriplets {α : Type} [LinearOrderedRing α] (zero_tol : α) (D : List α)
    (n m i j : Nat) (v : α) :
    (i, j, v) ∈ keptTriplets zero_tol D n m ↔
      i < n ∧ j < m ∧ |load D (i * m + j)| > zero_tol ∧ v = load D (i * m + j) := by
  unfold keptTriplets
  simp only [List.mem_flatMap, List.mem_range, List.mem_map, mem_keptAt, Prod.mk.injEq]
  constructor
  · rintro ⟨a, ha, b, ⟨hb1, hb2⟩, rfl, rfl, rfl⟩
    exact ⟨ha, hb1, hb2, rfl⟩
  · rintro ⟨h1, h2, h3, rfl⟩
    exact ⟨i, h1, j, ⟨h2, h3⟩, rfl, rfl, rfl⟩

theorem pairwise_keptTriplets {α : Type} [LinearOrderedRing α] (zero_tol : α) (D : List α)
    (n m : Nat) : (keptTriplets zero_tol D n m).Pairwise keyLt := by
  unfold keptTriplets
  rw [List.pairwise_flatMap]
  constructor
  · intro i _
    rw [List.pairwise_map]
    exact (pairwise_keptAt zero_tol D m m i).imp (fun h => Or.inr ⟨rfl, h⟩)
  · apply (List.pairwise_lt_range n).imp
    intro a b hab x hx y hy
    simp only [List.mem_map] at hx hy
    obtain ⟨_, _, rfl⟩ := hx
    obtain ⟨_, _, rfl⟩ := hy
    exact Or.inl hab

/-! ## The dense-buffer scan of BSRMatrix -/

theorem foldl_collect {β γ : Type} (p : β → Prop) [DecidablePred p] (g : β → γ) (l : List β)
    (t0 : List γ) :
    l.foldl (fun t k => if p k then t ++ [g k] else t) t0 =
      t0 ++ (l.filter (fun k => decide (p k))).map g := by
  induction l generalizing t0 with
  | nil => simp
  | cons a l ih =>
    simp only [List.foldl_cons, ih, List.filter_cons]
    by_cases h : p a <;> simp [h]

theorem length_span (d b : Nat) : (span d (d + b)).length = b := by
  simp [span]

theorem test_nonempty_iff {α : Type} [LinearOrderedRing α] (zero_tol : α) (data : List α)
    (b_size d : Nat) :
    ((span d (d + b_size)).foldl
      (fun test k => if |load data k| > zero_tol then test ++ [load data k] else test)
      ([] : List α)).length > 0 ↔ blockKept zero_tol data b_size d = true := by
  rw [foldl_collect (fun k => |load data k| > zero_tol) (fun k => load data k)]
  unfold blockKept
  rw [List.nil_append, List.length_map, gt_iff_lt, List.length_pos, List.any_eq_true]
  constructor
  · intro h
    obtain ⟨k, hk⟩ := List.exists_mem_of_ne_nil _ h
    rw [List.mem_filter] at hk
    exact ⟨k, hk.1, hk.2⟩
  · rintro ⟨k, hk1, hk2⟩ h
    have : k ∈ (span d (d + b_size)).filter (fun k => decide (|load data k| > zero_tol)) :=
      List.mem_filter.mpr ⟨hk1, hk2⟩
    rw [h] at this
    exact absurd this (List.not_mem_nil k)

theorem push_block {α : Type} [Zero α] (data : List α) (l : List Nat) (s : BSRScan α) :
    l.foldl (fun (s : BSRScan α) k =>
        { s with vals := s.vals ++ [load data k], nnz := s.nnz + 1 }) s =
      { s with vals := s.vals ++ l.map (fun k => load data k), nnz := s.nnz + l.length } := by
  induction l generalizing s with
  | nil => simp
  | cons a l ih =>
    simp only [List.foldl_cons, ih]
    simp [Nat.add_assoc, Nat.add_comm 1]

/-- One run of the body of the loop over `j`. -/
theorem BSRMatrix.scan_block_eq {α : Type} [LinearOrderedRing α] (zero_tol : α)
    (b_size : Nat) (data : List α) (s : BSRScan α) (j : Nat) :
    BSRMatrix.scan_block zero_tol b_size data s j =
      if blockKept zero_tol data b_size s.data_offset = true then
        { s with idx2 := s.idx2 ++ [j],
                 vals := s.vals ++ blockScalars data b_size s.data_offset,
                 nnz := s.nnz + b_size, n_blocks := s.n_blocks + 1,
                 data_offset := s.data_offset + b_size }
      else { s with data_offset := s.data_offset + b_size } := by
  unfold BSRMatrix.scan_block
  simp only []
  by_cases h : blockKept zero_tol data b_size s.data_offset = true
  · rw [if_pos ((test_nonempty_iff zero_tol data b_size s.data_offset).mpr h), if_pos h,
      push_block, length_span]
    rfl
  · rw [if_neg (fun h2 => h ((test_nonempty_iff zero_tol data b_size s.data_offset).mp h2)),
      if_neg h]

theorem keptBlocksFrom_succ {α : Type} [LinearOrderedRing α] (zero_tol : α) (data : List α)
    (b_size d0 L : Nat) :
    keptBlocksFrom zero_tol data b_size d0 (L + 1) =
      keptBlocksFrom zero_tol data b_size d0 L ++
        (if blockKept zero_tol data b_size (d0 + L * b_size) = true then [L] else []) := by
  unfold keptBlocksFrom
  rw [List.range_succ, List.filter_append]
  by_cases h : blockKept zero_tol data b_size (d0 + L * b_size) = true <;> simp [h]

/-- The loop over `j`, run for `j < L`. -/
theorem bsr_scan_line {α : Type} [LinearOrderedRing α] (zero_tol : α) (b_size : Nat)
    (data : List α) (L : Nat) (s : BSRScan α) :
    (List.range L).foldl (BSRMatrix.scan_block zero_tol b_size data) s =
      { s with
        idx2 := s.idx2 ++ keptBlocksFrom zero_tol data b_size s.data_offset L,
        vals := s.vals ++ (keptBlocksFrom zero_tol data b_size s.data_offset L).flatMap
          (fun j => blockScalars data b_size (s.data_offset + j * b_size)),
        nnz := s.nnz + (keptBlocksFrom zero_tol data b_size s.data_offset L).length * b_size,
        n_blocks := s.n_blocks + (keptBlocksFrom zero_tol data b_size s.data_offset L).length,
        data_offset := s.data_offset + L * b_size } := by
  induction L with
  | zero => simp [keptBlocksFrom]
  | succ L ih =>
    rw [List.range_succ, List.foldl_append, ih, keptBlocksFrom_succ]
    simp only [List.foldl_cons, List.foldl_nil]
    rw [BSRMatrix.scan_block_eq]
    by_cases h : blockKept zero_tol data b_size (s.data_offset + L * b_size) = true
    · simp [h, Nat.add_assoc, Nat.succ_mul, Nat.add_mul]
    · simp [h, Nat.add_assoc, Nat.succ_mul]

/-- The two nested loops of the BSR dense-buffer constructor, run for `k` block rows of `ncb`
blocks each. -/
theorem bsr_scan {α : Type} [LinearOrderedRing α] (zero_tol : α) (b_size ncb : Nat)
    (data : List α) (k : Nat) (s : BSRScan α) :
    (List.range k).foldl
        (fun (s : BSRScan α) i =>
          let s1 := (List.range ncb).foldl (BSRMatrix.scan_block zero_tol b_size data) s
          { s1 with idx1 := store s1.idx1 (i + 1) s1.idx2.length }) s =
      { s with
        idx1 := (List.range k).foldl
          (fun l i => store l (i + 1)
            (s.idx2.length + ((List.range (i + 1)).flatMap (fun i =>
              keptBlocksFrom zero_tol data b_size
                (s.data_offset + i * (ncb * b_size)) ncb)).length)) s.idx1,
        idx2 := s.idx2 ++ (List.range k).flatMap (fun i =>
          keptBlocksFrom zero_tol data b_size (s.data_offset + i * (ncb * b_size)) ncb),
        vals := s.vals ++ (List.range k).flatMap (fun i =>
          (keptBlocksFrom zero_tol data b_size (s.data_offset + i * (ncb * b_size)) ncb).flatMap
            (fun j => blockScalars data b_size
              (s.data_offset + i * (ncb * b_size) + j * b_size))),
        nnz := s.nnz + ((List.range k).flatMap (fun i =>
          keptBlocksFrom zero_tol data b_size
            (s.data_offset + i * (ncb * b_size)) ncb)).length * b_size,
        n_blocks := s.n_blocks + ((List.range k).flatMap (fun i =>
          keptBlocksFrom zero_tol data b_size
            (s.data_offset + i * (ncb * b_size)) ncb)).length,
        data_offset := s.data_offset + k * (ncb * b_size) } := by
  induction k with
  | zero => simp
  | succ k ih =>
    rw [List.range_succ, List.foldl_append, ih]
    simp only [List.foldl_cons, List.foldl_nil]
    rw [bsr_scan_line]
    simp only [List.foldl_append, List.foldl_cons, List.foldl_nil, List.flatMap_append,
      List.flatMap_cons, List.flatMap_nil, List.append_nil, List.append_assoc,
      List.length_append, Nat.add_assoc, Nat.add_mul, Nat.succ_mul, length_flatMap_succ]

theorem keptBlocksFrom_zero_eq {α : Type} [LinearOrderedRing α] (zero_tol : α)
    (data : List α) (b_size ncb i : Nat) :
    keptBlocksFrom zero_tol data b_size (i * (ncb * b_size)) ncb =
      keptBlocksAt zero_tol data b_size ncb i := by
  unfold keptBlocksFrom keptBlocksAt
  have e : ∀ j, i * (ncb * b_size) + j * b_size = (i * ncb + j) * b_size := by
    intro j
    rw [Nat.add_mul, Nat.mul_assoc]
  simp only [e]

theorem blockKept_iff {α : Type} [LinearOrderedRing α] (zero_tol : α) (data : List α)
    (b_size d : Nat) :
    blockKept zero_tol data b_size d = true ↔
      ∃ k < b_size, |load data (d + k)| > zero_tol := by
  unfold blockKept span
  rw [List.any_eq_true]
  constructor
  · rintro ⟨k, hk1, hk2⟩
    rw [List.mem_range'_1] at hk1
    refine ⟨k - d, by omega, ?_⟩
    have : d + (k - d) = k := by omega
    rw [this]
    exact of_decide_eq_true hk2
  · rintro ⟨k, hk1, hk2⟩
    exact ⟨d + k, by rw [List.mem_range'_1]; omega, decide_eq_true hk2⟩

theorem keptBlocksBefore_zero {α : Type} [LinearOrderedRing α] (zero_tol : α)
    (data : List α) (b_size ncb : Nat) : keptBlocksBefore zero_tol data b_size ncb 0 = 0 := rfl

theorem keptBlocksBefore_succ {α : Type} [LinearOrderedRing α] (zero_tol : α)
    (data : List α) (b_size ncb k : Nat) :
    keptBlocksBefore zero_tol data b_size ncb (k + 1) =
      keptBlocksBefore zero_tol data b_size ncb k +
        (keptBlocksAt zero_tol data b_size ncb k).length := by
  unfold keptBlocksBefore
  exact length_flatMap_succ _ k

theorem length_blockScalars {α : Type} [Zero α] (data : List α) (b_size d : Nat) :
    (blockScalars data b_size d).length = b_size := by
  unfold blockScalars
  rw [List.length_map, length_span]

theorem length_flatMap_const {β γ : Type} (l : List β) (g : β → List γ) (c : Nat)
    (h : ∀ a, (g a).length = c) : (l.flatMap g).length = l.length * c := by
  induction l with
  | nil => simp
  | cons a l ih => simp [List.flatMap_cons, ih, h, Nat.succ_mul, Nat.add_comm]

/-- The number of scalars stored for the first `k` block rows. -/
theorem length_block_rows {α : Type} [LinearOrderedRing α] (zero_tol : α) (data : List α)
    (b_size ncb k : Nat) :
    ((List.range k).flatMap (fun i =>
      (keptBlocksAt zero_tol data b_size ncb i).flatMap
        (fun j => blockScalars data b_size ((i * ncb + j) * b_size)))).length =
      keptBlocksBefore zero_tol data b_size ncb k * b_size := by
  induction k with
  | zero => simp [keptBlocksBefore]
  | succ k ih =>
    rw [length_flatMap_succ, ih, keptBlocksBefore_succ,
      length_flatMap_const _ _ b_size (fun j => length_blockScalars data b_size _), Nat.add_mul]

/-- The members of the object the BSR dense-buffer constructor builds when the dimensions are
divisible. -/
theorem BSRMatrix.bsr_ctor_data_eq {α : Type} [LinearOrderedRing α] (zero_tol : α)
    (n m br bc : Nat) (D : List α) (h : n % br = 0 ∧ m % bc = 0) :
    BSRMatrix.ctor_data zero_tol n m br bc D =
      .ok { idx1 := (List.range (n / br)).foldl
              (fun l i => store l (i + 1)
                (0 + keptBlocksBefore zero_tol D (br * bc) (m / bc) (i + 1)))
              (store (vresize ([] : List Nat) (n / br + 1)) 0 0),
            idx2 := (List.range (n / br)).flatMap (keptBlocksAt zero_tol D (br * bc) (m / bc)),
            vals := (List.range (n / br)).flatMap (fun i =>
              (keptBlocksAt zero_tol D (br * bc) (m / bc) i).flatMap
                (fun j => blockScalars D (br * bc) ((i * (m / bc) + j) * (br * bc)))),
            n_rows := n, n_cols := m,
            nnz := keptBlocksBefore zero_tol D (br * bc) (m / bc) (n / br) * (br * bc),
            sorted := false, diag_first := false, b_rows := br, b_cols := bc,
            n_blocks := keptBlocksBefore zero_tol D (br * bc) (m / bc) (n / br),
            b_size := br * bc } := by
  unfold BSRMatrix.ctor_data
  have hn : ¬ (n % br ≠ 0 ∨ m % bc ≠ 0) := by
    rintro (h1 | h1)
    · exact h1 h.1
    · exact h1 h.2
  rw [if_neg hn]
  simp only []
  rw [bsr_scan]
  have e : ∀ i j, i * (m / bc * (br * bc)) + j * (br * bc) =
      (i * (m / bc) + j) * (br * bc) := by
    intro i j
    rw [Nat.add_mul, Nat.mul_assoc]
  simp only [List.nil_append, List.length_nil, Nat.zero_add, vresize_nil]
  simp only [keptBlocksFrom_zero_eq, e]
  rfl

/-! ## Counting what is retained -/

theorem length_filter_range (p : Nat → Bool) (L : Nat) :
    ((List.range L).filter p).length = ∑ j in Finset.range L, if p j = true then 1 else 0 := by
  induction L with
  | zero => simp
  | succ L ih =>
    rw [List.range_succ, List.filter_append, List.length_append, ih, Finset.sum_range_succ]
    by_cases h : p L = true <;> simp [h]

theorem length_flatMap_sum {β : Type} (f : Nat → List β) (N : Nat) :
    ((List.range N).flatMap f).length = ∑ i in Finset.range N, (f i).length := by
  induction N with
  | zero => simp
  | succ N ih => rw [length_flatMap_succ, ih, Finset.sum_range_succ]

/-- The number of items a two-level scan retains is the number of positions of the grid that
pass the test. -/
theorem length_scan_eq_card (p : Nat → Nat → Bool) (N L : Nat) :
    ((List.range N).flatMap (fun i => (List.range L).filter (p i))).length =
      ((Finset.range N ×ˢ Finset.range L).filter (fun q => p q.1 q.2 = true)).card := by
  rw [length_flatMap_sum, Finset.card_filter, Finset.sum_product]
  apply Finset.sum_congr rfl
  intro i _
  rw [length_filter_range]

/-! ## Slices of the constructed arrays -/

theorem CSRMatrix.csr_ctor_data_ptr {α : Type} [LinearOrderedRing α] (zero_tol : α)
    (n m : Nat) (D : List α) :
    (CSRMatrix.ctor_data zero_tol n m D).idx1.length = n + 1 ∧
    ∀ i ≤ n, load (CSRMatrix.ctor_data zero_tol n m D).idx1 i =
      keptBefore zero_tol D m m i := by
  rw [CSRMatrix.csr_ctor_data_eq]
  exact ptr_fill_spec (keptBefore zero_tol D m m) rfl n

theorem CSCMatrix.csc_ctor_data_ptr {α : Type} [LinearOrderedRing α] (zero_tol : α)
    (n m : Nat) (D : List α) :
    (CSCMatrix.ctor_data zero_tol n m D).idx1.length = m + 1 ∧
    ∀ i ≤ m, load (CSCMatrix.ctor_data zero_tol n m D).idx1 i =
      keptBefore zero_tol D m n i := by
  rw [CSCMatrix.csc_ctor_data_eq]
  exact ptr_fill_spec (keptBefore zero_tol D m n) rfl m

theorem CSRMatrix.csr_ctor_data_ptrOK {α : Type} [LinearOrderedRing α] (zero_tol : α)
    (n m : Nat) (D : List α) :
    PtrOK (CSRMatrix.ctor_data zero_tol n m D).idx1 n (CSRMatrix.ctor_data zero_tol n m D).nnz := by
  obtain ⟨h1, h2⟩ := CSRMatrix.csr_ctor_data_ptr zero_tol n m D
  have h3 : (CSRMatrix.ctor_data zero_tol n m D).nnz = keptBefore zero_tol D m m n := by
    rw [CSRMatrix.csr_ctor_data_eq]
  rw [h3]
  exact ptrOK_of_counts _ (keptBefore zero_tol D m m) n rfl
    (fun i => keptBefore_mono zero_tol D m m i (i + 1) (Nat.le_succ i)) h1 h2

theorem CSCMatrix.csc_ctor_data_ptrOK {α : Type} [LinearOrderedRing α] (zero_tol : α)
    (n m : Nat) (D : List α) :
    PtrOK (CSCMatrix.ctor_data zero_tol n m D).idx1 m (CSCMatrix.ctor_data zero_tol n m D).nnz := by
  obtain ⟨h1, h2⟩ := CSCMatrix.csc_ctor_data_ptr zero_tol n m D
  have h3 : (CSCMatrix.ctor_data zero_tol n m D).nnz = keptBefore zero_tol D m n m := by
    rw [CSCMatrix.csc_ctor_data_eq]
  rw [h3]
  exact ptrOK_of_counts _ (keptBefore zero_tol D m n) m rfl
    (fun i => keptBefore_mono zero_tol D m n i (i + 1) (Nat.le_succ i)) h1 h2

/-- Row `i`'s slice of the column indices and of the values built by the CSR dense-buffer
constructor. -/
theorem CSRMatrix.csr_ctor_data_slice {α : Type} [LinearOrderedRing α] (zero_tol : α)
    (n m : Nat) (D : List α) (i : Nat) (hi : i < n) :
    slice (CSRMatrix.ctor_data zero_tol n m D).idx2
        (load (CSRMatrix.ctor_data zero_tol n m D).idx1 i)
        (load (CSRMatrix.ctor_data zero_tol n m D).idx1 (i + 1)) = keptAt zero_tol D m m i ∧
    slice (CSRMatrix.ctor_data zero_tol n m D).vals
        (load (CSRMatrix.ctor_data zero_tol n m D).idx1 i)
        (load (CSRMatrix.ctor_data zero_tol n m D).idx1 (i + 1)) =
      (keptAt zero_tol D m m i).map (fun j => load D (i * m + j)) := by
  obtain ⟨_, h2⟩ := CSRMatrix.csr_ctor_data_ptr zero_tol n m D
  rw [h2 i (by omega), h2 (i + 1) (by omega)]
  have e2 : (CSRMatrix.ctor_data zero_tol n m D).idx2 =
      (List.range n).flatMap (keptAt zero_tol D m m) := by
    rw [CSRMatrix.csr_ctor_data_eq]
  have e3 : (CSRMatrix.ctor_data zero_tol n m D).vals =
      (List.range n).flatMap (fun i =>
        (keptAt zero_tol D m m i).map (fun j => load D (i * m + j))) := by
    rw [CSRMatrix.csr_ctor_data_eq]
  rw [e2, e3]
  refine ⟨slice_flatMap _ n i hi, ?_⟩
  have := slice_flatMap (fun i => (keptAt zero_tol D m m i).map (fun j => load D (i * m + j)))
    n i hi
  rw [length_flatMap_map, length_flatMap_map] at this
  exact this

/-- The object the BSR dense-buffer constructor builds when the dimensions are divisible,
member by member. -/
theorem BSRMatrix.bsr_ctor_data_spec {α : Type} [LinearOrderedRing α] (zero_tol : α)
    (n m br bc : Nat) (D : List α) (h : n % br = 0 ∧ m % bc = 0) :
    ∃ A : BSRMatrix α, BSRMatrix.ctor_data zero_tol n m br bc D = .ok A ∧
      A.n_rows = n ∧ A.n_cols = m ∧ A.b_rows = br ∧ A.b_cols = bc ∧ A.b_size = br * bc ∧
      A.n_blocks = keptBlocksBefore zero_tol D (br * bc) (m / bc) (n / br) ∧
      A.nnz = A.n_blocks * (br * bc) ∧
      A.idx2 = (List.range (n / br)).flatMap (keptBlocksAt zero_tol D (br * bc) (m / bc)) ∧
      A.vals = (List.range (n / br)).flatMap (fun i =>
        (keptBlocksAt zero_tol D (br * bc) (m / bc) i).flatMap
          (fun j => blockScalars D (br * bc) ((i * (m / bc) + j) * (br * bc)))) ∧
      A.idx1.length = n / br + 1 ∧
      ∀ i ≤ n / br, load A.idx1 i = keptBlocksBefore zero_tol D (br * bc) (m / bc) i := by
  refine ⟨_, BSRMatrix.bsr_ctor_data_eq zero_tol n m br bc D h, rfl, rfl, rfl, rfl, rfl, rfl,
    rfl, rfl, rfl, ?_⟩
  exact ptr_fill_spec (keptBlocksBefore zero_tol D (br * bc) (m / bc)) rfl (n / br)

theorem keptBlocksBefore_mono {α : Type} [LinearOrderedRing α] (zero_tol : α)
    (data : List α) (b_size ncb i k : Nat) (h : i ≤ k) :
    keptBlocksBefore zero_tol data b_size ncb i ≤ keptBlocksBefore zero_tol data b_size ncb k :=
  length_flatMap_mono _ i k h

theorem keptBlocksBefore_eq_card {α : Type} [LinearOrderedRing α] (zero_tol : α)
    (data : List α) (b_size ncb k : Nat) :
    keptBlocksBefore zero_tol data b_size ncb k =
      ((Finset.range k ×ˢ Finset.range ncb).filter
        (fun q => blockKept zero_tol data b_size ((q.1 * ncb + q.2) * b_size) = true)).card := by
  unfold keptBlocksBefore keptBlocksAt
  exact length_scan_eq_card (fun i j => blockKept zero_tol data b_size ((i * ncb + j) * b_size))
    k ncb

theorem keptBefore_eq_card {α : Type} [LinearOrderedRing α] (zero_tol : α)
    (data : List α) (stride L k : Nat) :
    keptBefore zero_tol data stride L k =
      ((Finset.range k ×ˢ Finset.range L).filter
        (fun q => decide (|load data (q.1 * stride + q.2)| > zero_tol) = true)).card := by
  unfold keptBefore keptAt
  exact length_scan_eq_card (fun i j => decide (|load data (i * stride + j)| > zero_tol)) k L

theorem mem_keptBlocksAt {α : Type} [LinearOrderedRing α] (zero_tol : α) (data : List α)
    (b_size ncb i j : Nat) :
    j ∈ keptBlocksAt zero_tol data b_size ncb i ↔
      j < ncb ∧ ∃ k < b_size, |load data ((i * ncb + j) * b_size + k)| > zero_tol := by
  unfold keptBlocksAt
  rw [List.mem_filter, List.mem_range, blockKept_iff]

theorem pairwise_keptBlocksAt {α : Type} [LinearOrderedRing α] (zero_tol : α)
    (data : List α) (b_size ncb i : Nat) :
    (keptBlocksAt zero_tol data b_size ncb i).Pairwise (· < ·) :=
  List.Pairwise.filter _ (List.pairwise_lt_range ncb)

/-! ## Index-array constructors -/

theorem std_copy_ok {α : Type} (src dst out : List α) (h : std_copy src dst = .ok out) :
    src.length ≤ dst.length ∧ out = src ++ dst.drop src.length := by
  unfold std_copy at h
  by_cases hl : src.length ≤ dst.length
  · rw [if_pos hl] at h
    injection h with h
    exact ⟨hl, h.symm⟩
  · rw [if_neg hl] at h
    injection h

theorem std_copy_length {α : Type} (src dst out : List α) (h : std_copy src dst = .ok out) :
    out.length = dst.length := by
  obtain ⟨h1, h2⟩ := std_copy_ok src dst out h
  rw [h2, List.length_append, List.length_drop]
  omega

theorem length_vresize {α : Type} [Zero α] (v : List α) (n : Nat) :
    (vresize v n).length = n := by
  unfold vresize
  rw [List.length_append, List.length_take, List.length_replicate]
  omega

/-- What the three copies of an index-array constructor yield when none overflows. -/
theorem copies_ok {α : Type} {β : Type} (s1 d1 s2 d2 : List Nat) (s3 d3 : List α)
    (k : List Nat → List Nat → List α → β) (B : β)
    (h : (do
      let idx1 ← std_copy s1 d1
      let idx2 ← std_copy s2 d2
      let vals ← std_copy s3 d3
      return k idx1 idx2 vals : Except Abort β) = .ok B) :
    ∃ o1 o2 o3, std_copy s1 d1 = .ok o1 ∧ std_copy s2 d2 = .ok o2 ∧ std_copy s3 d3 = .ok o3 ∧
      B = k o1 o2 o3 := by
  cases e1 : std_copy s1 d1 with
  | error e => rw [e1] at h; injection h
  | ok o1 =>
    cases e2 : std_copy s2 d2 with
    | error e => rw [e1, e2] at h; injection h
    | ok o2 =>
      cases e3 : std_copy s3 d3 with
      | error e => rw [e1, e2, e3] at h; injection h
      | ok o3 =>
        rw [e1, e2, e3] at h
        injection h with h
        exact ⟨o1, o2, o3, rfl, rfl, rfl, h.symm⟩

theorem COOMatrix.ctor_arrays_ok {α : Type} [Zero α] (n m : Nat) (rows cols : List Nat)
    (data : List α) (A : COOMatrix α) (h : COOMatrix.ctor_arrays n m rows cols data = .ok A) :
    rows = [] ∧ cols = [] ∧ data = [] ∧ A.nnz = 0 ∧ A.idx1 = [] ∧ A.idx2 = [] ∧ A.vals = [] := by
  unfold COOMatrix.ctor_arrays at h
  obtain ⟨o1, o2, o3, h1, h2, h3, hB⟩ := copies_ok _ _ _ _ _ _ _ _ h
  obtain ⟨l1, e1⟩ := std_copy_ok _ _ _ h1
  obtain ⟨l2, e2⟩ := std_copy_ok _ _ _ h2
  obtain ⟨l3, e3⟩ := std_copy_ok _ _ _ h3
  simp only [Matrix.ctor, List.length_nil, length_vresize, Nat.le_zero,
    List.length_eq_zero] at l1 l2 l3
  subst l1 l2 l3
  subst hB
  simp only [Matrix.ctor, List.length_nil, vresize, List.take_nil, Nat.sub_self,
    List.replicate_zero, List.append_nil, List.drop_nil] at e1 e2 e3
  subst e1 e2 e3
  exact ⟨rfl, rfl, rfl, rfl, rfl, rfl, rfl⟩

/-- The COO triplet constructor does not return for any non-empty `rows`. -/
theorem COOMatrix.ctor_arrays_overflow {α : Type} [Zero α] (n m : Nat) (rows cols : List Nat)
    (data : List α) (h : rows ≠ []) :
    COOMatrix.ctor_arrays n m rows cols data = .error .buffer_overflow := by
  unfold COOMatrix.ctor_arrays
  have : ¬ rows.length ≤ 0 := by
    intro e
    exact h (List.length_eq_zero.mp (Nat.le_zero.mp e))
  simp [std_copy, Matrix.ctor, vresize, this]
  rfl

theorem CSRMatrix.csr_ctor_arrays_ok {α : Type} [Zero α] (n m : Nat) (rowptr cols : List Nat)
    (data : List α) (A : CSRMatrix α) (h : CSRMatrix.ctor_arrays n m rowptr cols data = .ok A) :
    A.nnz = cols.length ∧ A.idx2 = cols ∧ A.vals.length = A.nnz ∧ A.idx1.length = n + 1 := by
  unfold CSRMatrix.ctor_arrays at h
  obtain ⟨o1, o2, o3, h1, h2, h3, hB⟩ := copies_ok _ _ _ _ _ _ _ _ h
  have l1 := std_copy_length _ _ _ h1
  have l3 := std_copy_length _ _ _ h3
  obtain ⟨_, e2⟩ := std_copy_ok _ _ _ h2
  rw [length_vresize] at l1 l3
  subst hB
  refine ⟨rfl, ?_, l3, l1⟩
  show o2 = cols
  rw [e2, List.drop_of_length_le (by rw [length_vresize]), List.append_nil]

theorem CSCMatrix.csc_ctor_arrays_ok {α : Type} [Zero α] (n m : Nat) (colptr rows : List Nat)
    (data : List α) (A : CSCMatrix α) (h : CSCMatrix.ctor_arrays n m colptr rows data = .ok A) :
    A.nnz = rows.length ∧ A.idx2 = rows ∧ A.vals.length = A.nnz ∧ A.idx1.length = m + 1 := by
  unfold CSCMatrix.ctor_arrays at h
  obtain ⟨o1, o2, o3, h1, h2, h3, hB⟩ := copies_ok _ _ _ _ _ _ _ _ h
  have l1 := std_copy_length _ _ _ h1
  have l3 := std_copy_length _ _ _ h3
  obtain ⟨_, e2⟩ := std_copy_ok _ _ _ h2
  rw [length_vresize] at l1 l3
  subst hB
  refine ⟨rfl, ?_, l3, l1⟩
  show o2 = rows
  rw [e2, List.drop_of_length_le (by rw [length_vresize]), List.append_nil]

theorem BSRMatrix.bsr_ctor_arrays_ok {α : Type} [Zero α] (n m br bc : Nat)
    (rowptr cols : List Nat) (data : List α) (A : BSRMatrix α)
    (h : BSRMatrix.ctor_arrays n m br bc rowptr cols data = .ok A) :
    A.n_blocks = cols.length ∧ A.idx2 = cols ∧ A.nnz = data.length ∧ A.vals.length = A.nnz ∧
      A.idx1.length = n / br + 1 ∧ cols ≠ [] := by
  unfold BSRMatrix.ctor_arrays at h
  by_cases hd : n % br ≠ 0 ∨ m % bc ≠ 0
  · rw [if_pos hd] at h; injection h
  · rw [if_neg hd] at h
    by_cases hz : cols.length = 0
    · simp only [hz, if_true] at h; injection h
    · simp only [hz, if_false] at h
      obtain ⟨o1, o2, o3, h1, h2, h3, hB⟩ := copies_ok _ _ _ _ _ _ _ _ h
      have l1 := std_copy_length _ _ _ h1
      have l3 := std_copy_length _ _ _ h3
      obtain ⟨_, e2⟩ := std_copy_ok _ _ _ h2
      rw [List.length_replicate] at l1 l3
      subst hB
      refine ⟨rfl, ?_, rfl, l3, l1, fun e => hz (by rw [e]; rfl)⟩
      show o2 = cols
      rw [e2, List.drop_of_length_le (by rw [List.length_replicate]), List.append_nil]

/-- Every constructor of matrix.hpp other than the CSC reservation constructor leaves
`nnz == vals.size()`. -/
theorem nnz_invariant_other_ctors {α : Type} [LinearOrderedRing α] (zero_tol : α)
    (n m br bc k : Nat) (D : List α) (p cols : List Nat) (data : List α)
    (g1 g2 g3 g4 : Nat) :
    (Matrix.ctor_default : Matrix α).nnz = (Matrix.ctor_default : Matrix α).vals.length ∧
    (Matrix.ctor n m : Matrix α).nnz = (Matrix.ctor n m : Matrix α).vals.length ∧
    (COOMatrix.ctor_default : COOMatrix α).nnz =
      (COOMatrix.ctor_default : COOMatrix α).vals.length ∧
    (CSRMatrix.ctor_default : CSRMatrix α).nnz =
      (CSRMatrix.ctor_default : CSRMatrix α).vals.length ∧
    (CSCMatrix.ctor_default : CSCMatrix α).nnz =
      (CSCMatrix.ctor_default : CSCMatrix α).vals.length ∧
    (BSRMatrix.ctor_default g1 g2 g3 g4 : BSRMatrix α).nnz =
      (BSRMatrix.ctor_default g1 g2 g3 g4 : BSRMatrix α).vals.length ∧
    (COOMatrix.ctor n m k : COOMatrix α).nnz = (COOMatrix.ctor n m k : COOMatrix α).vals.length ∧
    (CSRMatrix.ctor n m k : CSRMatrix α).nnz = (CSRMatrix.ctor n m k : CSRMatrix α).vals.length ∧
    (∀ A : BSRMatrix α, BSRMatrix.ctor n m br bc k g1 = .ok A → A.nnz = A.vals.length) ∧
    (COOMatrix.ctor_data zero_tol n m D).nnz = (COOMatrix.ctor_data zero_tol n m D).vals.length ∧
    (CSRMatrix.ctor_data zero_tol n m D).nnz = (CSRMatrix.ctor_data zero_tol n m D).vals.length ∧
    (CSCMatrix.ctor_data zero_tol n m D).nnz = (CSCMatrix.ctor_data zero_tol n m D).vals.length ∧
    (∀ A : BSRMatrix α, BSRMatrix.ctor_data zero_tol n m br bc D = .ok A →
      A.nnz = A.vals.length) ∧
    (∀ A : COOMatrix α, COOMatrix.ctor_arrays n m p cols data = .ok A →
      A.nnz = A.vals.length) ∧
    (∀ A : CSRMatrix α, CSRMatrix.ctor_arrays n m p cols data = .ok A →
      A.nnz = A.vals.length) ∧
    (∀ A : CSCMatrix α, CSCMatrix.ctor_arrays n m p cols data = .ok A →
      A.nnz = A.vals.length) ∧
    (∀ A : BSRMatrix α, BSRMatrix.ctor_arrays n m br bc p cols data = .ok A →
      A.nnz = A.vals.length) := by
  refine ⟨rfl, rfl, rfl, rfl, rfl, rfl, rfl, rfl, ?_, ?_, ?_, ?_, ?_, ?_, ?_, ?_, ?_⟩
  · intro A h
    unfold BSRMatrix.ctor at h
    by_cases hd : n % br ≠ 0 ∨ m % bc ≠ 0
    · rw [if_pos hd] at h; injection h
    · rw [if_neg hd] at h
      injection h with h
      subst h
      rfl
  · rw [COOMatrix.coo_ctor_data_eq]; simp
  · rw [CSRMatrix.csr_ctor_data_eq]
    exact (length_flatMap_map _ _ n).symm
  · rw [CSCMatrix.csc_ctor_data_eq]
    exact (length_flatMap_map _ _ m).symm
  · intro A h
    by_cases hd : n % br = 0 ∧ m % bc = 0
    · obtain ⟨B, hB, _, _, _, _, _, hnb, hnnz, _, hvals, _, _⟩ :=
        BSRMatrix.bsr_ctor_data_spec zero_tol n m br bc D hd
      rw [hB] at h
      injection h with h
      subst h
      rw [hvals, hnnz, hnb, length_block_rows]
    · unfold BSRMatrix.ctor_data at h
      have : n % br ≠ 0 ∨ m % bc ≠ 0 := by
        by_contra hc
        push_neg at hc
        exact hd hc
      rw [if_pos this] at h
      injection h
  · intro A h
    obtain ⟨_, _, _, h1, _, _, h2⟩ := COOMatrix.ctor_arrays_ok n m p cols data A h
    rw [h1, h2]; rfl
  · intro A h
    exact (CSRMatrix.csr_ctor_arrays_ok n m p cols data A h).2.2.1.symm
  · intro A h
    exact (CSCMatrix.csc_ctor_arrays_ok n m p cols data A h).2.2.1.symm
  · intro A h
    exact (BSRMatrix.bsr_ctor_arrays_ok n m br bc p cols data A h).2.2.2.1.symm

/-! ## The identity matrix -/

theorem load_map_range {α : Type} [Zero α] (f : Nat → α) (N k : Nat) (hk : k < N) :
    load ((List.range N).map f) k = f k := by
  unfold load
  simp [hk]

theorem load_range (N k : Nat) (hk : k < N) : load (List.range N) k = k := by
  unfold load
  simp [hk]

theorem load_identityBuffer {α : Type} [Zero α] [One α] (n i j : Nat) (hi : i < n)
    (hj : j < n) : load (identityBuffer n : List α) (i * n + j) = if i = j then 1 else 0 := by
  unfold identityBuffer
  have h : i * n + j < n * n := by
    have : (i + 1) * n ≤ n * n := Nat.mul_le_mul_right n hi
    rw [Nat.succ_mul] at this
    omega
  rw [load_map_range _ _ _ h, div_block n i j hj, mod_block n i j hj]

theorem filter_eq_range (n i : Nat) (hi : i < n) :
    (List.range n).filter (fun j => decide (i = j)) = [i] := by
  induction n with
  | zero => omega
  | succ n ih =>
    rw [List.range_succ, List.filter_append]
    rcases Nat.eq_or_lt_of_le (Nat.le_of_lt_succ hi) with e | e
    · subst e
      have : (List.range i).filter (fun j => decide (i = j)) = [] := by
        rw [List.filter_eq_nil_iff]
        intro a ha
        have := List.mem_range.mp ha
        simp
        omega
      rw [this]
      simp
    · rw [ih e]
      have : ¬ i = n := by omega
      simp [this]

theorem keptAt_identity {α : Type} [LinearOrderedRing α] (zero_tol : α) (h0 : 0 ≤ zero_tol)
    (h1 : zero_tol < 1) (n i : Nat) (hi : i < n) :
    keptAt zero_tol (identityBuffer n : List α) n n i = [i] := by
  unfold keptAt
  rw [← filter_eq_range n i hi]
  apply List.filter_congr
  intro j hj
  rw [load_identityBuffer n i j hi (List.mem_range.mp hj)]
  by_cases e : i = j
  · simp [e, h1]
  · simp [e, not_lt.mpr h0]

theorem flatMap_keptAt_identity {α : Type} [LinearOrderedRing α] (zero_tol : α)
    (h0 : 0 ≤ zero_tol) (h1 : zero_tol < 1) (n k : Nat) (hk : k ≤ n) :
    (List.range k).flatMap (keptAt zero_tol (identityBuffer n : List α) n n) = List.range k := by
  rw [flatMap_congr_mem _ _ (fun i => [i])
    (fun i hi => keptAt_identity zero_tol h0 h1 n i (by have := List.mem_range.mp hi; omega))]
  induction k with
  | zero => rfl
  | succ k ih =>
    rw [List.range_succ, List.flatMap_append, ih (by omega)]
    simp

theorem keptBefore_identity {α : Type} [LinearOrderedRing α] (zero_tol : α)
    (h0 : 0 ≤ zero_tol) (h1 : zero_tol < 1) (n k : Nat) (hk : k ≤ n) :
    keptBefore zero_tol (identityBuffer n : List α) n n k = k := by
  unfold keptBefore
  rw [flatMap_keptAt_identity zero_tol h0 h1 n k hk, List.length_range]

theorem keptTriplets_identity {α : Type} [LinearOrderedRing α] (zero_tol : α)
    (h0 : 0 ≤ zero_tol) (h1 : zero_tol < 1) (n : Nat) :
    keptTriplets zero_tol (identityBuffer n : List α) n n =
      (List.range n).map (fun i => (i, i, (1 : α))) := by
  unfold keptTriplets
  rw [flatMap_congr_mem _ _ (fun i => [(i, i, (1 : α))])]
  · generalize n = k
    induction k with
    | zero => rfl
    | succ k ih =>
      rw [List.range_succ, List.flatMap_append, ih]
      simp
  · intro i hi
    have hi' := List.mem_range.mp hi
    rw [keptAt_identity zero_tol h0 h1 n i hi']
    simp [load_identityBuffer n i i hi' hi']

/-- The storage the COO dense-buffer constructor builds for the identity. -/
theorem COOMatrix.coo_ctor_data_identity {α : Type} [LinearOrderedRing α] (zero_tol : α)
    (h0 : 0 ≤ zero_tol) (h1 : zero_tol < 1) (n : Nat) :
    COOMatrix.ctor_data zero_tol n n (identityBuffer n : List α) =
      { idx1 := List.range n, idx2 := List.range n, vals := (List.range n).map (fun _ => 1),
        n_rows := n, n_cols := n, nnz := n, sorted := false, diag_first := false } := by
  rw [COOMatrix.coo_ctor_data_eq, keptTriplets_identity zero_tol h0 h1]
  simp [List.map_map, Function.comp_def]

/-- The storage the CSR dense-buffer constructor builds for the identity. -/
theorem CSRMatrix.csr_ctor_data_identity {α : Type} [LinearOrderedRing α] (zero_tol : α)
    (h0 : 0 ≤ zero_tol) (h1 : zero_tol < 1) (n : Nat) :
    (CSRMatrix.ctor_data zero_tol n n (identityBuffer n : List α)).idx2 = List.range n ∧
    (CSRMatrix.ctor_data zero_tol n n (identityBuffer n : List α)).vals =
      (List.range n).map (fun _ => 1) ∧
    (CSRMatrix.ctor_data zero_tol n n (identityBuffer n : List α)).nnz = n ∧
    (CSRMatrix.ctor_data zero_tol n n (identityBuffer n : List α)).n_rows = n ∧
    (CSRMatrix.ctor_data zero_tol n n (identityBuffer n : List α)).n_cols = n ∧
    ∀ i ≤ n, load (CSRMatrix.ctor_data zero_tol n n (identityBuffer n : List α)).idx1 i = i := by
  have hp := (CSRMatrix.csr_ctor_data_ptr zero_tol n n (identityBuffer n : List α)).2
  refine ⟨?_, ?_, ?_, ?_, ?_, fun i hi => ?_⟩
  · rw [CSRMatrix.csr_ctor_data_eq]
    exact flatMap_keptAt_identity zero_tol h0 h1 n n (le_refl n)
  · rw [CSRMatrix.csr_ctor_data_eq]
    show (List.range n).flatMap _ = _
    rw [flatMap_congr_mem _ _ (fun i => [(1 : α)])]
    · generalize n = k
      induction k with
      | zero => rfl
      | succ k ih =>
        rw [List.range_succ, List.flatMap_append, ih]
        simp
    · intro i hi
      have hi' := List.mem_range.mp hi
      rw [keptAt_identity zero_tol h0 h1 n i hi']
      simp [load_identityBuffer n i i hi' hi']
  · rw [CSRMatrix.csr_ctor_data_eq]
    exact keptBefore_identity zero_tol h0 h1 n n (le_refl n)
  · rw [CSRMatrix.csr_ctor_data_eq]
  · rw [CSRMatrix.csr_ctor_data_eq]
  · rw [hp i hi, keptBefore_identity zero_tol h0 h1 n i hi]

/-- The value CSR `mult` leaves in `b[i]`: the terms of row `i`'s slice accumulated in storage
order from `0`. -/
theorem CSRMatrix.csr_load_mult_helper {α : Type} [Zero α] [Add α] [Sub α] [Mul α]
    (A : CSRMatrix α) (x b : List α) (i : Nat) (hi : i < A.n_rows) (hb : i < b.length) :
    load (CSRMatrix.mult_helper A x b) i =
      (span (load A.idx1 i) (load A.idx1 (i + 1))).foldl
        (fun acc k => acc + load A.vals k * load x (load A.idx2 k)) 0 := by
  unfold CSRMatrix.mult_helper
  rw [CSRMatrix.csr_mult_append_helper_eq,
    load_accum _ _ _ _ (by rw [length_zero_fill]; exact hb),
    CSRMatrix.csr_termsAt_rowUpdates A x i hi, load_zero_fill _ _ _ hi, List.foldl_map]

theorem span_succ (i : Nat) : span i (i + 1) = [i] := by
  simp [span]

/-- CSR `mult` with the identity built by the dense-buffer constructor returns `x`. -/
theorem CSRMatrix.csr_mult_identity {α : Type} [LinearOrderedRing α] (zero_tol : α)
    (h0 : 0 ≤ zero_tol) (h1 : zero_tol < 1) (n : Nat) (x b : List α) (hx : x.length = n)
    (hb : b.length = n) :
    CSRMatrix.mult_helper (CSRMatrix.ctor_data zero_tol n n (identityBuffer n : List α)) x b =
      x := by
  obtain ⟨e2, e3, _, er, _, ep⟩ := CSRMatrix.csr_ctor_data_identity zero_tol h0 h1 n
  have len : (CSRMatrix.mult_helper
      (CSRMatrix.ctor_data zero_tol n n (identityBuffer n : List α)) x b).length = b.length :=
    Matrix.length_mult (.csr _) x b
  apply vec_ext _ _ (by rw [len, hb, hx])
  intro i hi
  rw [len, hb] at hi
  rw [CSRMatrix.csr_load_mult_helper _ x b i (by rw [er]; exact hi) (by rw [hb]; exact hi),
    ep i (by omega), ep (i + 1) (by omega), span_succ, e2, e3]
  simp only [List.foldl_cons, List.foldl_nil]
  rw [load_range n i hi, load_map_range _ n i hi, zero_add, one_mul]

/-- COO `mult` with the identity built by the dense-buffer constructor returns `x`. -/
theorem COOMatrix.coo_mult_identity {α : Type} [LinearOrderedRing α] (zero_tol : α)
    (h0 : 0 ≤ zero_tol) (h1 : zero_tol < 1) (n : Nat) (x b : List α) (hx : x.length = n)
    (hb : b.length = n) :
    COOMatrix.mult_helper (COOMatrix.ctor_data zero_tol n n (identityBuffer n : List α)) x b =
      x := by
  rw [COOMatrix.coo_ctor_data_identity zero_tol h0 h1 n]
  have len : ∀ A : COOMatrix α, (COOMatrix.mult_helper A x b).length = b.length :=
    fun A => Matrix.length_mult (.coo A) x b
  apply vec_ext _ _ (by rw [len, hb, hx])
  intro i hi
  rw [len, hb] at hi
  unfold COOMatrix.mult_helper
  rw [COOMatrix.coo_mult_append_helper_eq,
    load_accum_add _ _ _ (by rw [length_zero_fill, hb]; exact hi), load_zero_fill _ _ _ hi,
    zero_add]
  unfold COOMatrix.rowUpdates
  rw [sumAt_map_range]
  simp only []
  rw [Finset.sum_congr rfl (g := fun k => if k = i then load x k else 0)]
  · rw [Finset.sum_ite_eq' (Finset.range n) i (fun k => load x k)]
    simp [hi]
  · intro k hk
    have hk' := Finset.mem_range.mp hk
    rw [load_range n k hk', load_map_range _ n k hk', one_mul]

/-- The value COO `mult` leaves in `b[i]`, as a sum over the stored triplets. -/
theorem COOMatrix.coo_load_mult_helper {α : Type} [LinearOrderedRing α] (A : COOMatrix α)
    (x b : List α) (hb : b.length = A.n_rows) (i : Nat) (hi : i < A.n_rows) :
    load (COOMatrix.mult_helper A x b) i =
      ∑ k in Finset.range A.nnz,
        if load A.idx1 k = i then load A.vals k * load x (load A.idx2 k) else 0 := by
  unfold COOMatrix.mult_helper
  rw [COOMatrix.coo_mult_append_helper_eq,
    load_accum_add _ _ _ (by rw [length_zero_fill, hb]; exact hi), load_zero_fill _ _ _ hi,
    zero_add]
  unfold COOMatrix.rowUpdates
  rw [sumAt_map_range]

theorem BSRMatrix.ctor_arrays_b_size {α : Type} [Zero α] (n m br bc : Nat)
    (rowptr cols : List Nat) (data : List α) (A : BSRMatrix α)
    (h : BSRMatrix.ctor_arrays n m br bc rowptr cols data = .ok A) :
    A.b_size = data.length / cols.length ∧ A.b_rows = br ∧ A.b_cols = bc := by
  unfold BSRMatrix.ctor_arrays at h
  by_cases hd : n % br ≠ 0 ∨ m % bc ≠ 0
  · rw [if_pos hd] at h; injection h
  · rw [if_neg hd] at h
    by_cases hz : cols.length = 0
    · simp only [hz, if_true] at h; injection h
    · simp only [hz, if_false] at h
      obtain ⟨o1, o2, o3, _, _, _, hB⟩ := copies_ok _ _ _ _ _ _ _ _ h
      subst hB
      exact ⟨rfl, rfl, rfl⟩

/-- The reservation and the dense-buffer constructor set `b_size = b_rows * b_cols`. -/
theorem BSRMatrix.ctor_b_size {α : Type} [LinearOrderedRing α] (zero_tol : α)
    (n m br bc nblocks nnz : Nat) (D : List α) :
    (∀ A : BSRMatrix α, BSRMatrix.ctor n m br bc nblocks nnz = .ok A →
      A.b_size = A.b_rows * A.b_cols) ∧
    ∀ A : BSRMatrix α, BSRMatrix.ctor_data zero_tol n m br bc D = .ok A →
      A.b_size = A.b_rows * A.b_cols := by
  constructor
  · intro A h
    unfold BSRMatrix.ctor at h
    by_cases hd : n % br ≠ 0 ∨ m % bc ≠ 0
    · rw [if_pos hd] at h; injection h
    · rw [if_neg hd] at h
      injection h with h
      subst h
      rfl
  · intro A h
    by_cases hd : n % br = 0 ∧ m % bc = 0
    · obtain ⟨B, hB, _, _, h3, h4, h5, _⟩ :=
        BSRMatrix.bsr_ctor_data_spec zero_tol n m br bc D hd
      rw [hB] at h
      injection h with h
      subst h
      rw [h3, h4, h5]
    · unfold BSRMatrix.ctor_data at h
      have : n % br ≠ 0 ∨ m % bc ≠ 0 := by
        by_contra hc
        push_neg at hc
        exact hd hc
      rw [if_pos this] at h
      injection h

theorem dot_eq_sum {α : Type} [CommRing α] (u v : List α) (n : Nat) (hu : u.length = n)
    (hv : v.length = n) : dot u v = ∑ i in Finset.range n, load u i * load v i := by
  induction u generalizing v n with
  | nil =>
    simp at hu
    subst hu
    simp [dot]
  | cons a u ih =>
    cases v with
    | nil =>
      simp at hv
      subst hv
      simp at hu
    | cons c v =>
      cases n with
      | zero => simp at hu
      | succ n =>
        simp only [List.length_cons, Nat.add_right_cancel_iff] at hu hv
        rw [Finset.sum_range_succ']
        have := ih v n hu hv
        unfold dot at this ⊢
        simp only [List.zipWith_cons_cons, List.sum_cons, load_cons_zero, load_cons_succ]
        rw [this, add_comm]

theorem BSRMatrix.block_mult_scalar {α : Type} [Zero α] [Add α] [Mul α] (A : Matrix α) (nb row k col : Nat) (x b : List α) :
    BSRMatrix.block_mult_helper (BSRMatrix.ofScalar A nb) row k col x b =
      store b row (load b row + load A.vals k * load x col) := by
  simp [BSRMatrix.block_mult_helper, BSRMatrix.ofScalar, List.range_succ]

theorem BSRMatrix.block_mult_T_scalar {α : Type} [Zero α] [Add α] [Mul α] (A : Matrix α) (nb row k col : Nat) (x b : List α) :
    BSRMatrix.block_mult_T_helper (BSRMatrix.ofScalar A nb) row k col x b =
      store b col (load b col + load A.vals k * load x row) := by
  simp [BSRMatrix.block_mult_T_helper, BSRMatrix.ofScalar, List.range_succ]

theorem BSRMatrix.block_mult_neg_scalar {α : Type} [Zero α] [Sub α] [Mul α] (A : Matrix α) (nb row k col : Nat) (x b : List α) :
    BSRMatrix.block_mult_neg_helper (BSRMatrix.ofScalar A nb) row k col x b =
      store b row (load b row - load A.vals k * load x col) := by
  simp [BSRMatrix.block_mult_neg_helper, BSRMatrix.ofScalar, List.range_succ]

theorem BSRMatrix.block_mult_neg_T_scalar {α : Type} [Zero α] [Sub α] [Mul α] (A : Matrix α) (nb row k col : Nat) (x b : List α) :
    BSRMatrix.block_mult_neg_T_helper (BSRMatrix.ofScalar A nb) row k col x b =
      store b col (load b col - load A.vals k * load x row) := by
  simp [BSRMatrix.block_mult_neg_T_helper, BSRMatrix.ofScalar, List.range_succ]

theorem BSRMatrix.block_res_scalar {α : Type} [Zero α] [Sub α] [Mul α] (A : Matrix α) (nb row k col : Nat) (x b : List α) :
    BSRMatrix.block_res_helper (BSRMatrix.ofScalar A nb) row k col x b =
      store b row (load b row - load A.vals k * load x col) := by
  simp [BSRMatrix.block_res_helper, BSRMatrix.ofScalar, List.range_succ]

theorem BSRMatrix.ofScalar_base {α : Type} (A : Matrix α) (nb : Nat) :
    (BSRMatrix.ofScalar A nb).b_rows = 1 ∧
    (BSRMatrix.ofScalar A nb).n_rows = A.n_rows ∧
    (BSRMatrix.ofScalar A nb).n_cols = A.n_cols ∧
    (BSRMatrix.ofScalar A nb).idx1 = A.idx1 ∧ (BSRMatrix.ofScalar A nb).idx2 = A.idx2 := by
  simp [BSRMatrix.ofScalar]

theorem reserved_updates {α : Type} [Zero α] [Mul α] (M : AnyMatrix α)
    (hM : AnyMatrix.Reserved M) (x : List α) :
    AnyMatrix.rowUpdates M x = [] ∧ AnyMatrix.colUpdates M x = [] ∧ AnyMatrix.EmptyStorage M := by
  have hz : ∀ (k : Nat) (i : Nat), span (load (List.replicate k 0) i)
      (load (List.replicate k 0) (i + 1)) = [] := by
    intro k i
    rw [load_replicate_zero, load_replicate_zero]
    rfl
  rcases hM with ⟨n, m, hint, rfl⟩ | ⟨n, m, hint, rfl⟩ | ⟨n, m, hint, rfl⟩ |
    ⟨n, m, br, bc, nb, hint, A, _, _, hA, rfl⟩
  · exact ⟨rfl, rfl, rfl, rfl⟩
  · refine ⟨?_, ?_, ?_⟩
    · simp [AnyMatrix.rowUpdates, CSRMatrix.rowUpdates, CSRMatrix.ctor, Matrix.ctor,
        vresize_nil, hz]
    · simp [AnyMatrix.colUpdates, CSRMatrix.colUpdates, CSRMatrix.ctor, Matrix.ctor,
        vresize_nil, hz]
    · simp [AnyMatrix.EmptyStorage, CSRMatrix.ctor, Matrix.ctor, vresize_nil]
  · refine ⟨?_, ?_, ?_⟩
    · simp [AnyMatrix.rowUpdates, CSCMatrix.rowUpdates, CSCMatrix.ctor, Matrix.ctor,
        vresize_nil, hz]
    · simp [AnyMatrix.colUpdates, CSCMatrix.colUpdates, CSCMatrix.ctor, Matrix.ctor,
        vresize_nil, hz]
    · simp [AnyMatrix.EmptyStorage, CSCMatrix.ctor, Matrix.ctor, vresize_nil]
  · unfold BSRMatrix.ctor at hA
    by_cases hd : n % br ≠ 0 ∨ m % bc ≠ 0
    · rw [if_pos hd] at hA; injection hA
    · rw [if_neg hd] at hA
      injection hA with hA
      subst hA
      refine ⟨?_, ?_, ?_⟩
      · simp [AnyMatrix.rowUpdates, BSRMatrix.rowUpdates, hz]
      · simp [AnyMatrix.colUpdates, BSRMatrix.colUpdates, hz]
      · simp [AnyMatrix.EmptyStorage]

theorem copy_fill_eq {α : Type} [Zero α] (n : Nat) (b r : List α) (hb : b.length = n)
    (hr : r.length = n) : copy_fill n b r = b := by
  apply vec_ext _ _ (by rw [length_copy_fill, hb, hr])
  intro i hi
  rw [length_copy_fill, hr] at hi
  exact load_copy_fill n b r i hi (by rw [hr]; exact hi)

/-! ## The checked kernels agree with the total ones -/

theorem load_chk_eq {α : Type} [Zero α] (v : List α) (i : Nat) (h : i < v.length) :
    load_chk v i = some (load v i) := by
  unfold load_chk load
  rw [List.getD_eq_getElem?_getD, List.getElem?_eq_getElem h]
  rfl

theorem store_chk_eq {α : Type} (v : List α) (i : Nat) (a : α) (h : i < v.length) :
    store_chk v i a = some (store v i a) := by
  unfold store_chk store
  rw [if_pos h]

theorem update_chk_eq {α : Type} [Zero α] [Mul α] (op : α → α → α) (vals x b : List α)
    (t k c : Nat) (ht : t < b.length) (hk : k < vals.length) (hc : c < x.length) :
    update_chk op vals x b t k c =
      some (store b t (op (load b t) (load vals k * load x c))) := by
  unfold update_chk
  rw [load_chk_eq vals k hk, load_chk_eq x c hc, load_chk_eq b t ht]
  exact store_chk_eq b t _ ht

/-- A checked loop whose every step succeeds, under an invariant `P`, succeeds and returns
what the total loop returns. -/
theorem foldlM_some {σ ι : Type} (P : σ → Prop) (f : σ → ι → Option σ) (g : σ → ι → σ)
    (l : List ι) (h : ∀ s, P s → ∀ a ∈ l, f s a = some (g s a) ∧ P (g s a)) (s : σ)
    (hs : P s) : l.foldlM f s = some (l.foldl g s) ∧ P (l.foldl g s) := by
  induction l generalizing s with
  | nil => exact ⟨rfl, hs⟩
  | cons a l ih =>
    obtain ⟨h1, h2⟩ := h s hs a (List.mem_cons_self a l)
    rw [List.foldlM_cons, h1, List.foldl_cons]
    exact ih (fun s hs a ha => h s hs a (List.mem_cons_of_mem _ ha)) (g s a) h2

theorem zero_fill_chk_eq {α : Type} [Zero α] (n : Nat) (b : List α) (hb : n ≤ b.length) :
    zero_fill_chk n b = some (zero_fill n b) :=
  (foldlM_some (fun v : List α => v.length = b.length) _ (fun b i => store b i 0) _
    (fun s hs i hi =>
      ⟨store_chk_eq s i 0 (by rw [hs]; exact lt_of_lt_of_le (List.mem_range.mp hi) hb),
        by simpa only [length_store] using hs⟩) b rfl).1

theorem copy_fill_chk_eq {α : Type} [Zero α] (n : Nat) (b r : List α) (hb : n ≤ b.length)
    (hr : n ≤ r.length) : copy_fill_chk n b r = some (copy_fill n b r) :=
  (foldlM_some (fun v : List α => v.length = r.length) _
    (fun r i => store r i (load b i)) _
    (fun s hs i hi => by
      have hi := List.mem_range.mp hi
      refine ⟨?_, by simpa only [length_store] using hs⟩
      show (load_chk b i >>= fun v => store_chk s i v) = _
      rw [load_chk_eq b i (lt_of_lt_of_le hi hb)]
      exact store_chk_eq s i _ (by rw [hs]; exact lt_of_lt_of_le hi hr)) r rfl).1

/-- The triplet loop of the COO kernels, over the target and source index arrays. -/
theorem coo_loop_chk {α : Type} [Zero α] [Mul α] (op : α → α → α) (nnz : Nat)
    (tgt src : List Nat) (vals x b : List α) (ht : tgt.length = nnz) (hs : src.length = nnz)
    (hv : vals.length = nnz) (htb : ∀ t ∈ tgt, t < b.length) (hsx : ∀ c ∈ src, c < x.length) :
    (List.range nnz).foldlM
      (fun b i => do
        let t ← load_chk tgt i
        let c ← load_chk src i
        update_chk op vals x b t i c) b =
    some ((List.range nnz).foldl
      (fun b i => store b (load tgt i) (op (load b (load tgt i))
        (load vals i * load x (load src i)))) b) :=
  (foldlM_some (fun v : List α => v.length = b.length) _ _ _
    (fun s hs1 i hi => by
      have hi := List.mem_range.mp hi
      refine ⟨?_, by simpa only [length_store] using hs1⟩
      show (load_chk tgt i >>= fun t => load_chk src i >>= fun c =>
        update_chk op vals x s t i c) = _
      rw [load_chk_eq tgt i (by rw [ht]; exact hi), load_chk_eq src i (by rw [hs]; exact hi)]
      exact update_chk_eq op vals x s _ i _
        (by rw [hs1]; exact htb _ (load_mem i (by rw [ht]; exact hi)))
        (by rw [hv]; exact hi) (hsx _ (load_mem i (by rw [hs]; exact hi)))) b rfl).1

/-- The pointer sweep of the CSR, CSC and BSR kernels over a checked body `f` that agrees
with the total body `g` wherever the slice position and the index are in range. -/
theorem sweep_chk {σ : Type} (P : σ → Prop) (N M ncb : Nat) (ptr idx : List Nat)
    (hptr : PtrOK ptr N M) (hidx : idx.length = M) (hc : ∀ c ∈ idx, c < ncb)
    (f : Nat → Nat → Nat → σ → Option σ) (g : Nat → Nat → Nat → σ → σ)
    (h : ∀ i < N, ∀ j < M, ∀ c < ncb, ∀ s, P s → f i j c s = some (g i j c s) ∧ P (g i j c s))
    (s : σ) (hs : P s) :
    (List.range N).foldlM
      (fun s i => do
        let start ← load_chk ptr i
        let stop ← load_chk ptr (i + 1)
        (span start stop).foldlM
          (fun s j => do
            let c ← load_chk idx j
            f i j c s) s) s =
    some ((List.range N).foldl
      (fun s i => (span (load ptr i) (load ptr (i + 1))).foldl
        (fun s j => g i j (load idx j) s) s) s) ∧
    P ((List.range N).foldl
      (fun s i => (span (load ptr i) (load ptr (i + 1))).foldl
        (fun s j => g i j (load idx j) s) s) s) := by
  apply foldlM_some P _ _ _ _ s hs
  intro s hs i hi
  have hi := List.mem_range.mp hi
  have hl := hptr.1
  show (load_chk ptr i >>= fun start => load_chk ptr (i + 1) >>= fun stop =>
    (span start stop).foldlM (fun s j => load_chk idx j >>= fun c => f i j c s) s) = _ ∧ _
  rw [load_chk_eq ptr i (by omega), load_chk_eq ptr (i + 1) (by omega)]
  apply foldlM_some P _ (fun s j => g i j (load idx j) s) _ _ s hs
  intro s hs j hj
  have hj : j < M := by
    apply hptr.slice_lt i j hi
    unfold span at hj
    rw [List.mem_range'_1] at hj
    rw [Finset.mem_Ico]
    omega
  show (load_chk idx j >>= fun c => f i j c s) = _ ∧ _
  rw [load_chk_eq idx j (by rw [hidx]; exact hj)]
  exact h i hi j hj _ (hc _ (load_mem j (by rw [hidx]; exact hj))) s hs

/-- The two loops over a dense block. -/
theorem grid_chk {α : Type} [Zero α] [Mul α] (op : α → α → α) (vals x b : List α)
    (R C : Nat) (t k c : Nat → Nat → Nat)
    (h : ∀ i < R, ∀ j < C, t i j < b.length ∧ k i j < vals.length ∧ c i j < x.length) :
    (List.range R).foldlM
      (fun b i => (List.range C).foldlM
        (fun b j => update_chk op vals x b (t i j) (k i j) (c i j)) b) b =
    some ((List.range R).foldl
      (fun b i => (List.range C).foldl
        (fun b j => store b (t i j) (op (load b (t i j))
          (load vals (k i j) * load x (c i j)))) b) b) ∧
    ((List.range R).foldl
      (fun b i => (List.range C).foldl
        (fun b j => store b (t i j) (op (load b (t i j))
          (load vals (k i j) * load x (c i j)))) b) b).length = b.length := by
  apply foldlM_some (fun v : List α => v.length = b.length) _ _ _ _ b rfl
  intro s hs i hi
  have hi := List.mem_range.mp hi
  apply foldlM_some (fun v : List α => v.length = b.length) _
    (fun b j => store b (t i j) (op (load b (t i j)) (load vals (k i j) * load x (c i j))))
    _ _ s hs
  intro s hs j hj
  have hj := List.mem_range.mp hj
  obtain ⟨h1, h2, h3⟩ := h i hi j hj
  exact ⟨update_chk_eq op vals x s _ _ _ (by rw [hs]; exact h1) h2 h3,
    by simpa only [length_store] using hs⟩

/-- Every subscript of the seven COO kernels is in range on well-formed storage and
vectors of the matching lengths. -/
theorem COOMatrix.coo_chk_eq {α : Type} [Zero α] [Add α] [Sub α] [Mul α] (A : COOMatrix α)
    (hA : COOMatrix.WF A) (x y b c r : List α) (hx : x.length = A.n_cols)
    (hy : y.length = A.n_rows) (hb : b.length = A.n_rows) (hc : c.length = A.n_cols)
    (hr : r.length = A.n_rows) :
    COOMatrix.mult_helper_chk A x b = some (COOMatrix.mult_helper A x b) ∧
    COOMatrix.mult_T_helper_chk A y c = some (COOMatrix.mult_T_helper A y c) ∧
    COOMatrix.mult_append_helper_chk A x b = some (COOMatrix.mult_append_helper A x b) ∧
    COOMatrix.mult_append_T_helper_chk A y c = some (COOMatrix.mult_append_T_helper A y c) ∧
    COOMatrix.mult_append_neg_helper_chk A x b = some (COOMatrix.mult_append_neg_helper A x b) ∧
    COOMatrix.mult_append_neg_T_helper_chk A y c =
      some (COOMatrix.mult_append_neg_T_helper A y c) ∧
    COOMatrix.residual_helper_chk A x b r = some (COOMatrix.residual_helper A x b r) := by
  obtain ⟨h1, h2, h3, h4, h5⟩ := hA
  have a1 : ∀ b : List α, b.length = A.n_rows →
      COOMatrix.mult_append_helper_chk A x b = some (COOMatrix.mult_append_helper A x b) :=
    fun b hb => coo_loop_chk (· + ·) A.nnz A.idx1 A.idx2 A.vals x b h1 h2 h3
      (by rw [hb]; exact h4) (by rw [hx]; exact h5)
  have a2 : ∀ c : List α, c.length = A.n_cols →
      COOMatrix.mult_append_T_helper_chk A y c = some (COOMatrix.mult_append_T_helper A y c) :=
    fun b hb => coo_loop_chk (· + ·) A.nnz A.idx2 A.idx1 A.vals y b h2 h1 h3
      (by rw [hb]; exact h5) (by rw [hy]; exact h4)
  have a3 : ∀ b : List α, b.length = A.n_rows →
      COOMatrix.mult_append_neg_helper_chk A x b =
        some (COOMatrix.mult_append_neg_helper A x b) :=
    fun b hb => coo_loop_chk (· - ·) A.nnz A.idx1 A.idx2 A.vals x b h1 h2 h3
      (by rw [hb]; exact h4) (by rw [hx]; exact h5)
  have a4 : ∀ c : List α, c.length = A.n_cols →
      COOMatrix.mult_append_neg_T_helper_chk A y c =
        some (COOMatrix.mult_append_neg_T_helper A y c) :=
    fun b hb => coo_loop_chk (· - ·) A.nnz A.idx2 A.idx1 A.vals y b h2 h1 h3
      (by rw [hb]; exact h5) (by rw [hy]; exact h4)
  refine ⟨?_, ?_, a1 b hb, a2 c hc, a3 b hb, a4 c hc, ?_⟩
  · unfold COOMatrix.mult_helper_chk
    rw [zero_fill_chk_eq _ _ (le_of_eq hb.symm)]
    exact a1 (zero_fill A.n_rows b) (by rw [length_zero_fill, hb])
  · unfold COOMatrix.mult_T_helper_chk
    rw [zero_fill_chk_eq _ _ (le_of_eq hc.symm)]
    exact a2 (zero_fill A.n_cols c) (by rw [length_zero_fill, hc])
  · unfold COOMatrix.residual_helper_chk
    rw [copy_fill_chk_eq _ _ _ (le_of_eq hb.symm) (le_of_eq hr.symm)]
    exact a3 (copy_fill A.n_rows b r) (by rw [length_copy_fill, hr])

/-- Every subscript of the seven CSR kernels is in range on well-formed storage and
vectors of the matching lengths. -/
theorem CSRMatrix.csr_chk_eq {α : Type} [Zero α] [Add α] [Sub α] [Mul α] (A : CSRMatrix α)
    (hA : CSRMatrix.WF A) (x y b c r : List α) (hx : x.length = A.n_cols)
    (hy : y.length = A.n_rows) (hb : b.length = A.n_rows) (hc : c.length = A.n_cols)
    (hr : r.length = A.n_rows) :
    CSRMatrix.mult_helper_chk A x b = some (CSRMatrix.mult_helper A x b) ∧
    CSRMatrix.mult_T_helper_chk A y c = some (CSRMatrix.mult_T_helper A y c) ∧
    CSRMatrix.mult_append_helper_chk A x b = some (CSRMatrix.mult_append_helper A x b) ∧
    CSRMatrix.mult_append_T_helper_chk A y c = some (CSRMatrix.mult_append_T_helper A y c) ∧
    CSRMatrix.mult_append_neg_helper_chk A x b = some (CSRMatrix.mult_append_neg_helper A x b) ∧
    CSRMatrix.mult_append_neg_T_helper_chk A y c =
      some (CSRMatrix.mult_append_neg_T_helper A y c) ∧
    CSRMatrix.residual_helper_chk A x b r = some (CSRMatrix.residual_helper A x b r) := by
  obtain ⟨hp, hv, hi⟩ := hA
  have a1 : ∀ b : List α, b.length = A.n_rows →
      CSRMatrix.mult_append_helper_chk A x b = some (CSRMatrix.mult_append_helper A x b) :=
    fun b hb => (sweep_chk (fun v : List α => v.length = b.length) A.n_rows A.idx2.length A.n_cols
      A.idx1 A.idx2 hp rfl hi
      (fun i j c b => update_chk (· + ·) A.vals x b i j c)
      (fun i j c b => store b i (load b i + load A.vals j * load x c))
      (fun i hi j hj c hc s hs =>
        ⟨update_chk_eq (· + ·) A.vals x s _ _ _ (by rw [hs, hb]; exact hi)
          (by rw [hv]; exact hj) (by rw [hx]; exact hc),
          by simpa only [length_store] using hs⟩) b rfl).1
  have a2 : ∀ c : List α, c.length = A.n_cols →
      CSRMatrix.mult_append_T_helper_chk A y c = some (CSRMatrix.mult_append_T_helper A y c) :=
    fun b hb => (sweep_chk (fun v : List α => v.length = b.length) A.n_rows A.idx2.length A.n_cols
      A.idx1 A.idx2 hp rfl hi
      (fun i j c b => update_chk (· + ·) A.vals y b c j i)
      (fun i j c b => store b c (load b c + load A.vals j * load y i))
      (fun i hi j hj c hc s hs =>
        ⟨update_chk_eq (· + ·) A.vals y s _ _ _ (by rw [hs, hb]; exact hc)
          (by rw [hv]; exact hj) (by rw [hy]; exact hi),
          by simpa only [length_store] using hs⟩) b rfl).1
  have a3 : ∀ b : List α, b.length = A.n_rows →
      CSRMatrix.mult_append_neg_helper_chk A x b =
        some (CSRMatrix.mult_append_neg_helper A x b) :=
    fun b hb => (sweep_chk (fun v : List α => v.length = b.length) A.n_rows A.idx2.length A.n_cols
      A.idx1 A.idx2 hp rfl hi
      (fun i j c b => update_chk (· - ·) A.vals x b i j c)
      (fun i j c b => store b i (load b i - load A.vals j * load x c))
      (fun i hi j hj c hc s hs =>
        ⟨update_chk_eq (· - ·) A.vals x s _ _ _ (by rw [hs, hb]; exact hi)
          (by rw [hv]; exact hj) (by rw [hx]; exact hc),
          by simpa only [length_store] using hs⟩) b rfl).1
  have a4 : ∀ c : List α, c.length = A.n_cols →
      CSRMatrix.mult_append_neg_T_helper_chk A y c =
        some (CSRMatrix.mult_append_neg_T_helper A y c) :=
    fun b hb => (sweep_chk (fun v : List α => v.length = b.length) A.n_rows A.idx2.length A.n_cols
      A.idx1 A.idx2 hp rfl hi
      (fun i j c b => update_chk (· - ·) A.vals y b c j i)
      (fun i j c b => store b c (load b c - load A.vals j * load y i))
      (fun i hi j hj c hc s hs =>
        ⟨update_chk_eq (· - ·) A.vals y s _ _ _ (by rw [hs, hb]; exact hc)
          (by rw [hv]; exact hj) (by rw [hy]; exact hi),
          by simpa only [length_store] using hs⟩) b rfl).1
  refine ⟨?_, ?_, a1 b hb, a2 c hc, a3 b hb, a4 c hc, ?_⟩
  · unfold CSRMatrix.mult_helper_chk
    rw [zero_fill_chk_eq _ _ (le_of_eq hb.symm)]
    exact a1 (zero_fill A.n_rows b) (by rw [length_zero_fill, hb])
  · unfold CSRMatrix.mult_T_helper_chk
    rw [zero_fill_chk_eq _ _ (le_of_eq hc.symm)]
    exact a2 (zero_fill A.n_cols c) (by rw [length_zero_fill, hc])
  · unfold CSRMatrix.residual_helper_chk
    rw [copy_fill_chk_eq _ _ _ (le_of_eq hb.symm) (le_of_eq hr.symm)]
    exact a3 (copy_fill A.n_rows b r) (by rw [length_copy_fill, hr])

/-- Every subscript of the seven CSC kernels is in range on well-formed storage and
vectors of the matching lengths. -/
theorem CSCMatrix.csc_chk_eq {α : Type} [Zero α] [Add α] [Sub α] [Mul α] (A : CSCMatrix α)
    (hA : CSCMatrix.WF A) (x y b c r : List α) (hx : x.length = A.n_cols)
    (hy : y.length = A.n_rows) (hb : b.length = A.n_rows) (hc : c.length = A.n_cols)
    (hr : r.length = A.n_rows) :
    CSCMatrix.mult_helper_chk A x b = some (CSCMatrix.mult_helper A x b) ∧
    CSCMatrix.mult_T_helper_chk A y c = some (CSCMatrix.mult_T_helper A y c) ∧
    CSCMatrix.mult_append_helper_chk A x b = some (CSCMatrix.mult_append_helper A x b) ∧
    CSCMatrix.mult_append_T_helper_chk A y c = some (CSCMatrix.mult_append_T_helper A y c) ∧
    CSCMatrix.mult_append_neg_helper_chk A x b = some (CSCMatrix.mult_append_neg_helper A x b) ∧
    CSCMatrix.mult_append_neg_T_helper_chk A y c =
      some (CSCMatrix.mult_append_neg_T_helper A y c) ∧
    CSCMatrix.residual_helper_chk A x b r = some (CSCMatrix.residual_helper A x b r) := by
  obtain ⟨hp, hv, hi⟩ := hA
  have a1 : ∀ b : List α, b.length = A.n_rows →
      CSCMatrix.mult_append_helper_chk A x b = some (CSCMatrix.mult_append_helper A x b) :=
    fun b hb => (sweep_chk (fun v : List α => v.length = b.length) A.n_cols A.idx2.length A.n_rows
      A.idx1 A.idx2 hp rfl hi
      (fun i j c b => update_chk (· + ·) A.vals x b c j i)
      (fun i j c b => store b c (load b c + load A.vals j * load x i))
      (fun i hi j hj c hc s hs =>
        ⟨update_chk_eq (· + ·) A.vals x s _ _ _ (by rw [hs, hb]; exact hc)
          (by rw [hv]; exact hj) (by rw [hx]; exact hi),
          by simpa only [length_store] using hs⟩) b rfl).1
  have a2 : ∀ c : List α, c.length = A.n_cols →
      CSCMatrix.mult_append_T_helper_chk A y c = some (CSCMatrix.mult_append_T_helper A y c) :=
    fun b hb => (sweep_chk (fun v : List α => v.length = b.length) A.n_cols A.idx2.length A.n_rows
      A.idx1 A.idx2 hp rfl hi
      (fun i j c b => update_chk (· + ·) A.vals y b i j c)
      (fun i j c b => store b i (load b i + load A.vals j * load y c))
      (fun i hi j hj c hc s hs =>
        ⟨update_chk_eq (· + ·) A.vals y s _ _ _ (by rw [hs, hb]; exact hi)
          (by rw [hv]; exact hj) (by rw [hy]; exact hc),
          by simpa only [length_store] using hs⟩) b rfl).1
  have a3 : ∀ b : List α, b.length = A.n_rows →
      CSCMatrix.mult_append_neg_helper_chk A x b =
        some (CSCMatrix.mult_append_neg_helper A x b) :=
    fun b hb => (sweep_chk (fun v : List α => v.length = b.length) A.n_cols A.idx2.length A.n_rows
      A.idx1 A.idx2 hp rfl hi
      (fun i j c b => update_chk (· - ·) A.vals x b c j i)
      (fun i j c b => store b c (load b c - load A.vals j * load x i))
      (fun i hi j hj c hc s hs =>
        ⟨update_chk_eq (· - ·) A.vals x s _ _ _ (by rw [hs, hb]; exact hc)
          (by rw [hv]; exact hj) (by rw [hx]; exact hi),
          by simpa only [length_store] using hs⟩) b rfl).1
  have a4 : ∀ c : List α, c.length = A.n_cols →
      CSCMatrix.mult_append_neg_T_helper_chk A y c =
        some (CSCMatrix.mult_append_neg_T_helper A y c) :=
    fun b hb => (sweep_chk (fun v : List α => v.length = b.length) A.n_cols A.idx2.length A.n_rows
      A.idx1 A.idx2 hp rfl hi
      (fun i j c b => update_chk (· - ·) A.vals y b i j c)
      (fun i j c b => store b i (load b i - load A.vals j * load y c))
      (fun i hi j hj c hc s hs =>
        ⟨update_chk_eq (· - ·) A.vals y s _ _ _ (by rw [hs, hb]; exact hi)
          (by rw [hv]; exact hj) (by rw [hy]; exact hc),
          by simpa only [length_store] using hs⟩) b rfl).1
  refine ⟨?_, ?_, a1 b hb, a2 c hc, a3 b hb, a4 c hc, ?_⟩
  · unfold CSCMatrix.mult_helper_chk
    rw [zero_fill_chk_eq _ _ (le_of_eq hb.symm)]
    exact a1 (zero_fill A.n_rows b) (by rw [length_zero_fill, hb])
  · unfold CSCMatrix.mult_T_helper_chk
    rw [zero_fill_chk_eq _ _ (le_of_eq hc.symm)]
    exact a2 (zero_fill A.n_cols c) (by rw [length_zero_fill, hc])
  · unfold CSCMatrix.residual_helper_chk
    rw [copy_fill_chk_eq _ _ _ (le_of_eq hb.symm) (le_of_eq hr.symm)]
    exact a3 (copy_fill A.n_rows b r) (by rw [length_copy_fill, hr])

theorem mul_add_lt (a N i br : Nat) (ha : a < N) (hi : i < br) : a * br + i < N * br := by
  have h : (a + 1) * br ≤ N * br := Nat.mul_le_mul_right br ha
  rw [Nat.add_mul, Nat.one_mul] at h
  omega

/-- The three subscripts of a block kernel are in range. -/
theorem BSRMatrix.block_bounds {α : Type} (A : BSRMatrix α) (hA : BSRMatrix.WF A)
    (row k col i j : Nat) (hrow : row < A.n_rows / A.b_rows) (hk : k < A.n_blocks)
    (hcol : col < A.n_cols / A.b_cols) (hi : i < A.b_rows) (hj : j < A.b_cols) :
    row * A.b_rows + i < A.n_rows ∧ i * A.b_cols + j + k * A.b_size < A.vals.length ∧
      col * A.b_cols + j < A.n_cols := by
  have e1 := BSRMatrix.n_rows_eq A hA
  have e2 := BSRMatrix.n_cols_eq A hA
  obtain ⟨_, _, _, _, hbs, _, _, hv, _⟩ := hA
  refine ⟨?_, ?_, ?_⟩
  · rw [e1]
    exact mul_add_lt _ _ _ _ hrow hi
  · rw [hv, Nat.add_comm]
    apply mul_add_lt _ _ _ _ hk
    rw [hbs]
    exact mul_add_lt _ _ _ _ hi hj
  · rw [e2]
    exact mul_add_lt _ _ _ _ hcol hj

theorem BSRMatrix.block_mult_helper_chk_eq {α : Type} [Zero α] [Add α] [Sub α] [Mul α]
    (A : BSRMatrix α) (hA : BSRMatrix.WF A) (x : List α) (hx : x.length = A.n_cols)
    (row : Nat) (hrow : row < A.n_rows / A.b_rows) (k : Nat) (hk : k < A.n_blocks)
    (col : Nat) (hcol : col < A.n_cols / A.b_cols) (b : List α) (hb : b.length = A.n_rows) :
    BSRMatrix.block_mult_helper_chk A row k col x b = some (BSRMatrix.block_mult_helper A row k col x b) ∧
      (BSRMatrix.block_mult_helper A row k col x b).length = A.n_rows := by
  have key := grid_chk (· + ·) A.vals x b A.b_rows A.b_cols (fun i _ => row * A.b_rows + i)
    (fun i j => i * A.b_cols + j + k * A.b_size) (fun _ j => col * A.b_cols + j)
    (fun i hi j hj => by
      have h := BSRMatrix.block_bounds A hA row k col i j hrow hk hcol hi hj
      exact ⟨by rw [hb]; exact h.1, h.2.1, by rw [hx]; exact h.2.2⟩)
  exact ⟨key.1, key.2.trans hb⟩

theorem BSRMatrix.block_mult_T_helper_chk_eq {α : Type} [Zero α] [Add α] [Sub α] [Mul α]
    (A : BSRMatrix α) (hA : BSRMatrix.WF A) (x : List α) (hx : x.length = A.n_rows)
    (row : Nat) (hrow : row < A.n_rows / A.b_rows) (k : Nat) (hk : k < A.n_blocks)
    (col : Nat) (hcol : col < A.n_cols / A.b_cols) (b : List α) (hb : b.length = A.n_cols) :
    BSRMatrix.block_mult_T_helper_chk A row k col x b = some (BSRMatrix.block_mult_T_helper A row k col x b) ∧
      (BSRMatrix.block_mult_T_helper A row k col x b).length = A.n_cols := by
  have key := grid_chk (· + ·) A.vals x b A.b_rows A.b_cols (fun _ j => col * A.b_cols + j)
    (fun i j => i * A.b_cols + j + k * A.b_size) (fun i _ => row * A.b_rows + i)
    (fun i hi j hj => by
      have h := BSRMatrix.block_bounds A hA row k col i j hrow hk hcol hi hj
      exact ⟨by rw [hb]; exact h.2.2, h.2.1, by rw [hx]; exact h.1⟩)
  exact ⟨key.1, key.2.trans hb⟩

theorem BSRMatrix.block_mult_neg_helper_chk_eq {α : Type} [Zero α] [Add α] [Sub α] [Mul α]
    (A : BSRMatrix α) (hA : BSRMatrix.WF A) (x : List α) (hx : x.length = A.n_cols)
    (row : Nat) (hrow : row < A.n_rows / A.b_rows) (k : Nat) (hk : k < A.n_blocks)
    (col : Nat) (hcol : col < A.n_cols / A.b_cols) (b : List α) (hb : b.length = A.n_rows) :
    BSRMatrix.block_mult_neg_helper_chk A row k col x b = some (BSRMatrix.block_mult_neg_helper A row k col x b) ∧
      (BSRMatrix.block_mult_neg_helper A row k col x b).length = A.n_rows := by
  have key := grid_chk (· - ·) A.vals x b A.b_rows A.b_cols (fun i _ => row * A.b_rows + i)
    (fun i j => i * A.b_cols + j + k * A.b_size) (fun _ j => col * A.b_cols + j)
    (fun i hi j hj => by
      have h := BSRMatrix.block_bounds A hA row k col i j hrow hk hcol hi hj
      exact ⟨by rw [hb]; exact h.1, h.2.1, by rw [hx]; exact h.2.2⟩)
  exact ⟨key.1, key.2.trans hb⟩

theorem BSRMatrix.block_mult_neg_T_helper_chk_eq {α : Type} [Zero α] [Add α] [Sub α] [Mul α]
    (A : BSRMatrix α) (hA : BSRMatrix.WF A) (x : List α) (hx : x.length = A.n_rows)
    (row : Nat) (hrow : row < A.n_rows / A.b_rows) (k : Nat) (hk : k < A.n_blocks)
    (col : Nat) (hcol : col < A.n_cols / A.b_cols) (b : List α) (hb : b.length = A.n_cols) :
    BSRMatrix.block_mult_neg_T_helper_chk A row k col x b = some (BSRMatrix.block_mult_neg_T_helper A row k col x b) ∧
      (BSRMatrix.block_mult_neg_T_helper A row k col x b).length = A.n_cols := by
  have key := grid_chk (· - ·) A.vals x b A.b_rows A.b_cols (fun _ j => col * A.b_cols + j)
    (fun i j => i * A.b_cols + j + k * A.b_size) (fun i _ => row * A.b_rows + i)
    (fun i hi j hj => by
      have h := BSRMatrix.block_bounds A hA row k col i j hrow hk hcol hi hj
      exact ⟨by rw [hb]; exact h.2.2, h.2.1, by rw [hx]; exact h.1⟩)
  exact ⟨key.1, key.2.trans hb⟩

theorem BSRMatrix.block_res_helper_chk_eq {α : Type} [Zero α] [Add α] [Sub α] [Mul α]
    (A : BSRMatrix α) (hA : BSRMatrix.WF A) (x : List α) (hx : x.length = A.n_cols)
    (row : Nat) (hrow : row < A.n_rows / A.b_rows) (k : Nat) (hk : k < A.n_blocks)
    (col : Nat) (hcol : col < A.n_cols / A.b_cols) (b : List α) (hb : b.length = A.n_rows) :
    BSRMatrix.block_res_helper_chk A row k col x b = some (BSRMatrix.block_res_helper A row k col x b) ∧
      (BSRMatrix.block_res_helper A row k col x b).length = A.n_rows := by
  have key := grid_chk (· - ·) A.vals x b A.b_rows A.b_cols (fun i _ => row * A.b_rows + i)
    (fun i j => i * A.b_cols + j + k * A.b_size) (fun _ j => col * A.b_cols + j)
    (fun i hi j hj => by
      have h := BSRMatrix.block_bounds A hA row k col i j hrow hk hcol hi hj
      exact ⟨by rw [hb]; exact h.1, h.2.1, by rw [hx]; exact h.2.2⟩)
  exact ⟨key.1, key.2.trans hb⟩

/-- Every subscript of the seven BSR kernels is in range on well-formed storage and vectors
of the matching lengths. -/
theorem BSRMatrix.bsr_chk_eq {α : Type} [Zero α] [Add α] [Sub α] [Mul α] (A : BSRMatrix α)
    (hA : BSRMatrix.WF A) (x y b c r : List α) (hx : x.length = A.n_cols)
    (hy : y.length = A.n_rows) (hb : b.length = A.n_rows) (hc : c.length = A.n_cols)
    (hr : r.length = A.n_rows) :
    BSRMatrix.mult_helper_chk A x b = some (BSRMatrix.mult_helper A x b) ∧
    BSRMatrix.mult_T_helper_chk A y c = some (BSRMatrix.mult_T_helper A y c) ∧
    BSRMatrix.mult_append_helper_chk A x b = some (BSRMatrix.mult_append_helper A x b) ∧
    BSRMatrix.mult_append_T_helper_chk A y c = some (BSRMatrix.mult_append_T_helper A y c) ∧
    BSRMatrix.mult_append_neg_helper_chk A x b = some (BSRMatrix.mult_append_neg_helper A x b) ∧
    BSRMatrix.mult_append_neg_T_helper_chk A y c =
      some (BSRMatrix.mult_append_neg_T_helper A y c) ∧
    BSRMatrix.residual_helper_chk A x b r = some (BSRMatrix.residual_helper A x b r) := by
  have hp := hA.2.2.2.2.2.1
  have hl := hA.2.2.2.2.2.2.1
  have hi := hA.2.2.2.2.2.2.2.2
  have a1 : ∀ b : List α, b.length = A.n_rows →
      BSRMatrix.mult_append_helper_chk A x b = some (BSRMatrix.mult_append_helper A x b) :=
    fun b hb => (sweep_chk (fun v : List α => v.length = A.n_rows) (A.n_rows / A.b_rows) A.n_blocks
      (A.n_cols / A.b_cols) A.idx1 A.idx2 hp hl hi
      (fun i j c b => BSRMatrix.block_mult_helper_chk A i j c x b)
      (fun i j c b => BSRMatrix.block_mult_helper A i j c x b)
      (fun i hi j hj c hc s hs =>
        BSRMatrix.block_mult_helper_chk_eq A hA x hx i hi j hj c hc s hs) b hb).1
  have a2 : ∀ c : List α, c.length = A.n_cols →
      BSRMatrix.mult_append_T_helper_chk A y c = some (BSRMatrix.mult_append_T_helper A y c) :=
    fun b hb => (sweep_chk (fun v : List α => v.length = A.n_cols) (A.n_rows / A.b_rows) A.n_blocks
      (A.n_cols / A.b_cols) A.idx1 A.idx2 hp hl hi
      (fun i j c b => BSRMatrix.block_mult_T_helper_chk A i j c y b)
      (fun i j c b => BSRMatrix.block_mult_T_helper A i j c y b)
      (fun i hi j hj c hc s hs =>
        BSRMatrix.block_mult_T_helper_chk_eq A hA y hy i hi j hj c hc s hs) b hb).1
  have a3 : ∀ b : List α, b.length = A.n_rows →
      BSRMatrix.mult_append_neg_helper_chk A x b =
        some (BSRMatrix.mult_append_neg_helper A x b) :=
    fun b hb => (sweep_chk (fun v : List α => v.length = A.n_rows) (A.n_rows / A.b_rows) A.n_blocks
      (A.n_cols / A.b_cols) A.idx1 A.idx2 hp hl hi
      (fun i j c b => BSRMatrix.block_mult_neg_helper_chk A i j c x b)
      (fun i j c b => BSRMatrix.block_mult_neg_helper A i j c x b)
      (fun i hi j hj c hc s hs =>
        BSRMatrix.block_mult_neg_helper_chk_eq A hA x hx i hi j hj c hc s hs) b hb).1
  have a4 : ∀ c : List α, c.length = A.n_cols →
      BSRMatrix.mult_append_neg_T_helper_chk A y c =
        some (BSRMatrix.mult_append_neg_T_helper A y c) :=
    fun b hb => (sweep_chk (fun v : List α => v.length = A.n_cols) (A.n_rows / A.b_rows) A.n_blocks
      (A.n_cols / A.b_cols) A.idx1 A.idx2 hp hl hi
      (fun i j c b => BSRMatrix.block_mult_neg_T_helper_chk A i j c y b)
      (fun i j c b => BSRMatrix.block_mult_neg_T_helper A i j c y b)
      (fun i hi j hj c hc s hs =>
        BSRMatrix.block_mult_neg_T_helper_chk_eq A hA y hy i hi j hj c hc s hs) b hb).1
  refine ⟨?_, ?_, a1 b hb, a2 c hc, a3 b hb, a4 c hc, ?_⟩
  · unfold BSRMatrix.mult_helper_chk
    rw [zero_fill_chk_eq _ _ (le_of_eq hb.symm)]
    exact a1 (zero_fill A.n_rows b) (by rw [length_zero_fill, hb])
  · unfold BSRMatrix.mult_T_helper_chk
    rw [zero_fill_chk_eq _ _ (le_of_eq hc.symm)]
    exact a2 (zero_fill A.n_cols c) (by rw [length_zero_fill, hc])
  · unfold BSRMatrix.residual_helper_chk
    rw [copy_fill_chk_eq _ _ _ (le_of_eq hb.symm) (le_of_eq hr.symm)]
    exact a3 (copy_fill A.n_rows b r) (by rw [length_copy_fill, hr])

/-- The checked kernels do detect a subscript out of range: a vector `x` one entry short, or an
output vector one entry short. -/
theorem chk_detects :
    CSRMatrix.mult_helper_chk exCSR [1, 2] [0, 0] = none ∧
    CSRMatrix.mult_helper_chk exCSR [1, 2, 3] [0] = none ∧
    CSCMatrix.mult_T_helper_chk exCSC [1] [0, 0, 0] = none ∧
    COOMatrix.residual_helper_chk exCOO [1, 2] [0, 0] [0, 0] = none ∧
    BSRMatrix.mult_helper_chk exBSR [1, 2, 3] [0, 0] = none ∧
    BSRMatrix.mult_append_T_helper_chk exBSR [1, 2] [0, 0, 0] = none := by
  decide

theorem foldl_log (l log : List Nat) : l.foldl (fun log k => log ++ [k]) log = log ++ l := by
  induction l generalizing log with
  | nil => simp
  | cons a l ih => simp [ih]

theorem CSCMatrix.csc_mem_ctor_data_reads (n m k : Nat) :
    k ∈ CSCMatrix.ctor_data_reads n m ↔ ∃ i < m, ∃ j < n, k = i * m + j := by
  have inner : ∀ (i : Nat) (log : List Nat),
      (List.range n).foldl (fun log j => log ++ [i * m + j]) log =
        log ++ (List.range n).map (fun j => i * m + j) := by
    intro i log
    induction n generalizing log with
    | zero => simp
    | succ n ih => rw [List.range_succ, List.foldl_append, ih]; simp
  have outer : ∀ (c : Nat) (log : List Nat),
      (List.range c).foldl
        (fun log i => (List.range n).foldl (fun log j => log ++ [i * m + j]) log) log =
        log ++ (List.range c).flatMap (fun i => (List.range n).map (fun j => i * m + j)) := by
    intro c log
    induction c generalizing log with
    | zero => simp
    | succ c ih =>
      rw [List.range_succ, List.foldl_append, ih]
      simp [inner]
  unfold CSCMatrix.ctor_data_reads
  rw [outer]
  simp only [List.nil_append, List.mem_flatMap, List.mem_map, List.mem_range]
  constructor
  · rintro ⟨i, hi, j, hj, rfl⟩
    exact ⟨i, hi, j, hj, rfl⟩
  · rintro ⟨i, hi, j, hj, rfl⟩
    exact ⟨i, hi, j, hj, rfl⟩

/-- The reads of the CSC dense-buffer constructor stay inside a buffer of `n_rows*n_cols`
scalars when the matrix is at least as tall as it is wide. -/
theorem CSCMatrix.ctor_data_reads_tall (n m k : Nat) (h : m ≤ n)
    (hk : k ∈ CSCMatrix.ctor_data_reads n m) : k < n * m := by
  obtain ⟨i, hi, j, hj, rfl⟩ := (CSCMatrix.csc_mem_ctor_data_reads n m k).mp hk
  obtain ⟨d, rfl⟩ := Nat.exists_eq_add_of_le h
  have h1 : i * m + m ≤ m * m := by
    have := Nat.mul_le_mul_right m (Nat.succ_le_of_lt hi)
    rw [Nat.succ_mul] at this
    exact this
  have h2 : d ≤ d * m := Nat.le_mul_of_pos_right d (by omega)
  rw [Nat.add_mul]
  omega

/-- One run of the body of the loop over `j`: the block at `data_offset` is read once, and
once more when it is kept. -/
theorem BSRMatrix.scan_block_reads_eq {α : Type} [LinearOrderedRing α] (zero_tol : α)
    (b_size : Nat) (data : List α) (s : Nat × List Nat) (j : Nat) :
    BSRMatrix.scan_block_reads zero_tol b_size data s j =
      (s.1 + b_size, s.2 ++ span s.1 (s.1 + b_size) ++
        (if blockKept zero_tol data b_size s.1 = true then span s.1 (s.1 + b_size) else [])) := by
  unfold BSRMatrix.scan_block_reads
  simp only [foldl_log]
  by_cases h : blockKept zero_tol data b_size s.1 = true
  · rw [if_pos ((test_nonempty_iff zero_tol data b_size s.1).mpr h), if_pos h]
  · rw [if_neg (fun h2 => h ((test_nonempty_iff zero_tol data b_size s.1).mp h2)), if_neg h,
      List.append_nil]

theorem mem_span (d b k : Nat) : k ∈ span d (d + b) ↔ d ≤ k ∧ k < d + b := by
  unfold span
  rw [List.mem_range'_1]
  omega

/-- After `t` blocks the offset is `t*b_size` and the subscripts read are those below it. -/
theorem BSRMatrix.reads_step {α : Type} [LinearOrderedRing α] (zero_tol : α)
    (b_size : Nat) (data : List α) (s : Nat × List Nat) (j t : Nat)
    (h : s.1 = t * b_size ∧ ∀ k, k ∈ s.2 ↔ k < t * b_size) :
    (BSRMatrix.scan_block_reads zero_tol b_size data s j).1 = (t + 1) * b_size ∧
      ∀ k, k ∈ (BSRMatrix.scan_block_reads zero_tol b_size data s j).2 ↔
        k < (t + 1) * b_size := by
  rw [BSRMatrix.scan_block_reads_eq]
  obtain ⟨h1, h2⟩ := h
  have e : (t + 1) * b_size = t * b_size + b_size := by rw [Nat.add_mul, Nat.one_mul]
  refine ⟨by simp only [h1, e], fun k => ?_⟩
  by_cases hk : blockKept zero_tol data b_size s.1 = true
  · rw [if_pos hk, List.mem_append, List.mem_append, h2, mem_span, h1, e]
    omega
  · rw [if_neg hk, List.append_nil, List.mem_append, h2, mem_span, h1, e]
    omega

theorem BSRMatrix.reads_line {α : Type} [LinearOrderedRing α] (zero_tol : α)
    (b_size : Nat) (data : List α) (L : Nat) (s : Nat × List Nat) (t : Nat)
    (h : s.1 = t * b_size ∧ ∀ k, k ∈ s.2 ↔ k < t * b_size) :
    ((List.range L).foldl (BSRMatrix.scan_block_reads zero_tol b_size data) s).1 =
        (t + L) * b_size ∧
      ∀ k, k ∈ ((List.range L).foldl (BSRMatrix.scan_block_reads zero_tol b_size data) s).2 ↔
        k < (t + L) * b_size := by
  induction L with
  | zero => exact h
  | succ L ih =>
    rw [List.range_succ, List.foldl_append]
    exact BSRMatrix.reads_step zero_tol b_size data _ L (t + L) ih

/-- The dense-buffer constructor reads exactly the subscripts below
`(n_rows/b_rows) * (n_cols/b_cols) * (b_rows*b_cols)`. -/
theorem BSRMatrix.bsr_mem_ctor_data_reads {α : Type} [LinearOrderedRing α] (zero_tol : α)
    (n m br bc : Nat) (D : List α) (k : Nat) :
    k ∈ BSRMatrix.ctor_data_reads zero_tol n m br bc D ↔
      k < (n / br) * (m / bc) * (br * bc) := by
  have key : ∀ N : Nat,
      ((List.range N).foldl
        (fun s _i => (List.range (m / bc)).foldl
          (BSRMatrix.scan_block_reads zero_tol (br * bc) D) s) ((0 : Nat), ([] : List Nat))).1 =
        (N * (m / bc)) * (br * bc) ∧
      ∀ k, k ∈ ((List.range N).foldl
        (fun s _i => (List.range (m / bc)).foldl
          (BSRMatrix.scan_block_reads zero_tol (br * bc) D) s)
            ((0 : Nat), ([] : List Nat))).2 ↔ k < (N * (m / bc)) * (br * bc) := by
    intro N
    induction N with
    | zero => simp
    | succ N ih =>
      rw [List.range_succ, List.foldl_append]
      have := BSRMatrix.reads_line zero_tol (br * bc) D (m / bc) _ (N * (m / bc)) ih
      rw [Nat.succ_mul]
      exact this
  exact (key (n / br)).2 k

theorem grid_size (n m br bc : Nat) (hr : n % br = 0) (hc : m % bc = 0) :
    (n / br) * (m / bc) * (br * bc) = n * m := by
  have e1 : n / br * br = n := Nat.div_mul_cancel (Nat.dvd_of_mod_eq_zero hr)
  have e2 : m / bc * bc = m := Nat.div_mul_cancel (Nat.dvd_of_mod_eq_zero hc)
  calc (n / br) * (m / bc) * (br * bc) = (n / br * br) * (m / bc * bc) := by ring
    _ = n * m := by rw [e1, e2]

theorem blockScalars_eq_slice {α : Type} [Zero α] (D : List α) (b_size d : Nat)
    (h : d + b_size ≤ D.length) : blockScalars D b_size d = slice D d (d + b_size) := by
  unfold blockScalars slice span
  apply List.ext_getElem
  · simp
    omega
  · intro i h1 h2
    simp only [List.length_map, List.length_range'] at h1
    simp only [List.getElem_map, List.getElem_range', Nat.one_mul, List.getElem_take,
      List.getElem_drop]
    unfold load
    rw [List.getD_eq_getElem?_getD, List.getElem?_eq_getElem (by omega)]
    rfl

theorem blockKept_eq_any {α : Type} [LinearOrderedRing α] (zero_tol : α) (D : List α)
    (b_size d : Nat) :
    blockKept zero_tol D b_size d =
      (blockScalars D b_size d).any (fun v => decide (|v| > zero_tol)) := by
  unfold blockKept blockScalars
  induction span d (d + b_size) with
  | nil => rfl
  | cons a l ih => simp only [List.any_cons, List.map_cons, ih]

/-- For a buffer of `N*L*b_size` scalars, the block at grid position `(I, J)` lies inside the
buffer. -/
theorem block_in_buffer (N L b_size I J : Nat) (hI : I < N) (hJ : J < L) :
    (I * L + J) * b_size + b_size ≤ N * L * b_size := by
  have h1 : I * L + J < N * L := mul_add_lt I N J L hI hJ
  have h2 : (I * L + J + 1) * b_size ≤ N * L * b_size := Nat.mul_le_mul_right b_size h1
  rw [Nat.add_mul, Nat.one_mul] at h2
  exact h2

theorem keptBlocksAt_eq_filter {α : Type} [LinearOrderedRing α] (zero_tol : α) (D : List α)
    (N L b_size I : Nat) (hD : D.length = N * L * b_size) (hI : I < N) :
    keptBlocksAt zero_tol D b_size L I =
      (List.range L).filter (fun J => blockIsKept zero_tol D L b_size I J) := by
  unfold keptBlocksAt
  apply List.filter_congr
  intro J hJ
  rw [blockKept_eq_any, blockScalars_eq_slice D b_size _
    (by rw [hD]; exact block_in_buffer N L b_size I J hI (List.mem_range.mp hJ))]
  rfl

/-! ## The distributed norm over the reals -/

/-- The sum of the `p`-th powers of the magnitudes of the entries. -/
theorem sum_abs_pow_nonneg (p : Nat) (v : List ℝ) : 0 ≤ (v.map (fun a => |a| ^ p)).sum := by
  apply List.sum_nonneg
  intro b hb
  obtain ⟨a, _, rfl⟩ := List.mem_map.mp hb
  positivity

/-- Over the reals `lpNorm<p>` is the `p`-th root of the sum of the `p`-th powers. -/
theorem Vector.lpNorm_real (p : Nat) (v : List ℝ) :
    Vector.lpNorm Real.rpow p v = (v.map (fun a => |a| ^ p)).sum ^ (1 / (p : ℝ)) := by
  unfold Vector.lpNorm
  simp only [Real.rpow_eq_pow, Real.rpow_natCast]

theorem Vector.lpNorm_nonneg (p : Nat) (v : List ℝ) : 0 ≤ Vector.lpNorm Real.rpow p v := by
  rw [Vector.lpNorm_real]
  exact Real.rpow_nonneg (sum_abs_pow_nonneg p v) _

/-- Undoing the root: the `p`-th power of the `p`-th root of `s >= 0`. -/
theorem rpow_root_pow (p : Nat) (hp : 1 ≤ p) (s : ℝ) (hs : 0 ≤ s) :
    (s ^ (1 / (p : ℝ))) ^ (p : ℝ) = s := by
  have hp0 : (p : ℝ) ≠ 0 := by
    have : (0 : ℝ) < p := by exact_mod_cast hp
    exact ne_of_gt this
  rw [← Real.rpow_mul hs, one_div, inv_mul_cancel₀ hp0, Real.rpow_one]

/-- The `p`-th root of the `p`-th power of `r >= 0`. -/
theorem rpow_pow_root (p : Nat) (hp : 1 ≤ p) (r : ℝ) (hr : 0 ≤ r) :
    (r ^ (p : ℝ)) ^ (1 / (p : ℝ)) = r := by
  have hp0 : (p : ℝ) ≠ 0 := by
    have : (0 : ℝ) < p := by exact_mod_cast hp
    exact ne_of_gt this
  rw [← Real.rpow_mul hr, one_div, mul_inv_cancel₀ hp0, Real.rpow_one]

/-- The `p`-th power of the local `lpNorm<p>`, as a natural power. -/
theorem Vector.lpNorm_pow (p : Nat) (hp : 1 ≤ p) (v : List ℝ) :
    Vector.lpNorm Real.rpow p v ^ p = (v.map (fun a => |a| ^ p)).sum := by
  rw [← Real.rpow_natCast, Vector.lpNorm_real]
  exact rpow_root_pow p hp _ (sum_abs_pow_nonneg p v)

/-- What a process contributes to the reduction: the sum of the `p`-th powers of the
magnitudes of its local entries. -/
theorem ParVector.norm_local_real (p : Nat) (hp : 1 ≤ p) (x : ParVector ℝ)
    (hx : x.«local».length = x.local_n) :
    ParVector.norm_local Real.rpow (Vector.lpNorm Real.rpow p) p x =
      (x.«local».map (fun a => |a| ^ p)).sum := by
  unfold ParVector.norm_local
  by_cases h : x.local_n ≠ 0
  · rw [if_pos h]
    show Real.rpow (Vector.lpNorm Real.rpow p x.«local») (p : ℝ) = _
    rw [Real.rpow_eq_pow, Real.rpow_natCast]
    exact Vector.lpNorm_pow p hp _
  · rw [if_neg h]
    have h0 : x.«local» = [] := by
      apply List.eq_nil_of_length_eq_zero
      rw [hx]
      exact not_not.mp h
    rw [h0]
    rfl

theorem sum_map_flatMap {ι β : Type} (f : β → ℝ) (g : ι → List β) (l : List ι) :
    ((l.flatMap g).map f).sum = (l.map (fun i => ((g i).map f).sum)).sum := by
  induction l with
  | nil => rfl
  | cons a l ih =>
    rw [List.flatMap_cons, List.map_append, List.sum_append, ih, List.map_cons, List.sum_cons]

theorem ParVector.allreduce_real (p : Nat) (hp : 1 ≤ p) (world : List (ParVector ℝ))
    (hw : ∀ x ∈ world, x.«local».length = x.local_n) :
    MPI_Allreduce_SUM (world.map (ParVector.norm_local Real.rpow (Vector.lpNorm Real.rpow p) p)) =
      ((world.flatMap (fun x => x.«local»)).map (fun a => |a| ^ p)).sum := by
  unfold MPI_Allreduce_SUM
  rw [sum_map_flatMap]
  congr 1
  apply List.map_congr_left
  intro x hx
  exact ParVector.norm_local_real p hp x (hw x hx)

/-- Two evaluations over the reals: the 1-norm of the three local vectors `[3, -4]`, `[]`,
`[1, 1, 1]` is 10, and the 2-norm of the local vectors `[3]` and `[-4]` is 5. -/
theorem ParVector.norm_examples :
    ParVector.norm Real.rpow (Vector.lpNorm Real.rpow 1) 1
      [⟨[3, -4], 5, 2⟩, ⟨[], 5, 0⟩, ⟨[1, 1, 1], 5, 3⟩] = 10 ∧
    ParVector.norm Real.rpow (Vector.lpNorm Real.rpow 2) 2
      [⟨[3], 2, 1⟩, ⟨[-4], 2, 1⟩] = 5 := by
  constructor
  · unfold ParVector.norm
    show Real.rpow _ _ = _
    rw [ParVector.allreduce_real 1 (le_refl 1) _ (by simp)]
    norm_num [Real.rpow_eq_pow]
  · unfold ParVector.norm
    show Real.rpow _ _ = _
    rw [ParVector.allreduce_real 2 (by decide) _ (by simp)]
    have h : ((([⟨[3], 2, 1⟩, ⟨[-4], 2, 1⟩] : List (ParVector ℝ)).flatMap
        (fun x => x.«local»)).map (fun a => |a| ^ 2)).sum = (5 : ℝ) ^ ((2 : Nat) : ℝ) := by
      norm_num
    rw [h, Real.rpow_eq_pow]
    exact rpow_pow_root 2 (by decide) 5 (by norm_num)

end lemmas

/-! # The claims -/

/-- C1: for a well-formed CSR matrix, `x` of length `n_cols` and `b` of length `n_rows`,
`mult(x, b)` leaves in `b[i]`, for every row `i`, the terms `vals[k] * x[idx2[k]]` of the
slice `[idx1[i], idx1[i+1])` accumulated in storage order starting from `0`; the result does
not mention the old contents of `b`.  No law of arithmetic is used, so the statement covers
the storage-order accumulation itself. -/
theorem CSRMatrix.csr_mult_helper_spec {α : Type} [Zero α] [Add α] [Sub α] [Mul α]
    (A : CSRMatrix α) (x b : List α) (hA : CSRMatrix.WF A) (hx : x.length = A.n_cols)
    (hb : b.length = A.n_rows) :
    (CSRMatrix.mult_helper A x b).length = A.n_rows ∧
    ∀ i < A.n_rows, load (CSRMatrix.mult_helper A x b) i =
      (span (load A.idx1 i) (load A.idx1 (i + 1))).foldl
        (fun acc k => acc + load A.vals k * load x (load A.idx2 k)) 0 := by
  have _ := hA
  have _ := hx
  unfold CSRMatrix.mult_helper
  rw [CSRMatrix.csr_mult_append_helper_eq]
  refine ⟨by rw [length_accum, length_zero_fill, hb], fun i hi => ?_⟩
  rw [load_accum _ _ _ _ (by rw [length_zero_fill, hb]; exact hi),
    CSRMatrix.csr_termsAt_rowUpdates A x i hi, load_zero_fill _ _ _ hi, List.foldl_map]

theorem CSRMatrix.csr_mult_helper_spec_witness :
    CSRMatrix.WF exCSR ∧
      ((CSRMatrix.mult_helper exCSR [1, 1, 1] [7, 7]).length = exCSR.n_rows ∧
      ∀ i < exCSR.n_rows, load (CSRMatrix.mult_helper exCSR [1, 1, 1] [7, 7]) i =
        (span (load exCSR.idx1 i) (load exCSR.idx1 (i + 1))).foldl
          (fun acc k => acc + load exCSR.vals k * load [1, 1, 1] (load exCSR.idx2 k)) 0) :=
  ⟨by decide, CSRMatrix.csr_mult_helper_spec exCSR [1, 1, 1] [7, 7] (by decide) rfl rfl⟩

/-- C2: for a well-formed CSC matrix, `x` of length `n_cols` and `b` of length `n_rows`,
`mult(x, b)` leaves, in exact arithmetic, `b[r] = sum over columns c of D[r][c] * x[c]`, where
`D[r][c]` (`CSCMatrix.dense`) is the sum of `vals[k]` over the positions `k` of column `c`'s
slice with `idx2[k] = r`; the result is the same for every initial `b` of that length. -/
theorem CSCMatrix.csc_mult_helper_spec {α : Type} [CommRing α] (A : CSCMatrix α) (x b : List α)
    (hA : CSCMatrix.WF A) (_hx : x.length = A.n_cols) (hb : b.length = A.n_rows) :
    (CSCMatrix.mult_helper A x b).length = A.n_rows ∧
    (∀ r < A.n_rows, load (CSCMatrix.mult_helper A x b) r =
      ∑ c in Finset.range A.n_cols, CSCMatrix.dense A r c * load x c) ∧
    ∀ b' : List α, b'.length = A.n_rows →
      CSCMatrix.mult_helper A x b' = CSCMatrix.mult_helper A x b := by
  have len : ∀ v : List α, (CSCMatrix.mult_helper A x v).length = v.length :=
    fun v => Matrix.length_mult (.csc A) x v
  have val : ∀ v : List α, v.length = A.n_rows → ∀ r < A.n_rows,
      load (CSCMatrix.mult_helper A x v) r =
        ∑ c in Finset.range A.n_cols, CSCMatrix.dense A r c * load x c :=
    fun v hv r hr => Matrix.load_mult (.csc A) x v hA hv r hr
  refine ⟨by rw [len, hb], val b hb, fun b' hb' => ?_⟩
  apply vec_ext _ _ (by rw [len, len, hb, hb'])
  intro i hi
  rw [len, hb'] at hi
  rw [val b' hb' i hi, val b hb i hi]

theorem CSCMatrix.csc_mult_helper_spec_witness :
    CSCMatrix.WF exCSC ∧
      ((CSCMatrix.mult_helper exCSC [1, 1, 1] [7, 7]).length = exCSC.n_rows ∧
      (∀ r < exCSC.n_rows, load (CSCMatrix.mult_helper exCSC [1, 1, 1] [7, 7]) r =
        ∑ c in Finset.range exCSC.n_cols, CSCMatrix.dense exCSC r c * load [1, 1, 1] c) ∧
      ∀ b' : List ℤ, b'.length = exCSC.n_rows →
        CSCMatrix.mult_helper exCSC [1, 1, 1] b' = CSCMatrix.mult_helper exCSC [1, 1, 1] [7, 7]) :=
  ⟨by decide, CSCMatrix.csc_mult_helper_spec exCSC [1, 1, 1] [7, 7] (by decide) rfl rfl⟩

/-- C3: for a COO matrix whose `nnz` triplets have row `< n_rows` and column `< n_cols`, and
`x` of length `n_cols`, `mult(x, b)` leaves, in exact arithmetic,
`b[r] = sum over c of D[r][c] * x[c]`, where `D[r][c]` (`COOMatrix.dense`) is the sum of the
values of all stored triplets with key `(r, c)`.  Hence the result is unchanged when the
triplets are permuted, and when two triplets that share a key and carry `a` and `a'` are
replaced by one triplet of that key carrying `a + a'`. -/
theorem COOMatrix.coo_mult_helper_spec {α : Type} [CommRing α] (A : COOMatrix α) (x b : List α)
    (hA : COOMatrix.WF A) (_hx : x.length = A.n_cols) (hb : b.length = A.n_rows) :
    (∀ r < A.n_rows, load (COOMatrix.mult_helper A x b) r =
      ∑ c in Finset.range A.n_cols, COOMatrix.dense A r c * load x c) ∧
    ∀ A' : COOMatrix α, COOMatrix.WF A' → A'.n_rows = A.n_rows → A'.n_cols = A.n_cols →
      ((COOMatrix.triplets A').Perm (COOMatrix.triplets A) ∨
        COOMatrix.Merged (COOMatrix.triplets A) (COOMatrix.triplets A')) →
      COOMatrix.mult_helper A' x b = COOMatrix.mult_helper A x b := by
  refine ⟨fun r hr => Matrix.load_mult (.coo A) x b hA hb r hr, ?_⟩
  intro A' hA' hr hc h
  apply COOMatrix.mult_helper_congr A A' x b hA hA' hr hc hb
  intro r c
  rcases h with h | h
  · exact COOMatrix.dense_perm A A' hA hA' h r c
  · exact COOMatrix.dense_merged A A' hA hA' h r c

theorem COOMatrix.coo_mult_helper_spec_witness :
    COOMatrix.WF exCOO ∧
      ((∀ r < exCOO.n_rows, load (COOMatrix.mult_helper exCOO [1, 1, 1] [7, 7]) r =
        ∑ c in Finset.range exCOO.n_cols, COOMatrix.dense exCOO r c * load [1, 1, 1] c) ∧
      ∀ A' : COOMatrix ℤ, COOMatrix.WF A' → A'.n_rows = exCOO.n_rows →
        A'.n_cols = exCOO.n_cols →
        ((COOMatrix.triplets A').Perm (COOMatrix.triplets exCOO) ∨
          COOMatrix.Merged (COOMatrix.triplets exCOO) (COOMatrix.triplets A')) →
        COOMatrix.mult_helper A' [1, 1, 1] [7, 7] =
          COOMatrix.mult_helper exCOO [1, 1, 1] [7, 7]) :=
  ⟨by decide, COOMatrix.coo_mult_helper_spec exCOO [1, 1, 1] [7, 7] (by decide) rfl rfl⟩

/-- C4: for a well-formed BSR matrix, `x` of length `n_cols` and `b` of length `n_rows`,
`mult(x, b)` leaves in `b[I*b_rows + i]`, for every block row `I` and every `i < b_rows`, the
terms `vals[k*b_size + i*b_cols + j] * x[idx2[k]*b_cols + j]` over the blocks `k` of
`[idx1[I], idx1[I+1])` and over `j < b_cols`, accumulated in that order starting from `0`,
whatever `b` held before: the `k`-th stored block is read row-major and placed at the global
rows `I*b_rows..` and the global columns `idx2[k]*b_cols..`.  No law of arithmetic is used. -/
theorem BSRMatrix.bsr_mult_helper_spec {α : Type} [Zero α] [Add α] [Sub α] [Mul α]
    (A : BSRMatrix α) (x b : List α) (hA : BSRMatrix.WF A) (_hx : x.length = A.n_cols)
    (hb : b.length = A.n_rows) :
    (BSRMatrix.mult_helper A x b).length = A.n_rows ∧
    ∀ I < A.n_rows / A.b_rows, ∀ i < A.b_rows,
      load (BSRMatrix.mult_helper A x b) (I * A.b_rows + i) =
        (span (load A.idx1 I) (load A.idx1 (I + 1))).foldl
          (fun acc k =>
            (List.range A.b_cols).foldl
              (fun acc j => acc + load A.vals (k * A.b_size + i * A.b_cols + j) *
                load x (load A.idx2 k * A.b_cols + j)) acc) 0 := by
  unfold BSRMatrix.mult_helper
  rw [BSRMatrix.bsr_mult_append_helper_eq]
  refine ⟨by rw [length_accum, length_zero_fill, hb], fun I hI i hi => ?_⟩
  have hr : I * A.b_rows + i < A.n_rows := by
    have h1 : (I + 1) * A.b_rows ≤ A.n_rows / A.b_rows * A.b_rows :=
      Nat.mul_le_mul_right _ hI
    rw [← BSRMatrix.n_rows_eq A hA, Nat.succ_mul] at h1
    omega
  rw [load_accum _ _ _ _ (by rw [length_zero_fill, hb]; exact hr),
    BSRMatrix.bsr_termsAt_rowUpdates A x I i hI hi, load_zero_fill _ _ _ hr, foldl_flatMap]
  have e : ∀ k j, k * A.b_size + i * A.b_cols + j = i * A.b_cols + j + k * A.b_size := by
    intro k j; omega
  simp only [List.foldl_map, e]

theorem BSRMatrix.bsr_mult_helper_spec_witness :
    BSRMatrix.WF exBSR ∧
      ((BSRMatrix.mult_helper exBSR [1, 1, 1, 1] [7, 7]).length = exBSR.n_rows ∧
      ∀ I < exBSR.n_rows / exBSR.b_rows, ∀ i < exBSR.b_rows,
        load (BSRMatrix.mult_helper exBSR [1, 1, 1, 1] [7, 7]) (I * exBSR.b_rows + i) =
          (span (load exBSR.idx1 I) (load exBSR.idx1 (I + 1))).foldl
            (fun acc k =>
              (List.range exBSR.b_cols).foldl
                (fun acc j => acc + load exBSR.vals (k * exBSR.b_size + i * exBSR.b_cols + j) *
                  load [1, 1, 1, 1] (load exBSR.idx2 k * exBSR.b_cols + j)) acc) 0) :=
  ⟨by decide, BSRMatrix.bsr_mult_helper_spec exBSR [1, 1, 1, 1] [7, 7] (by decide) rfl rfl⟩

/-- C5: for a well-formed matrix `M` of any of the four formats, `x` of length `n_rows` and
`b` of length `n_cols`, `mult_T(x, b)` leaves, in exact arithmetic,
`b[c] = sum over r of D[r][c] * x[r]` for every `c < n_cols`, where `D` (`AnyMatrix.dense`) is
the dense matrix the storage of `M` denotes; the result is the same for every initial `b`; and
it is what `mult` produces for any well-formed matrix that denotes the transpose of `D`. -/
theorem Matrix.mult_T_spec {α : Type} [CommRing α] (M : AnyMatrix α) (x b : List α)
    (hM : AnyMatrix.WF M) (_hx : x.length = (AnyMatrix.base M).n_rows)
    (hb : b.length = (AnyMatrix.base M).n_cols) :
    (∀ c < (AnyMatrix.base M).n_cols, load (Matrix.mult_T M x b) c =
      ∑ r in Finset.range (AnyMatrix.base M).n_rows, AnyMatrix.dense M r c * load x r) ∧
    (∀ b' : List α, b'.length = (AnyMatrix.base M).n_cols →
      Matrix.mult_T M x b' = Matrix.mult_T M x b) ∧
    ∀ N : AnyMatrix α, AnyMatrix.WF N →
      (AnyMatrix.base N).n_rows = (AnyMatrix.base M).n_cols →
      (AnyMatrix.base N).n_cols = (AnyMatrix.base M).n_rows →
      (∀ r c, AnyMatrix.dense N c r = AnyMatrix.dense M r c) →
      Matrix.mult N x b = Matrix.mult_T M x b := by
  refine ⟨fun c hc => Matrix.load_mult_T M x b hM hb c hc, fun b' hb' => ?_,
    fun N hN hr hc h => Matrix.mult_transposed M N x b hM hN hr hc hb h⟩
  apply vec_ext _ _ (by rw [Matrix.length_mult_T, Matrix.length_mult_T, hb, hb'])
  intro i hi
  rw [Matrix.length_mult_T, hb'] at hi
  rw [Matrix.load_mult_T M x b' hM hb' i hi, Matrix.load_mult_T M x b hM hb i hi]

theorem Matrix.mult_T_spec_witness :
    AnyMatrix.WF (AnyMatrix.bsr exBSR) ∧
      ((∀ c < (AnyMatrix.base (AnyMatrix.bsr exBSR)).n_cols,
        load (Matrix.mult_T (AnyMatrix.bsr exBSR) [1, 1] [7, 7, 7, 7]) c =
          ∑ r in Finset.range (AnyMatrix.base (AnyMatrix.bsr exBSR)).n_rows,
            AnyMatrix.dense (AnyMatrix.bsr exBSR) r c * load [1, 1] r) ∧
      (∀ b' : List ℤ, b'.length = (AnyMatrix.base (AnyMatrix.bsr exBSR)).n_cols →
        Matrix.mult_T (AnyMatrix.bsr exBSR) [1, 1] b' =
          Matrix.mult_T (AnyMatrix.bsr exBSR) [1, 1] [7, 7, 7, 7]) ∧
      ∀ N : AnyMatrix ℤ, AnyMatrix.WF N →
        (AnyMatrix.base N).n_rows = (AnyMatrix.base (AnyMatrix.bsr exBSR)).n_cols →
        (AnyMatrix.base N).n_cols = (AnyMatrix.base (AnyMatrix.bsr exBSR)).n_rows →
        (∀ r c, AnyMatrix.dense N c r = AnyMatrix.dense (AnyMatrix.bsr exBSR) r c) →
        Matrix.mult N [1, 1] [7, 7, 7, 7] =
          Matrix.mult_T (AnyMatrix.bsr exBSR) [1, 1] [7, 7, 7, 7]) :=
  ⟨by decide, Matrix.mult_T_spec (AnyMatrix.bsr exBSR) [1, 1] [7, 7, 7, 7] (by decide) rfl rfl⟩

/-- C6: for a well-formed matrix of any of the four formats, `x` of length `n_cols` and `b`,
`r` of length `n_rows`, `residual(x, b, r)` leaves `r[i] = b[i] - y[i]` for every
`i < n_rows`, where `y` is what a separate `mult(x, y)` produces (exact arithmetic); and
`residual` subtracts from `b[i]` the very terms that `mult` adds to `0`, in the same storage
order (`termsAt (rowUpdates M x) i`). -/
theorem Matrix.residual_spec {α : Type} [CommRing α] (M : AnyMatrix α) (x b r y : List α)
    (_hM : AnyMatrix.WF M) (_hx : x.length = (AnyMatrix.base M).n_cols)
    (_hb : b.length = (AnyMatrix.base M).n_rows) (hr : r.length = (AnyMatrix.base M).n_rows)
    (hy : y.length = (AnyMatrix.base M).n_rows) :
    (Matrix.residual M x b r).length = (AnyMatrix.base M).n_rows ∧
    ∀ i < (AnyMatrix.base M).n_rows,
      load (Matrix.residual M x b r) i = load b i - load (Matrix.mult M x y) i ∧
      load (Matrix.residual M x b r) i =
        (termsAt (AnyMatrix.rowUpdates M x) i).foldl (· - ·) (load b i) ∧
      load (Matrix.mult M x y) i = (termsAt (AnyMatrix.rowUpdates M x) i).foldl (· + ·) 0 := by
  refine ⟨by rw [Matrix.length_residual, hr], fun i hi => ?_⟩
  have h1 : load (Matrix.residual M x b r) i =
      (termsAt (AnyMatrix.rowUpdates M x) i).foldl (· - ·) (load b i) := by
    rw [Matrix.residual_eq, load_accum _ _ _ _ (by rw [length_copy_fill, hr]; exact hi),
      load_copy_fill _ _ _ _ hi (by rw [hr]; exact hi)]
  have h2 : load (Matrix.mult M x y) i =
      (termsAt (AnyMatrix.rowUpdates M x) i).foldl (· + ·) 0 := by
    rw [Matrix.mult_eq, load_accum _ _ _ _ (by rw [length_zero_fill, hy]; exact hi),
      load_zero_fill _ _ _ hi]
  refine ⟨?_, h1, h2⟩
  rw [h1, h2, foldl_sub_eq, foldl_add_eq, zero_add]

theorem Matrix.residual_spec_witness :
    AnyMatrix.WF (AnyMatrix.coo exCOO) ∧
      ((Matrix.residual (AnyMatrix.coo exCOO) [1, 1, 1] [7, 7] [0, 0]).length =
        (AnyMatrix.base (AnyMatrix.coo exCOO)).n_rows ∧
      ∀ i < (AnyMatrix.base (AnyMatrix.coo exCOO)).n_rows,
        load (Matrix.residual (AnyMatrix.coo exCOO) [1, 1, 1] [7, 7] [0, 0]) i =
          load [7, 7] i - load (Matrix.mult (AnyMatrix.coo exCOO) [1, 1, 1] [9, 9]) i ∧
        load (Matrix.residual (AnyMatrix.coo exCOO) [1, 1, 1] [7, 7] [0, 0]) i =
          (termsAt (AnyMatrix.rowUpdates (AnyMatrix.coo exCOO) [1, 1, 1]) i).foldl (· - ·)
            (load [7, 7] i) ∧
        load (Matrix.mult (AnyMatrix.coo exCOO) [1, 1, 1] [9, 9]) i =
          (termsAt (AnyMatrix.rowUpdates (AnyMatrix.coo exCOO) [1, 1, 1]) i).foldl (· + ·) 0) :=
  ⟨by decide,
    Matrix.residual_spec (AnyMatrix.coo exCOO) [1, 1, 1] [7, 7] [0, 0] [9, 9] (by decide)
      rfl rfl rfl rfl⟩

/-- C7: for a well-formed matrix of any of the four formats, `x` of length `n_cols` and `b`
of length `n_rows`, `mult_append(x, b)` adds the product into `b`: afterwards
`b[i] = b_old[i] + y[i]` for every `i < n_rows`, where `y` is the result of `mult(x, y)`
(exact arithmetic); and `mult(x, b)` equals `mult_append(x, .)` run on the all-zero vector. -/
theorem Matrix.mult_append_spec {α : Type} [CommRing α] (M : AnyMatrix α) (x b y : List α)
    (_hM : AnyMatrix.WF M) (_hx : x.length = (AnyMatrix.base M).n_cols)
    (hb : b.length = (AnyMatrix.base M).n_rows) (hy : y.length = (AnyMatrix.base M).n_rows) :
    (Matrix.mult_append M x b).length = (AnyMatrix.base M).n_rows ∧
    (∀ i < (AnyMatrix.base M).n_rows,
      load (Matrix.mult_append M x b) i = load b i + load (Matrix.mult M x y) i) ∧
    Matrix.mult M x b =
      Matrix.mult_append M x (List.replicate (AnyMatrix.base M).n_rows 0) := by
  refine ⟨by rw [Matrix.mult_append_eq, length_accum, hb], fun i hi => ?_, ?_⟩
  · rw [Matrix.mult_append_eq, load_accum_add _ _ _ (by rw [hb]; exact hi), Matrix.mult_eq,
      load_accum_add _ _ _ (by rw [length_zero_fill, hy]; exact hi), load_zero_fill _ _ _ hi,
      zero_add]
  · rw [Matrix.mult_eq, Matrix.mult_append_eq, zero_fill_eq_replicate _ _ hb]

theorem Matrix.mult_append_spec_witness :
    AnyMatrix.WF (AnyMatrix.csc exCSC) ∧
      ((Matrix.mult_append (AnyMatrix.csc exCSC) [1, 1, 1] [7, 7]).length =
        (AnyMatrix.base (AnyMatrix.csc exCSC)).n_rows ∧
      (∀ i < (AnyMatrix.base (AnyMatrix.csc exCSC)).n_rows,
        load (Matrix.mult_append (AnyMatrix.csc exCSC) [1, 1, 1] [7, 7]) i =
          load [7, 7] i + load (Matrix.mult (AnyMatrix.csc exCSC) [1, 1, 1] [9, 9]) i) ∧
      Matrix.mult (AnyMatrix.csc exCSC) [1, 1, 1] [7, 7] =
        Matrix.mult_append (AnyMatrix.csc exCSC) [1, 1, 1]
          (List.replicate (AnyMatrix.base (AnyMatrix.csc exCSC)).n_rows 0)) :=
  ⟨by decide,
    Matrix.mult_append_spec (AnyMatrix.csc exCSC) [1, 1, 1] [7, 7] [9, 9] (by decide)
      rfl rfl rfl⟩

/-- C8: for a well-formed matrix of any of the four formats and vectors of matching lengths,
`mult_append_neg` subtracts exactly what `mult_append` adds: in exact arithmetic each changes
`b[i]` by the same amount with opposite sign, running `mult_append(x, b)` and then
`mult_append_neg(x, b)` restores `b`, and likewise `mult_append_T` followed by
`mult_append_neg_T`. -/
theorem Matrix.mult_append_neg_spec {α : Type} [CommRing α] (M : AnyMatrix α)
    (x b x' b' : List α) (_hM : AnyMatrix.WF M) (_hx : x.length = (AnyMatrix.base M).n_cols)
    (hb : b.length = (AnyMatrix.base M).n_rows)
    (_hx' : x'.length = (AnyMatrix.base M).n_rows)
    (hb' : b'.length = (AnyMatrix.base M).n_cols) :
    (∀ i < (AnyMatrix.base M).n_rows,
      load b i - load (Matrix.mult_append_neg M x b) i =
        load (Matrix.mult_append M x b) i - load b i) ∧
    (∀ i < (AnyMatrix.base M).n_cols,
      load b' i - load (Matrix.mult_append_neg_T M x' b') i =
        load (Matrix.mult_append_T M x' b') i - load b' i) ∧
    Matrix.mult_append_neg M x (Matrix.mult_append M x b) = b ∧
    Matrix.mult_append_neg_T M x' (Matrix.mult_append_T M x' b') = b' := by
  refine ⟨fun i hi => ?_, fun i hi => ?_, ?_, ?_⟩
  · rw [Matrix.mult_append_neg_eq, Matrix.mult_append_eq,
      load_accum_sub _ _ _ (by rw [hb]; exact hi), load_accum_add _ _ _ (by rw [hb]; exact hi)]
    abel
  · rw [Matrix.mult_append_neg_T_eq, Matrix.mult_append_T_eq,
      load_accum_sub _ _ _ (by rw [hb']; exact hi),
      load_accum_add _ _ _ (by rw [hb']; exact hi)]
    abel
  · rw [Matrix.mult_append_neg_eq, Matrix.mult_append_eq, accum_sub_accum_add]
  · rw [Matrix.mult_append_neg_T_eq, Matrix.mult_append_T_eq, accum_sub_accum_add]

theorem Matrix.mult_append_neg_spec_witness :
    AnyMatrix.WF (AnyMatrix.csr exCSR) ∧
      ((∀ i < (AnyMatrix.base (AnyMatrix.csr exCSR)).n_rows,
        load [7, 7] i - load (Matrix.mult_append_neg (AnyMatrix.csr exCSR) [1, 1, 1] [7, 7]) i =
          load (Matrix.mult_append (AnyMatrix.csr exCSR) [1, 1, 1] [7, 7]) i - load [7, 7] i) ∧
      (∀ i < (AnyMatrix.base (AnyMatrix.csr exCSR)).n_cols,
        load [5, 5, 5] i -
            load (Matrix.mult_append_neg_T (AnyMatrix.csr exCSR) [1, 2] [5, 5, 5]) i =
          load (Matrix.mult_append_T (AnyMatrix.csr exCSR) [1, 2] [5, 5, 5]) i -
            load [5, 5, 5] i) ∧
      Matrix.mult_append_neg (AnyMatrix.csr exCSR) [1, 1, 1]
        (Matrix.mult_append (AnyMatrix.csr exCSR) [1, 1, 1] [7, 7]) = [7, 7] ∧
      Matrix.mult_append_neg_T (AnyMatrix.csr exCSR) [1, 2]
        (Matrix.mult_append_T (AnyMatrix.csr exCSR) [1, 2] [5, 5, 5]) = [5, 5, 5]) :=
  ⟨by decide,
    Matrix.mult_append_neg_spec (AnyMatrix.csr exCSR) [1, 1, 1] [7, 7] [1, 2] [5, 5, 5]
      (by decide) rfl rfl rfl rfl⟩

/-- C9: on a COO, CSC or BSR matrix, for every operand, `spgemm(B)` and `spgemm_T(A)` return
`NULL` and leave the receiver unchanged; and on a matrix of any class the matrix-operand
overloads `mult(const CSRMatrix*)` and `mult_T(const CSCMatrix*)` return exactly what `spgemm`
and `spgemm_T` return, so they too return `NULL` for these three formats. -/
theorem Matrix.spgemm_unsupported {α : Type} (P : CSRProducts α) (B : CSRMatrix α)
    (A : CSCMatrix α) :
    (∀ M : AnyMatrix α, Matrix.mult_matrix P M B = Matrix.spgemm P M B ∧
      Matrix.mult_T_matrix P M A = Matrix.spgemm_T P M A) ∧
    (∀ M : COOMatrix α, COOMatrix.spgemm M B = (M, none) ∧ COOMatrix.spgemm_T M A = (M, none) ∧
      Matrix.mult_matrix P (.coo M) B = (.coo M, none) ∧
      Matrix.mult_T_matrix P (.coo M) A = (.coo M, none)) ∧
    (∀ M : CSCMatrix α, CSCMatrix.spgemm M B = (M, none) ∧ CSCMatrix.spgemm_T M A = (M, none) ∧
      Matrix.mult_matrix P (.csc M) B = (.csc M, none) ∧
      Matrix.mult_T_matrix P (.csc M) A = (.csc M, none)) ∧
    (∀ M : BSRMatrix α, BSRMatrix.spgemm M B = (M, none) ∧ BSRMatrix.spgemm_T M A = (M, none) ∧
      Matrix.mult_matrix P (.bsr M) B = (.bsr M, none) ∧
      Matrix.mult_T_matrix P (.bsr M) A = (.bsr M, none)) :=
  ⟨fun _ => ⟨rfl, rfl⟩, fun _ => ⟨rfl, rfl, rfl, rfl⟩, fun _ => ⟨rfl, rfl, rfl, rfl⟩,
    fun _ => ⟨rfl, rfl, rfl, rfl⟩⟩

/-- C10 (the code departs from the claim): the index-array constructor called with dimensions
`2 x 2`, blocks `1 x 1`, `rowptr = [0, 0, 0]` and empty `cols` and `data`.  Both remainders
are zero, the `exit(-1)` guard is passed, and `b_size = nnz/n_blocks` divides by
`cols.size() = 0`: no object is constructed, although the claim promises success. -/
theorem BSRMatrix.ctor_arrays_no_blocks :
    2 % 1 = 0 ∧
    (BSRMatrix.ctor_arrays 2 2 1 1 [0, 0, 0] [] ([] : List ℤ)) = .error .division_by_zero ∧
    ¬ ∃ A : BSRMatrix ℤ, BSRMatrix.ctor_arrays 2 2 1 1 [0, 0, 0] [] ([] : List ℤ) = .ok A := by
  refine ⟨rfl, rfl, ?_⟩
  rintro ⟨A, hA⟩
  exact absurd hA (by simp [BSRMatrix.ctor_arrays])

/-- C13 (the code departs from the claim): the CSR and the CSC dense-buffer constructors run
on the row-major buffer `[1, 2, 3, 4]` of the 2 x 2 matrix with rows `1 2` and `3 4`.  The
CSC constructor reads `_data[i*n_cols + j]` for column `i` and row `j`, so column 0 receives
the values `1, 2` of row 0 instead of `1, 3`, and `mult` with `x = [1, 0]` gives `[1, 2]` on
the CSC matrix but `[1, 3]` on the CSR matrix. -/
theorem CSCMatrix.ctor_data_transposes :
    (CSRMatrix.ctor_data (0 : ℤ) 2 2 exDenseFull).vals = [1, 2, 3, 4] ∧
    (CSRMatrix.ctor_data (0 : ℤ) 2 2 exDenseFull).idx2 = [0, 1, 0, 1] ∧
    slice (CSCMatrix.ctor_data (0 : ℤ) 2 2 exDenseFull).vals
      (load (CSCMatrix.ctor_data (0 : ℤ) 2 2 exDenseFull).idx1 0)
      (load (CSCMatrix.ctor_data (0 : ℤ) 2 2 exDenseFull).idx1 1) = [1, 2] ∧
    [load exDenseFull (0 * 2 + 0), load exDenseFull (1 * 2 + 0)] = [1, 3] ∧
    CSRMatrix.mult_helper (CSRMatrix.ctor_data (0 : ℤ) 2 2 exDenseFull) [1, 0] [0, 0] = [1, 3] ∧
    CSCMatrix.mult_helper (CSCMatrix.ctor_data (0 : ℤ) 2 2 exDenseFull) [1, 0] [0, 0] = [1, 2] ∧
    CSCMatrix.mult_helper (CSCMatrix.ctor_data (0 : ℤ) 2 2 exDenseFull) [1, 0] [0, 0] ≠
      CSRMatrix.mult_helper (CSRMatrix.ctor_data (0 : ℤ) 2 2 exDenseFull) [1, 0] [0, 0] := by
  decide

/-- C14 (the code departs from the claim): the COO triplet constructor called with the
one-element sequences `rows = [0]`, `cols = [0]`, `values = [1]`.  Its first statement
`nnz = idx1.size()` reads the still empty member `idx1`, so `nnz` is `0`, the three vectors
are resized to length `0`, and `std::copy` writes past their end: no matrix with `nnz = 1`
results. -/
theorem COOMatrix.ctor_arrays_one_triplet :
    COOMatrix.ctor_arrays 1 1 [0] [0] ([1] : List ℤ) = .error .buffer_overflow ∧
    (Matrix.ctor 1 1 : Matrix ℤ).idx1.length = 0 ∧
    ¬ ∃ A : COOMatrix ℤ, COOMatrix.ctor_arrays 1 1 [0] [0] ([1] : List ℤ) = .ok A ∧
      A.nnz = 1 := by
  refine ⟨rfl, rfl, ?_⟩
  rintro ⟨A, hA, _⟩
  have := (COOMatrix.ctor_arrays_ok 1 1 [0] [0] ([1] : List ℤ) A hA).1
  exact absurd this (by decide)

/-- C15 (the code departs from the claim): the CSC reservation constructor called as
`CSCMatrix(2, 2, 3)` ends with `nnz = _nnz`, so the object has `nnz = 3` while `vals` is
empty. -/
theorem CSCMatrix.ctor_nnz_hint :
    (CSCMatrix.ctor 2 2 3 : CSCMatrix ℤ).nnz = 3 ∧
    (CSCMatrix.ctor 2 2 3 : CSCMatrix ℤ).vals.length = 0 ∧
    (CSCMatrix.ctor 2 2 3 : CSCMatrix ℤ).nnz ≠ (CSCMatrix.ctor 2 2 3 : CSCMatrix ℤ).vals.length ∧
    (CSRMatrix.ctor 2 2 3 : CSRMatrix ℤ).nnz = (CSRMatrix.ctor 2 2 3 : CSRMatrix ℤ).vals.length := by
  decide

/-- C16, as stated, fails: the reservation constructor `BSRMatrix(2, 2, 1, 1)` passes the
divisibility check and sets `n_blocks` to the dense block count `4` while `idx2` is empty. -/
theorem BSRMatrix.ctor_n_blocks_counterexample :
    ∃ A : BSRMatrix ℤ, BSRMatrix.ctor 2 2 1 1 0 0 = .ok A ∧ A.n_blocks = 4 ∧
      A.idx2.length = 0 ∧ A.n_blocks ≠ A.idx2.length :=
  ⟨_, rfl, rfl, rfl, by decide⟩

/-- C16, amended: for positive block dimensions that divide the matrix dimensions, the
dense-buffer constructor yields an object with `n_blocks == idx2.size()`, and so does the
index-array constructor whenever it yields an object; the reservation constructor yields an
object whose `idx2` is empty and whose `n_blocks` is the hint `_nblocks` when that is non-zero
and `(n_rows/b_rows * n_cols)/b_cols` otherwise. -/
theorem BSRMatrix.ctor_n_blocks {α : Type} [LinearOrderedRing α] (zero_tol : α)
    (n m br bc nblocks nnz : Nat) (D : List α) (rowptr cols : List Nat) (data : List α)
    (hbr : 0 < br) (hbc : 0 < bc) (hr : n % br = 0) (hc : m % bc = 0) :
    (∃ A : BSRMatrix α, BSRMatrix.ctor_data zero_tol n m br bc D = .ok A ∧
      A.n_blocks = A.idx2.length) ∧
    (∀ A : BSRMatrix α, BSRMatrix.ctor_arrays n m br bc rowptr cols data = .ok A →
      A.n_blocks = A.idx2.length) ∧
    ∃ A : BSRMatrix α, BSRMatrix.ctor n m br bc nblocks nnz = .ok A ∧ A.idx2 = [] ∧
      A.n_blocks = if nblocks ≠ 0 then nblocks else n / br * m / bc := by
  refine ⟨?_, fun A h => ?_, ?_⟩
  · obtain ⟨A, hA, _, _, _, _, _, hnb, _, hidx2, _, _, _⟩ :=
      BSRMatrix.bsr_ctor_data_spec zero_tol n m br bc D ⟨hr, hc⟩
    exact ⟨A, hA, by rw [hnb, hidx2]; rfl⟩
  · obtain ⟨h1, h2, _⟩ := BSRMatrix.bsr_ctor_arrays_ok n m br bc rowptr cols data A h
    rw [h1, h2]
  · unfold BSRMatrix.ctor
    have hd : ¬ (n % br ≠ 0 ∨ m % bc ≠ 0) := by
      rintro (h | h)
      · exact h hr
      · exact h hc
    rw [if_neg hd]
    refine ⟨_, rfl, rfl, ?_⟩
    have h1 : br ≠ 0 := by omega
    have h2 : bc ≠ 0 := by omega
    simp [h1, h2]

/-- C19, as stated, fails: `zero_tol = -1` is below `1`, and with it the constructors retain
the zeros of the 2 x 2 identity too, so `nnz` is `4`, not `2`. -/
theorem identity_nnz_counterexample :
    (-1 : ℤ) < 1 ∧
    (COOMatrix.ctor_data (-1 : ℤ) 2 2 (identityBuffer 2)).nnz = 4 ∧
    (CSRMatrix.ctor_data (-1 : ℤ) 2 2 (identityBuffer 2)).nnz = 4 ∧
    (COOMatrix.ctor_data (-1 : ℤ) 2 2 (identityBuffer 2)).nnz ≠ 2 := by
  decide

/-- C19, amended: for every `n` and every `zero_tol` with `0 <= zero_tol < 1`, the `n x n`
identity given as a row-major dense buffer to the COO or to the CSR dense-buffer constructor
yields a matrix with `nnz = n` whose `mult(x, b)` leaves `b` equal to `x`, for every `x` of
length `n`. -/
theorem identity_mult {α : Type} [LinearOrderedRing α] (zero_tol : α) (h0 : 0 ≤ zero_tol)
    (h1 : zero_tol < 1) (n : Nat) (x b : List α) (hx : x.length = n) (hb : b.length = n) :
    (COOMatrix.ctor_data zero_tol n n (identityBuffer n : List α)).nnz = n ∧
    (CSRMatrix.ctor_data zero_tol n n (identityBuffer n : List α)).nnz = n ∧
    COOMatrix.mult_helper (COOMatrix.ctor_data zero_tol n n (identityBuffer n : List α)) x b =
      x ∧
    CSRMatrix.mult_helper (CSRMatrix.ctor_data zero_tol n n (identityBuffer n : List α)) x b =
      x := by
  refine ⟨?_, (CSRMatrix.csr_ctor_data_identity zero_tol h0 h1 n).2.2.1,
    COOMatrix.coo_mult_identity zero_tol h0 h1 n x b hx hb,
    CSRMatrix.csr_mult_identity zero_tol h0 h1 n x b hx hb⟩
  rw [COOMatrix.coo_ctor_data_identity zero_tol h0 h1 n]

theorem identity_mult_witness :
    ((0 : ℤ) ≤ 0 ∧ (0 : ℤ) < 1 ∧ ([1, 2, 3] : List ℤ).length = 3 ∧
      ([0, 0, 0] : List ℤ).length = 3) ∧
    ((COOMatrix.ctor_data (0 : ℤ) 3 3 (identityBuffer 3 : List ℤ)).nnz = 3 ∧
    (CSRMatrix.ctor_data (0 : ℤ) 3 3 (identityBuffer 3 : List ℤ)).nnz = 3 ∧
    COOMatrix.mult_helper (COOMatrix.ctor_data (0 : ℤ) 3 3 (identityBuffer 3 : List ℤ))
      [1, 2, 3] [0, 0, 0] = [1, 2, 3] ∧
    CSRMatrix.mult_helper (CSRMatrix.ctor_data (0 : ℤ) 3 3 (identityBuffer 3 : List ℤ))
      [1, 2, 3] [0, 0, 0] = [1, 2, 3]) :=
  ⟨⟨by decide, by decide, rfl, rfl⟩,
    identity_mult (0 : ℤ) (by decide) (by decide) 3 [1, 2, 3] [0, 0, 0] rfl rfl⟩

/-- C20, as stated, fails: on the 3 x 3 identity built by the dense-buffer constructor with
the value `5` added at position `(0, 0)`, as one more stored triplet or merged into the stored
`6`, `mult` with `x = [1, 2, 3]` does not yield `[8, 2, 3]`. -/
theorem mult_after_add_counterexample :
    COOMatrix.mult_helper
      (COOMatrix.withTriplet (COOMatrix.ctor_data (0 : ℤ) 3 3 (identityBuffer 3)) 0 0 5)
      [1, 2, 3] [0, 0, 0] ≠ [8, 2, 3] ∧
    COOMatrix.mult_helper
      (Matrix.withValue (COOMatrix.ctor_data (0 : ℤ) 3 3 (identityBuffer 3)) 0 6)
      [1, 2, 3] [0, 0, 0] ≠ [8, 2, 3] ∧
    CSRMatrix.mult_helper
      (Matrix.withValue (CSRMatrix.ctor_data (0 : ℤ) 3 3 (identityBuffer 3)) 0 6)
      [1, 2, 3] [0, 0, 0] ≠ [8, 2, 3] := by
  decide

/-- C20, amended: on the 3 x 3 identity built by the dense-buffer constructor (for a
`zero_tol` with `0 <= zero_tol < 1`) with the value `5` added at position `(0, 0)`, as one
more stored triplet `(0, 0, 5)` or merged so that the stored value of `(0, 0)` is `6`, `mult`
with `x = [1, 2, 3]` yields `b = [6, 2, 3]`. -/
theorem mult_after_add {α : Type} [LinearOrderedRing α] (zero_tol : α) (h0 : 0 ≤ zero_tol)
    (h1 : zero_tol < 1) (b : List α) (hb : b.length = 3) :
    COOMatrix.triplets
      (COOMatrix.withTriplet (COOMatrix.ctor_data zero_tol 3 3 (identityBuffer 3 : List α))
        0 0 5) = [(0, 0, 1), (1, 1, 1), (2, 2, 1), (0, 0, 5)] ∧
    COOMatrix.mult_helper
      (COOMatrix.withTriplet (COOMatrix.ctor_data zero_tol 3 3 (identityBuffer 3 : List α))
        0 0 5) [1, 2, 3] b = [6, 2, 3] ∧
    COOMatrix.triplets
      (Matrix.withValue (COOMatrix.ctor_data zero_tol 3 3 (identityBuffer 3 : List α)) 0 6) =
        [(0, 0, 6), (1, 1, 1), (2, 2, 1)] ∧
    COOMatrix.mult_helper
      (Matrix.withValue (COOMatrix.ctor_data zero_tol 3 3 (identityBuffer 3 : List α)) 0 6)
      [1, 2, 3] b = [6, 2, 3] ∧
    CSRMatrix.mult_helper
      (Matrix.withValue (CSRMatrix.ctor_data zero_tol 3 3 (identityBuffer 3 : List α)) 0 6)
      [1, 2, 3] b = [6, 2, 3] := by
  have lenO : ∀ A : COOMatrix α, (COOMatrix.mult_helper A [1, 2, 3] b).length = b.length :=
    fun A => Matrix.length_mult (.coo A) _ b
  have lenR : ∀ A : CSRMatrix α, (CSRMatrix.mult_helper A [1, 2, 3] b).length = b.length :=
    fun A => Matrix.length_mult (.csr A) _ b
  obtain ⟨e2, e3, _, er, _, ep⟩ := CSRMatrix.csr_ctor_data_identity zero_tol h0 h1 3
  refine ⟨?_, ?_, ?_, ?_, ?_⟩
  · rw [COOMatrix.coo_ctor_data_identity zero_tol h0 h1 3]
    simp [COOMatrix.triplets, COOMatrix.withTriplet, List.range_succ]
  · rw [COOMatrix.coo_ctor_data_identity zero_tol h0 h1 3]
    apply vec_ext _ _ (by rw [lenO, hb]; rfl)
    intro i hi
    rw [lenO, hb] at hi
    rw [COOMatrix.coo_load_mult_helper _ _ _ hb i hi]
    simp only [COOMatrix.withTriplet]
    interval_cases i <;> (simp [Finset.sum_range_succ, load, List.range_succ]; try norm_num)
  · rw [COOMatrix.coo_ctor_data_identity zero_tol h0 h1 3]
    simp [COOMatrix.triplets, Matrix.withValue, store, List.range_succ]
  · rw [COOMatrix.coo_ctor_data_identity zero_tol h0 h1 3]
    apply vec_ext _ _ (by rw [lenO, hb]; rfl)
    intro i hi
    rw [lenO, hb] at hi
    rw [COOMatrix.coo_load_mult_helper _ _ _ hb i hi]
    simp only [Matrix.withValue]
    interval_cases i <;> simp [Finset.sum_range_succ, load, store, List.range_succ]
  · apply vec_ext _ _ (by rw [lenR, hb]; rfl)
    intro i hi
    rw [lenR, hb] at hi
    have hr : i < (Matrix.withValue
        (CSRMatrix.ctor_data zero_tol 3 3 (identityBuffer 3 : List α)) 0 6).n_rows := by
      show i < (CSRMatrix.ctor_data zero_tol 3 3 (identityBuffer 3 : List α)).n_rows
      rw [er]
      exact hi
    rw [CSRMatrix.csr_load_mult_helper _ _ b i hr (by rw [hb]; exact hi)]
    simp only [Matrix.withValue]
    rw [ep i (by omega), ep (i + 1) (by omega), span_succ, e2, e3]
    interval_cases i <;> simp [load, store, List.range_succ]

theorem mult_after_add_witness :
    ((0 : ℤ) ≤ 0 ∧ (0 : ℤ) < 1 ∧ ([0, 0, 0] : List ℤ).length = 3) ∧
    (COOMatrix.triplets
      (COOMatrix.withTriplet (COOMatrix.ctor_data (0 : ℤ) 3 3 (identityBuffer 3 : List ℤ))
        0 0 5) = [(0, 0, 1), (1, 1, 1), (2, 2, 1), (0, 0, 5)] ∧
    COOMatrix.mult_helper
      (COOMatrix.withTriplet (COOMatrix.ctor_data (0 : ℤ) 3 3 (identityBuffer 3 : List ℤ))
        0 0 5) [1, 2, 3] [0, 0, 0] = [6, 2, 3] ∧
    COOMatrix.triplets
      (Matrix.withValue (COOMatrix.ctor_data (0 : ℤ) 3 3 (identityBuffer 3 : List ℤ)) 0 6) =
        [(0, 0, 6), (1, 1, 1), (2, 2, 1)] ∧
    COOMatrix.mult_helper
      (Matrix.withValue (COOMatrix.ctor_data (0 : ℤ) 3 3 (identityBuffer 3 : List ℤ)) 0 6)
      [1, 2, 3] [0, 0, 0] = [6, 2, 3] ∧
    CSRMatrix.mult_helper
      (Matrix.withValue (CSRMatrix.ctor_data (0 : ℤ) 3 3 (identityBuffer 3 : List ℤ)) 0 6)
      [1, 2, 3] [0, 0, 0] = [6, 2, 3]) :=
  ⟨⟨by decide, by decide, rfl⟩,
    mult_after_add (0 : ℤ) (by decide) (by decide) [0, 0, 0] rfl⟩

/-- C11: for a dense buffer of `n_rows*n_cols` scalars (in block format: block `(I, J)`
occupies the `b_size` offsets from `(I*(n_cols/b_cols) + J)*b_size` on) and positive block
dimensions dividing the matrix dimensions, the BSR dense-buffer constructor yields `n_blocks`
equal to the number of blocks holding a scalar of magnitude above `zero_tol`, and
`nnz = n_blocks * b_size = len(vals)`; block row `I`'s slice of `idx2` lists exactly the kept
block columns, ascending, and its slice of `vals` holds every scalar of each kept block, zeros
included. -/
theorem BSRMatrix.ctor_data_blocks {α : Type} [LinearOrderedRing α] (zero_tol : α)
    (n m br bc : Nat) (D : List α) (_hD : D.length = n * m) (_hbr : 0 < br) (_hbc : 0 < bc)
    (hr : n % br = 0) (hc : m % bc = 0) :
    ∃ A : BSRMatrix α, BSRMatrix.ctor_data zero_tol n m br bc D = .ok A ∧
      A.n_blocks = ((Finset.range (n / br) ×ˢ Finset.range (m / bc)).filter
        (fun q => ∃ k < br * bc,
          |load D ((q.1 * (m / bc) + q.2) * (br * bc) + k)| > zero_tol)).card ∧
      A.nnz = A.n_blocks * A.b_size ∧ A.vals.length = A.nnz ∧ A.idx2.length = A.n_blocks ∧
      ∀ I < n / br,
        (slice A.idx2 (load A.idx1 I) (load A.idx1 (I + 1))).Pairwise (· < ·) ∧
        (∀ J, J ∈ slice A.idx2 (load A.idx1 I) (load A.idx1 (I + 1)) ↔
          J < m / bc ∧ ∃ k < br * bc,
            |load D ((I * (m / bc) + J) * (br * bc) + k)| > zero_tol) ∧
        slice A.vals (load A.idx1 I * A.b_size) (load A.idx1 (I + 1) * A.b_size) =
          (slice A.idx2 (load A.idx1 I) (load A.idx1 (I + 1))).flatMap
            (fun J => blockScalars D (br * bc) ((I * (m / bc) + J) * (br * bc))) := by
  obtain ⟨A, hA, _, _, _, _, hbs, hnb, hnnz, hidx2, hvals, _, hptr⟩ :=
    BSRMatrix.bsr_ctor_data_spec zero_tol n m br bc D ⟨hr, hc⟩
  refine ⟨A, hA, ?_, by rw [hnnz, hbs], ?_, ?_, fun I hI => ?_⟩
  · rw [hnb, keptBlocksBefore_eq_card]
    congr 1
    apply Finset.filter_congr
    intro q _
    exact blockKept_iff zero_tol D (br * bc) _
  · rw [hvals, hnnz, hnb, length_block_rows]
  · rw [hidx2, hnb]
    rfl
  · have s2 : slice A.idx2 (load A.idx1 I) (load A.idx1 (I + 1)) =
        keptBlocksAt zero_tol D (br * bc) (m / bc) I := by
      rw [hptr I (by omega), hptr (I + 1) (by omega), hidx2]
      exact slice_flatMap _ (n / br) I hI
    rw [s2]
    refine ⟨pairwise_keptBlocksAt zero_tol D (br * bc) (m / bc) I,
      fun J => mem_keptBlocksAt zero_tol D (br * bc) (m / bc) I J, ?_⟩
    rw [hptr I (by omega), hptr (I + 1) (by omega), hvals, hbs]
    have := slice_flatMap (fun i => (keptBlocksAt zero_tol D (br * bc) (m / bc) i).flatMap
      (fun j => blockScalars D (br * bc) ((i * (m / bc) + j) * (br * bc)))) (n / br) I hI
    rw [length_block_rows, length_block_rows] at this
    exact this

theorem BSRMatrix.ctor_data_blocks_witness :
    (exBlockDense.length = 2 * 4 ∧
    0 < 2 ∧
    2 % 2 = 0 ∧
    4 % 2 = 0) ∧
    (∃ A : BSRMatrix ℤ, BSRMatrix.ctor_data (0 : ℤ) 2 4 2 2 exBlockDense = .ok A ∧
      A.n_blocks = ((Finset.range (2 / 2) ×ˢ Finset.range (4 / 2)).filter
        (fun q => ∃ k < 2 * 2,
          |load exBlockDense ((q.1 * (4 / 2) + q.2) * (2 * 2) + k)| > (0 : ℤ))).card ∧
      A.nnz = A.n_blocks * A.b_size ∧ A.vals.length = A.nnz ∧ A.idx2.length = A.n_blocks ∧
      ∀ I < 2 / 2,
        (slice A.idx2 (load A.idx1 I) (load A.idx1 (I + 1))).Pairwise (· < ·) ∧
        (∀ J, J ∈ slice A.idx2 (load A.idx1 I) (load A.idx1 (I + 1)) ↔
          J < 4 / 2 ∧ ∃ k < 2 * 2,
            |load exBlockDense ((I * (4 / 2) + J) * (2 * 2) + k)| > (0 : ℤ)) ∧
        slice A.vals (load A.idx1 I * A.b_size) (load A.idx1 (I + 1) * A.b_size) =
          (slice A.idx2 (load A.idx1 I) (load A.idx1 (I + 1))).flatMap
            (fun J => blockScalars exBlockDense (2 * 2) ((I * (4 / 2) + J) * (2 * 2)))) :=
  ⟨⟨rfl, by decide, rfl, rfl⟩,
    BSRMatrix.ctor_data_blocks (0 : ℤ) 2 4 2 2 exBlockDense rfl (by decide) (by decide) rfl rfl⟩

/-- C12: for a row-major dense buffer `D` of `n_rows*n_cols` scalars, the COO dense-buffer
constructor stores the triplet `(i, j, D[i*n_cols + j])` exactly for the positions with
`|D[i*n_cols + j]| > zero_tol`, and none for a position of magnitude at or below `zero_tol`;
the triplets are in row-major order with strictly ascending keys (so each key occurs once),
and `nnz = len(idx1) = len(idx2) = len(vals)` is the number of retained positions. -/
theorem COOMatrix.ctor_data_triplets {α : Type} [LinearOrderedRing α] (zero_tol : α)
    (n m : Nat) (D : List α) (_hD : D.length = n * m) :
    (COOMatrix.ctor_data zero_tol n m D).idx1.length = (COOMatrix.ctor_data zero_tol n m D).nnz ∧
    (COOMatrix.ctor_data zero_tol n m D).idx2.length = (COOMatrix.ctor_data zero_tol n m D).nnz ∧
    (COOMatrix.ctor_data zero_tol n m D).vals.length = (COOMatrix.ctor_data zero_tol n m D).nnz ∧
    (COOMatrix.ctor_data zero_tol n m D).nnz =
      ((Finset.range n ×ˢ Finset.range m).filter
        (fun q => |load D (q.1 * m + q.2)| > zero_tol)).card ∧
    (COOMatrix.triplets (COOMatrix.ctor_data zero_tol n m D)).Pairwise keyLt ∧
    (∀ i j v, (i, j, v) ∈ COOMatrix.triplets (COOMatrix.ctor_data zero_tol n m D) ↔
      i < n ∧ j < m ∧ |load D (i * m + j)| > zero_tol ∧ v = load D (i * m + j)) ∧
    ∀ i j v, |load D (i * m + j)| ≤ zero_tol →
      (i, j, v) ∉ COOMatrix.triplets (COOMatrix.ctor_data zero_tol n m D) := by
  have hmem := mem_keptTriplets zero_tol D n m
  rw [COOMatrix.triplets_ctor_data]
  refine ⟨?_, ?_, ?_, ?_, pairwise_keptTriplets zero_tol D n m, hmem, fun i j v h hin => ?_⟩
  · rw [COOMatrix.coo_ctor_data_eq]; simp
  · rw [COOMatrix.coo_ctor_data_eq]; simp
  · rw [COOMatrix.coo_ctor_data_eq]; simp
  · rw [COOMatrix.coo_ctor_data_eq]
    show (keptTriplets zero_tol D n m).length = _
    rw [length_keptTriplets, keptBefore_eq_card]
    congr 1
    apply Finset.filter_congr
    intro q _
    exact decide_eq_true_iff
  · exact absurd ((hmem i j v).mp hin).2.2.1 (not_lt.mpr h)

theorem COOMatrix.ctor_data_triplets_witness :
    (exDense.length = 2 * 2) ∧
    ((COOMatrix.ctor_data (0 : ℤ) 2 2 exDense).idx1.length = (COOMatrix.ctor_data (0 : ℤ) 2 2 exDense).nnz ∧
    (COOMatrix.ctor_data (0 : ℤ) 2 2 exDense).idx2.length = (COOMatrix.ctor_data (0 : ℤ) 2 2 exDense).nnz ∧
    (COOMatrix.ctor_data (0 : ℤ) 2 2 exDense).vals.length = (COOMatrix.ctor_data (0 : ℤ) 2 2 exDense).nnz ∧
    (COOMatrix.ctor_data (0 : ℤ) 2 2 exDense).nnz =
      ((Finset.range 2 ×ˢ Finset.range 2).filter
        (fun q => |load exDense (q.1 * 2 + q.2)| > (0 : ℤ))).card ∧
    (COOMatrix.triplets (COOMatrix.ctor_data (0 : ℤ) 2 2 exDense)).Pairwise keyLt ∧
    (∀ i j v, (i, j, v) ∈ COOMatrix.triplets (COOMatrix.ctor_data (0 : ℤ) 2 2 exDense) ↔
      i < 2 ∧ j < 2 ∧ |load exDense (i * 2 + j)| > (0 : ℤ) ∧ v = load exDense (i * 2 + j)) ∧
    ∀ i j v, |load exDense (i * 2 + j)| ≤ (0 : ℤ) →
      (i, j, v) ∉ COOMatrix.triplets (COOMatrix.ctor_data (0 : ℤ) 2 2 exDense)) :=
  ⟨rfl,
    COOMatrix.ctor_data_triplets (0 : ℤ) 2 2 exDense rfl⟩

/-- C17: the pointer array built by the CSR, CSC and BSR dense-buffer constructors is
bound-consistent (`PtrOK`): `idx1` has length `n_rows+1` (CSR), `n_cols+1` (CSC) or
`n_rows/b_rows+1` (BSR), `idx1[0] = 0`, `idx1` is non-decreasing, and its last entry is `nnz`
for CSR and CSC and `n_blocks` for BSR. -/
theorem ctor_data_pointer_ok {α : Type} [LinearOrderedRing α] (zero_tol : α)
    (n m br bc : Nat) (D : List α) (_hbr : 0 < br) (_hbc : 0 < bc) (hr : n % br = 0)
    (hc : m % bc = 0) :
    PtrOK (CSRMatrix.ctor_data zero_tol n m D).idx1 n (CSRMatrix.ctor_data zero_tol n m D).nnz ∧
    PtrOK (CSCMatrix.ctor_data zero_tol n m D).idx1 m (CSCMatrix.ctor_data zero_tol n m D).nnz ∧
    ∃ A : BSRMatrix α, BSRMatrix.ctor_data zero_tol n m br bc D = .ok A ∧
      PtrOK A.idx1 (n / br) A.n_blocks := by
  refine ⟨CSRMatrix.csr_ctor_data_ptrOK zero_tol n m D,
    CSCMatrix.csc_ctor_data_ptrOK zero_tol n m D, ?_⟩
  obtain ⟨A, hA, _, _, _, _, _, hnb, _, _, _, hlen, hptr⟩ :=
    BSRMatrix.bsr_ctor_data_spec zero_tol n m br bc D ⟨hr, hc⟩
  refine ⟨A, hA, ?_⟩
  rw [hnb]
  exact ptrOK_of_counts _ (keptBlocksBefore zero_tol D (br * bc) (m / bc)) (n / br) rfl
    (fun i => keptBlocksBefore_mono zero_tol D (br * bc) (m / bc) i (i + 1) (Nat.le_succ i))
    hlen hptr

theorem ctor_data_pointer_ok_witness :
    (0 < 1 ∧
    2 % 1 = 0) ∧
    (PtrOK (CSRMatrix.ctor_data (0 : ℤ) 2 2 exDense).idx1 2 (CSRMatrix.ctor_data (0 : ℤ) 2 2 exDense).nnz ∧
    PtrOK (CSCMatrix.ctor_data (0 : ℤ) 2 2 exDense).idx1 2 (CSCMatrix.ctor_data (0 : ℤ) 2 2 exDense).nnz ∧
    ∃ A : BSRMatrix ℤ, BSRMatrix.ctor_data (0 : ℤ) 2 2 1 1 exDense = .ok A ∧
      PtrOK A.idx1 (2 / 1) A.n_blocks) :=
  ⟨⟨by decide, rfl⟩,
    ctor_data_pointer_ok (0 : ℤ) 2 2 1 1 exDense (by decide) (by decide) rfl rfl⟩

/-- C18: for a row-major dense buffer `D` of `n_rows*n_cols` scalars, in the matrix built by
the CSR dense-buffer constructor the column indices of each row slice
`idx1[i]..idx1[i+1]` are strictly ascending and below `n_cols`, the slice holds exactly the
columns `j` with `|D[i*n_cols + j]| > zero_tol`, and the values of the slice are the
`D[i*n_cols + j]` of these columns. -/
theorem CSRMatrix.ctor_data_rows {α : Type} [LinearOrderedRing α] (zero_tol : α)
    (n m : Nat) (D : List α) (_hD : D.length = n * m) (i : Nat) (hi : i < n) :
    (slice (CSRMatrix.ctor_data zero_tol n m D).idx2
      (load (CSRMatrix.ctor_data zero_tol n m D).idx1 i)
      (load (CSRMatrix.ctor_data zero_tol n m D).idx1 (i + 1))).Pairwise (· < ·) ∧
    (∀ j ∈ slice (CSRMatrix.ctor_data zero_tol n m D).idx2
      (load (CSRMatrix.ctor_data zero_tol n m D).idx1 i)
      (load (CSRMatrix.ctor_data zero_tol n m D).idx1 (i + 1)), j < m) ∧
    (∀ j, j ∈ slice (CSRMatrix.ctor_data zero_tol n m D).idx2
      (load (CSRMatrix.ctor_data zero_tol n m D).idx1 i)
      (load (CSRMatrix.ctor_data zero_tol n m D).idx1 (i + 1)) ↔
        j < m ∧ |load D (i * m + j)| > zero_tol) ∧
    slice (CSRMatrix.ctor_data zero_tol n m D).vals
      (load (CSRMatrix.ctor_data zero_tol n m D).idx1 i)
      (load (CSRMatrix.ctor_data zero_tol n m D).idx1 (i + 1)) =
        (slice (CSRMatrix.ctor_data zero_tol n m D).idx2
          (load (CSRMatrix.ctor_data zero_tol n m D).idx1 i)
          (load (CSRMatrix.ctor_data zero_tol n m D).idx1 (i + 1))).map
          (fun j => load D (i * m + j)) := by
  obtain ⟨h1, h2⟩ := CSRMatrix.csr_ctor_data_slice zero_tol n m D i hi
  rw [h1, h2]
  exact ⟨pairwise_keptAt zero_tol D m m i,
    fun j hj => ((mem_keptAt zero_tol D m m i j).mp hj).1,
    fun j => mem_keptAt zero_tol D m m i j, rfl⟩

theorem CSRMatrix.ctor_data_rows_witness :
    (exDense.length = 2 * 2 ∧
    0 < 2) ∧
    ((slice (CSRMatrix.ctor_data (0 : ℤ) 2 2 exDense).idx2
      (load (CSRMatrix.ctor_data (0 : ℤ) 2 2 exDense).idx1 0)
      (load (CSRMatrix.ctor_data (0 : ℤ) 2 2 exDense).idx1 (0 + 1))).Pairwise (· < ·) ∧
    (∀ j ∈ slice (CSRMatrix.ctor_data (0 : ℤ) 2 2 exDense).idx2
      (load (CSRMatrix.ctor_data (0 : ℤ) 2 2 exDense).idx1 0)
      (load (CSRMatrix.ctor_data (0 : ℤ) 2 2 exDense).idx1 (0 + 1)), j < 2) ∧
    (∀ j, j ∈ slice (CSRMatrix.ctor_data (0 : ℤ) 2 2 exDense).idx2
      (load (CSRMatrix.ctor_data (0 : ℤ) 2 2 exDense).idx1 0)
      (load (CSRMatrix.ctor_data (0 : ℤ) 2 2 exDense).idx1 (0 + 1)) ↔
        j < 2 ∧ |load exDense (0 * 2 + j)| > (0 : ℤ)) ∧
    slice (CSRMatrix.ctor_data (0 : ℤ) 2 2 exDense).vals
      (load (CSRMatrix.ctor_data (0 : ℤ) 2 2 exDense).idx1 0)
      (load (CSRMatrix.ctor_data (0 : ℤ) 2 2 exDense).idx1 (0 + 1)) =
        (slice (CSRMatrix.ctor_data (0 : ℤ) 2 2 exDense).idx2
          (load (CSRMatrix.ctor_data (0 : ℤ) 2 2 exDense).idx1 0)
          (load (CSRMatrix.ctor_data (0 : ℤ) 2 2 exDense).idx1 (0 + 1))).map
          (fun j => load exDense (0 * 2 + j))) :=
  ⟨⟨rfl, by decide⟩,
    CSRMatrix.ctor_data_rows (0 : ℤ) 2 2 exDense rfl 0 (by decide)⟩

theorem BSRMatrix.ctor_n_blocks_witness :
    (0 < 2 ∧
    2 % 2 = 0 ∧
    4 % 2 = 0) ∧
    ((∃ A : BSRMatrix ℤ, BSRMatrix.ctor_data (0 : ℤ) 2 4 2 2 exBlockDense = .ok A ∧
      A.n_blocks = A.idx2.length) ∧
    (∀ A : BSRMatrix ℤ, BSRMatrix.ctor_arrays 2 4 2 2 [0, 1] [1] ([5, 6, 7, 8] : List ℤ) = .ok A →
      A.n_blocks = A.idx2.length) ∧
    ∃ A : BSRMatrix ℤ, BSRMatrix.ctor 2 4 2 2 0 0 = .ok A ∧ A.idx2 = [] ∧
      A.n_blocks = if 0 ≠ 0 then 0 else 2 / 2 * 4 / 2) :=
  ⟨⟨by decide, rfl, rfl⟩,
    BSRMatrix.ctor_n_blocks (0 : ℤ) 2 4 2 2 0 0 exBlockDense [0, 1] [1] ([5, 6, 7, 8] : List ℤ) (by decide) (by decide) rfl rfl⟩

/-- C21 (the code departs from the claim): the index-array constructor called for a 2 x 2
matrix with one 2 x 2 block, `rowptr = [0, 1]`, `cols = [0]` and the three scalars
`data = [1, 2, 3]`.  The call is accepted and the object has
`b_size = data.size()/cols.size() = 3`, not `b_rows * b_cols = 4`. -/
theorem BSRMatrix.ctor_arrays_block_size :
    ∃ A : BSRMatrix ℤ, BSRMatrix.ctor_arrays 2 2 2 2 [0, 1] [0] ([1, 2, 3] : List ℤ) = .ok A ∧
      A.b_size = 3 ∧ A.b_rows * A.b_cols = 4 ∧ A.b_size ≠ A.b_rows * A.b_cols :=
  ⟨_, rfl, rfl, rfl, by decide⟩

/-- C22: the CSC kernels are the CSR kernels with the row and column roles exchanged: over the
same arrays, with the two dimensions exchanged, `CSC.mult = CSR.mult_T`,
`CSC.mult_T = CSR.mult`, `CSC.mult_append = CSR.mult_append_T`,
`CSC.mult_append_T = CSR.mult_append`, `CSC.mult_append_neg = CSR.mult_append_neg_T` and
`CSC.mult_append_neg_T = CSR.mult_append_neg` as functions of `(x, b)`; no law of arithmetic
is used, so the accumulation order is the same. -/
theorem CSCMatrix.kernels_mirror_csr {α : Type} [Zero α] [Add α] [Sub α] [Mul α]
    (A : Matrix α) (x b : List α) :
    CSCMatrix.mult_helper A x b = CSRMatrix.mult_T_helper (Matrix.swapDims A) x b ∧
    CSCMatrix.mult_T_helper A x b = CSRMatrix.mult_helper (Matrix.swapDims A) x b ∧
    CSCMatrix.mult_append_helper A x b =
      CSRMatrix.mult_append_T_helper (Matrix.swapDims A) x b ∧
    CSCMatrix.mult_append_T_helper A x b =
      CSRMatrix.mult_append_helper (Matrix.swapDims A) x b ∧
    CSCMatrix.mult_append_neg_helper A x b =
      CSRMatrix.mult_append_neg_T_helper (Matrix.swapDims A) x b ∧
    CSCMatrix.mult_append_neg_T_helper A x b =
      CSRMatrix.mult_append_neg_helper (Matrix.swapDims A) x b :=
  ⟨rfl, rfl, rfl, rfl, rfl, rfl⟩

/-- C27: for positive block dimensions that divide the matrix dimensions, the reservation
constructor called with `_nblocks = 0` yields an object whose `n_blocks` is the dense number
of blocks: the expression `_nrows/_brows * _ncols/_bcols`, evaluated left to right as
`((_nrows/_brows) * _ncols)/_bcols`, equals `(n_rows/b_rows) * (n_cols/b_cols)`; called with
`_nblocks != 0` it yields `n_blocks = _nblocks`. -/
theorem BSRMatrix.ctor_dense_blocks {α : Type} (n m br bc nblocks nnz : Nat) (hbr : 0 < br)
    (hbc : 0 < bc) (hr : n % br = 0) (hc : m % bc = 0) :
    n / br * m / bc = (n / br) * (m / bc) ∧
    (∃ A : BSRMatrix α, BSRMatrix.ctor n m br bc 0 nnz = .ok A ∧
      A.n_blocks = (n / br) * (m / bc)) ∧
    (nblocks ≠ 0 → ∃ A : BSRMatrix α, BSRMatrix.ctor n m br bc nblocks nnz = .ok A ∧
      A.n_blocks = nblocks) := by
  have hd : ¬ (n % br ≠ 0 ∨ m % bc ≠ 0) := by
    rintro (h | h)
    · exact h hr
    · exact h hc
  have h1 : br ≠ 0 := by omega
  have h2 : bc ≠ 0 := by omega
  have e : n / br * m / bc = (n / br) * (m / bc) :=
    Nat.mul_div_assoc _ (Nat.dvd_of_mod_eq_zero hc)
  refine ⟨e, ?_, fun hnb => ?_⟩
  · unfold BSRMatrix.ctor
    rw [if_neg hd]
    refine ⟨_, rfl, ?_⟩
    simp [h1, h2, e]
  · unfold BSRMatrix.ctor
    rw [if_neg hd]
    refine ⟨_, rfl, ?_⟩
    simp [hnb]

theorem BSRMatrix.ctor_dense_blocks_witness :
    (0 < 2 ∧ 0 < 3 ∧ 4 % 2 = 0 ∧ 6 % 3 = 0) ∧
    (4 / 2 * 6 / 3 = (4 / 2) * (6 / 3) ∧
    (∃ A : BSRMatrix ℤ, BSRMatrix.ctor 4 6 2 3 0 7 = .ok A ∧
      A.n_blocks = (4 / 2) * (6 / 3)) ∧
    (5 ≠ 0 → ∃ A : BSRMatrix ℤ, BSRMatrix.ctor 4 6 2 3 5 7 = .ok A ∧
      A.n_blocks = 5)) :=
  ⟨by decide, BSRMatrix.ctor_dense_blocks 4 6 2 3 5 7 (by decide) (by decide) (by decide)
    (by decide)⟩

/-- C28: with 1 x 1 blocks (`b_rows = b_cols = b_size = 1`) every BSR kernel returns exactly
what the CSR kernel of the same name returns on the same arrays, dimensions and vectors:
`mult`, `mult_T`, `mult_append`, `mult_append_T`, `mult_append_neg`, `mult_append_neg_T` and
`residual`; no law of arithmetic is used, so the accumulation order is the same. -/
theorem BSRMatrix.scalar_blocks_eq_csr {α : Type} [Zero α] [Add α] [Sub α] [Mul α]
    (A : Matrix α) (nb : Nat) (x b r : List α) :
    BSRMatrix.mult_helper (BSRMatrix.ofScalar A nb) x b = CSRMatrix.mult_helper A x b ∧
    BSRMatrix.mult_T_helper (BSRMatrix.ofScalar A nb) x b = CSRMatrix.mult_T_helper A x b ∧
    BSRMatrix.mult_append_helper (BSRMatrix.ofScalar A nb) x b =
      CSRMatrix.mult_append_helper A x b ∧
    BSRMatrix.mult_append_T_helper (BSRMatrix.ofScalar A nb) x b =
      CSRMatrix.mult_append_T_helper A x b ∧
    BSRMatrix.mult_append_neg_helper (BSRMatrix.ofScalar A nb) x b =
      CSRMatrix.mult_append_neg_helper A x b ∧
    BSRMatrix.mult_append_neg_T_helper (BSRMatrix.ofScalar A nb) x b =
      CSRMatrix.mult_append_neg_T_helper A x b ∧
    BSRMatrix.residual_helper (BSRMatrix.ofScalar A nb) x b r =
      CSRMatrix.residual_helper A x b r := by
  obtain ⟨e1, e2, e3, e4, e5⟩ := BSRMatrix.ofScalar_base A nb
  have a1 : ∀ b, BSRMatrix.mult_append_helper (BSRMatrix.ofScalar A nb) x b =
      CSRMatrix.mult_append_helper A x b := by
    intro b
    simp only [BSRMatrix.mult_append_helper, CSRMatrix.mult_append_helper,
      BSRMatrix.block_mult_scalar, e1, e2, e4, e5, Nat.div_one]
  have a2 : ∀ b, BSRMatrix.mult_append_T_helper (BSRMatrix.ofScalar A nb) x b =
      CSRMatrix.mult_append_T_helper A x b := by
    intro b
    simp only [BSRMatrix.mult_append_T_helper, CSRMatrix.mult_append_T_helper,
      BSRMatrix.block_mult_T_scalar, e1, e2, e4, e5, Nat.div_one]
  refine ⟨?_, ?_, a1 b, a2 b, ?_, ?_, ?_⟩
  · simp only [BSRMatrix.mult_helper, CSRMatrix.mult_helper, a1, e2]
  · simp only [BSRMatrix.mult_T_helper, CSRMatrix.mult_T_helper, a2, e3]
  · simp only [BSRMatrix.mult_append_neg_helper, CSRMatrix.mult_append_neg_helper,
      BSRMatrix.block_mult_neg_scalar, e1, e2, e4, e5, Nat.div_one]
  · simp only [BSRMatrix.mult_append_neg_T_helper, CSRMatrix.mult_append_neg_T_helper,
      BSRMatrix.block_mult_neg_T_scalar, e1, e2, e4, e5, Nat.div_one]
  · simp only [BSRMatrix.residual_helper, CSRMatrix.residual_helper,
      BSRMatrix.block_res_scalar, e1, e2, e4, e5, Nat.div_one]

/-- C29: the adjoint identity.  For a well-formed matrix `M` of any of the four formats, `x`
of length `n_cols`, `y` of length `n_rows` and output vectors `b` (length `n_rows`) and `c`
(length `n_cols`), in exact arithmetic, `y . mult(x, b) = x . mult_T(y, c)`. -/
theorem Matrix.mult_adjoint {α : Type} [CommRing α] (M : AnyMatrix α) (x y b c : List α)
    (hM : AnyMatrix.WF M) (hx : x.length = (AnyMatrix.base M).n_cols)
    (hy : y.length = (AnyMatrix.base M).n_rows) (hb : b.length = (AnyMatrix.base M).n_rows)
    (hc : c.length = (AnyMatrix.base M).n_cols) :
    dot y (Matrix.mult M x b) = dot x (Matrix.mult_T M y c) := by
  rw [dot_eq_sum y _ _ hy (by rw [Matrix.length_mult, hb]),
    dot_eq_sum x _ _ hx (by rw [Matrix.length_mult_T, hc])]
  have e1 : ∀ r ∈ Finset.range (AnyMatrix.base M).n_rows,
      load y r * load (Matrix.mult M x b) r =
        ∑ k in Finset.range (AnyMatrix.base M).n_cols,
          load y r * (AnyMatrix.dense M r k * load x k) := by
    intro r hr
    rw [Matrix.load_mult M x b hM hb r (Finset.mem_range.mp hr), Finset.mul_sum]
  have e2 : ∀ k ∈ Finset.range (AnyMatrix.base M).n_cols,
      load x k * load (Matrix.mult_T M y c) k =
        ∑ r in Finset.range (AnyMatrix.base M).n_rows,
          load y r * (AnyMatrix.dense M r k * load x k) := by
    intro k hk
    rw [Matrix.load_mult_T M y c hM hc k (Finset.mem_range.mp hk), Finset.mul_sum]
    apply Finset.sum_congr rfl
    intro r _
    ring
  rw [Finset.sum_congr rfl e1, Finset.sum_congr rfl e2, Finset.sum_comm]

theorem Matrix.mult_adjoint_witness :
    (AnyMatrix.WF (AnyMatrix.bsr exBSR) ∧
      ([1, 2, 3, 4] : List ℤ).length = (AnyMatrix.base (AnyMatrix.bsr exBSR)).n_cols ∧
      ([5, 6] : List ℤ).length = (AnyMatrix.base (AnyMatrix.bsr exBSR)).n_rows ∧
      ([7, 8] : List ℤ).length = (AnyMatrix.base (AnyMatrix.bsr exBSR)).n_rows ∧
      ([9, 9, 9, 9] : List ℤ).length = (AnyMatrix.base (AnyMatrix.bsr exBSR)).n_cols) ∧
    dot [5, 6] (Matrix.mult (AnyMatrix.bsr exBSR) [1, 2, 3, 4] [7, 8]) =
      dot [1, 2, 3, 4] (Matrix.mult_T (AnyMatrix.bsr exBSR) [5, 6] [9, 9, 9, 9]) :=
  ⟨⟨by decide, rfl, rfl, rfl, rfl⟩,
    Matrix.mult_adjoint (AnyMatrix.bsr exBSR) [1, 2, 3, 4] [5, 6] [7, 8] [9, 9, 9, 9]
      (by decide) rfl rfl rfl rfl⟩

/-- C30: an object just built by the dimension/reservation constructor of COO, CSR, CSC or
BSR, whatever the reservation hints, holds no entry (no triplets, or a zero-filled pointer
array) and acts as the zero operator: for `b` of length `n_rows`, `mult(x, b)` leaves `b`
equal to the vector of `n_rows` zeros; for `b` of length `n_cols`, `mult_T(x, b)` leaves `b`
equal to the vector of `n_cols` zeros; and for `b` and `r` of length `n_rows`,
`residual(x, b, r)` leaves `r = b`. -/
theorem Matrix.reserved_zero_operator {α : Type} [Zero α] [Add α] [Sub α] [Mul α]
    (M : AnyMatrix α) (hM : AnyMatrix.Reserved M) :
    AnyMatrix.EmptyStorage M ∧
    (∀ x b, b.length = (AnyMatrix.base M).n_rows →
      Matrix.mult M x b = List.replicate (AnyMatrix.base M).n_rows 0) ∧
    (∀ x b, b.length = (AnyMatrix.base M).n_cols →
      Matrix.mult_T M x b = List.replicate (AnyMatrix.base M).n_cols 0) ∧
    ∀ x b r, b.length = (AnyMatrix.base M).n_rows → r.length = (AnyMatrix.base M).n_rows →
      Matrix.residual M x b r = b := by
  refine ⟨(reserved_updates M hM []).2.2, ?_, ?_, ?_⟩
  · intro x b hb
    rw [Matrix.mult_eq, (reserved_updates M hM x).1, accum_nil, zero_fill_eq_replicate _ _ hb]
  · intro x b hb
    rw [Matrix.mult_T_eq, (reserved_updates M hM x).2.1, accum_nil,
      zero_fill_eq_replicate _ _ hb]
  · intro x b r hb hr
    rw [Matrix.residual_eq, (reserved_updates M hM x).1, accum_nil, copy_fill_eq _ _ _ hb hr]

theorem Matrix.reserved_zero_operator_witness :
    AnyMatrix.Reserved (AnyMatrix.csc (CSCMatrix.ctor 2 3 5 : CSCMatrix ℤ)) ∧
    (AnyMatrix.EmptyStorage (AnyMatrix.csc (CSCMatrix.ctor 2 3 5 : CSCMatrix ℤ)) ∧
    (∀ x b, b.length = (AnyMatrix.base (AnyMatrix.csc (CSCMatrix.ctor 2 3 5 : CSCMatrix ℤ))).n_rows →
      Matrix.mult (AnyMatrix.csc (CSCMatrix.ctor 2 3 5 : CSCMatrix ℤ)) x b =
        List.replicate (AnyMatrix.base (AnyMatrix.csc (CSCMatrix.ctor 2 3 5 : CSCMatrix ℤ))).n_rows 0) ∧
    (∀ x b, b.length = (AnyMatrix.base (AnyMatrix.csc (CSCMatrix.ctor 2 3 5 : CSCMatrix ℤ))).n_cols →
      Matrix.mult_T (AnyMatrix.csc (CSCMatrix.ctor 2 3 5 : CSCMatrix ℤ)) x b =
        List.replicate (AnyMatrix.base (AnyMatrix.csc (CSCMatrix.ctor 2 3 5 : CSCMatrix ℤ))).n_cols 0) ∧
    ∀ x b r,
      b.length = (AnyMatrix.base (AnyMatrix.csc (CSCMatrix.ctor 2 3 5 : CSCMatrix ℤ))).n_rows →
      r.length = (AnyMatrix.base (AnyMatrix.csc (CSCMatrix.ctor 2 3 5 : CSCMatrix ℤ))).n_rows →
      Matrix.residual (AnyMatrix.csc (CSCMatrix.ctor 2 3 5 : CSCMatrix ℤ)) x b r = b) :=
  ⟨Or.inr (Or.inr (Or.inl ⟨2, 3, 5, rfl⟩)),
    Matrix.reserved_zero_operator (AnyMatrix.csc (CSCMatrix.ctor 2 3 5 : CSCMatrix ℤ))
      (Or.inr (Or.inr (Or.inl ⟨2, 3, 5, rfl⟩)))⟩

/-- C23: for a COO, CSR or CSC matrix that satisfies its format invariant, `x` and `c` of
length `n_cols` and `y`, `b` and `r` of length `n_rows`, every subscript evaluated by `mult`,
`mult_T`, the four append variants and `residual` is in range: the kernel with every
subscript checked runs to completion and returns exactly what the total kernel returns, so
the out-of-range branch of the total kernel is never taken. -/
theorem Matrix.scalar_kernels_in_bounds {α : Type} [Zero α] [Add α] [Sub α] [Mul α]
    (M : AnyMatrix α) (hfmt : ∀ B, M ≠ AnyMatrix.bsr B) (hM : AnyMatrix.WF M)
    (x y b c r : List α) (hx : x.length = (AnyMatrix.base M).n_cols)
    (hy : y.length = (AnyMatrix.base M).n_rows) (hb : b.length = (AnyMatrix.base M).n_rows)
    (hc : c.length = (AnyMatrix.base M).n_cols) (hr : r.length = (AnyMatrix.base M).n_rows) :
    Matrix.mult_chk M x b = some (Matrix.mult M x b) ∧
    Matrix.mult_T_chk M y c = some (Matrix.mult_T M y c) ∧
    Matrix.mult_append_chk M x b = some (Matrix.mult_append M x b) ∧
    Matrix.mult_append_T_chk M y c = some (Matrix.mult_append_T M y c) ∧
    Matrix.mult_append_neg_chk M x b = some (Matrix.mult_append_neg M x b) ∧
    Matrix.mult_append_neg_T_chk M y c = some (Matrix.mult_append_neg_T M y c) ∧
    Matrix.residual_chk M x b r = some (Matrix.residual M x b r) := by
  cases M with
  | coo A => exact COOMatrix.coo_chk_eq A hM x y b c r hx hy hb hc hr
  | csr A => exact CSRMatrix.csr_chk_eq A hM x y b c r hx hy hb hc hr
  | csc A => exact CSCMatrix.csc_chk_eq A hM x y b c r hx hy hb hc hr
  | bsr A => exact absurd rfl (hfmt A)

theorem Matrix.scalar_kernels_in_bounds_witness :
    ((∀ B, (AnyMatrix.csr exCSR) ≠ AnyMatrix.bsr B) ∧ AnyMatrix.WF (AnyMatrix.csr exCSR) ∧
      ([1, 2, 3] : List ℤ).length = (AnyMatrix.base (AnyMatrix.csr exCSR)).n_cols ∧
      ([4, 5] : List ℤ).length = (AnyMatrix.base (AnyMatrix.csr exCSR)).n_rows ∧
      ([6, 7] : List ℤ).length = (AnyMatrix.base (AnyMatrix.csr exCSR)).n_rows ∧
      ([8, 9, 10] : List ℤ).length = (AnyMatrix.base (AnyMatrix.csr exCSR)).n_cols ∧
      ([11, 12] : List ℤ).length = (AnyMatrix.base (AnyMatrix.csr exCSR)).n_rows) ∧
    (Matrix.mult_chk (AnyMatrix.csr exCSR) [1, 2, 3] [6, 7] =
      some (Matrix.mult (AnyMatrix.csr exCSR) [1, 2, 3] [6, 7]) ∧
    Matrix.mult_T_chk (AnyMatrix.csr exCSR) [4, 5] [8, 9, 10] =
      some (Matrix.mult_T (AnyMatrix.csr exCSR) [4, 5] [8, 9, 10]) ∧
    Matrix.mult_append_chk (AnyMatrix.csr exCSR) [1, 2, 3] [6, 7] =
      some (Matrix.mult_append (AnyMatrix.csr exCSR) [1, 2, 3] [6, 7]) ∧
    Matrix.mult_append_T_chk (AnyMatrix.csr exCSR) [4, 5] [8, 9, 10] =
      some (Matrix.mult_append_T (AnyMatrix.csr exCSR) [4, 5] [8, 9, 10]) ∧
    Matrix.mult_append_neg_chk (AnyMatrix.csr exCSR) [1, 2, 3] [6, 7] =
      some (Matrix.mult_append_neg (AnyMatrix.csr exCSR) [1, 2, 3] [6, 7]) ∧
    Matrix.mult_append_neg_T_chk (AnyMatrix.csr exCSR) [4, 5] [8, 9, 10] =
      some (Matrix.mult_append_neg_T (AnyMatrix.csr exCSR) [4, 5] [8, 9, 10]) ∧
    Matrix.residual_chk (AnyMatrix.csr exCSR) [1, 2, 3] [6, 7] [11, 12] =
      some (Matrix.residual (AnyMatrix.csr exCSR) [1, 2, 3] [6, 7] [11, 12])) :=
  ⟨⟨fun _ h => AnyMatrix.noConfusion h, by decide, rfl, rfl, rfl, rfl, rfl⟩,
    Matrix.scalar_kernels_in_bounds (AnyMatrix.csr exCSR) (fun _ h => AnyMatrix.noConfusion h)
      (by decide) [1, 2, 3] [4, 5] [6, 7] [8, 9, 10] [11, 12] rfl rfl rfl rfl rfl⟩

/-- C24: for a BSR matrix with positive block dimensions dividing the matrix dimensions,
`b_size = b_rows*b_cols`, a block-row pointer of length `n_rows/b_rows + 1` that starts at 0,
is non-decreasing and ends at `n_blocks = len(idx2)`, `len(vals) = n_blocks*b_size` and every
block column below `n_cols/b_cols`: for every stored block `k` of a block row `I` and every
local position `(i, j)`, the subscript `k*b_size + i*b_cols + j` of `vals` and the global
indices `I*b_rows + i` and `idx2[k]*b_cols + j` are in range; and for `x`, `c` of length
`n_cols` and `y`, `b`, `r` of length `n_rows`, each of the seven kernels with every subscript
checked runs to completion and returns exactly what the total kernel returns. -/
theorem BSRMatrix.block_kernels_in_bounds {α : Type} [Zero α] [Add α] [Sub α] [Mul α]
    (A : BSRMatrix α) (hA : BSRMatrix.WF A) (x y b c r : List α)
    (hx : x.length = A.n_cols) (hy : y.length = A.n_rows) (hb : b.length = A.n_rows)
    (hc : c.length = A.n_cols) (hr : r.length = A.n_rows) :
    (∀ I < A.n_rows / A.b_rows, ∀ k, load A.idx1 I ≤ k → k < load A.idx1 (I + 1) →
      ∀ i < A.b_rows, ∀ j < A.b_cols,
        k * A.b_size + i * A.b_cols + j < A.vals.length ∧
        I * A.b_rows + i < A.n_rows ∧ load A.idx2 k * A.b_cols + j < A.n_cols) ∧
    BSRMatrix.mult_helper_chk A x b = some (BSRMatrix.mult_helper A x b) ∧
    BSRMatrix.mult_T_helper_chk A y c = some (BSRMatrix.mult_T_helper A y c) ∧
    BSRMatrix.mult_append_helper_chk A x b = some (BSRMatrix.mult_append_helper A x b) ∧
    BSRMatrix.mult_append_T_helper_chk A y c = some (BSRMatrix.mult_append_T_helper A y c) ∧
    BSRMatrix.mult_append_neg_helper_chk A x b = some (BSRMatrix.mult_append_neg_helper A x b) ∧
    BSRMatrix.mult_append_neg_T_helper_chk A y c = some (BSRMatrix.mult_append_neg_T_helper A y c) ∧
    BSRMatrix.residual_helper_chk A x b r = some (BSRMatrix.residual_helper A x b r) := by
  refine ⟨?_, BSRMatrix.bsr_chk_eq A hA x y b c r hx hy hb hc hr⟩
  intro I hI k hk1 hk2 i hi j hj
  have hp := hA.2.2.2.2.2.1
  have hk : k < A.n_blocks :=
    hp.slice_lt I k hI (Finset.mem_Ico.mpr ⟨hk1, hk2⟩)
  have hcol : load A.idx2 k < A.n_cols / A.b_cols :=
    hA.2.2.2.2.2.2.2.2 _ (load_mem k (by rw [hA.2.2.2.2.2.2.1]; exact hk))
  have h := BSRMatrix.block_bounds A hA I k (load A.idx2 k) i j hI hk hcol hi hj
  refine ⟨?_, h.1, h.2.2⟩
  have := h.2.1
  omega

theorem BSRMatrix.block_kernels_in_bounds_witness :
    (BSRMatrix.WF exBSR ∧ ([1, 2, 3, 4] : List ℤ).length = exBSR.n_cols ∧
      ([5, 6] : List ℤ).length = exBSR.n_rows ∧ ([7, 8] : List ℤ).length = exBSR.n_rows ∧
      ([9, 10, 11, 12] : List ℤ).length = exBSR.n_cols ∧
      ([13, 14] : List ℤ).length = exBSR.n_rows) ∧
    ((∀ I < exBSR.n_rows / exBSR.b_rows, ∀ k, load exBSR.idx1 I ≤ k → k < load exBSR.idx1 (I + 1) →
      ∀ i < exBSR.b_rows, ∀ j < exBSR.b_cols,
        k * exBSR.b_size + i * exBSR.b_cols + j < exBSR.vals.length ∧
        I * exBSR.b_rows + i < exBSR.n_rows ∧ load exBSR.idx2 k * exBSR.b_cols + j < exBSR.n_cols) ∧
    BSRMatrix.mult_helper_chk exBSR [1, 2, 3, 4] [7, 8] =
      some (BSRMatrix.mult_helper exBSR [1, 2, 3, 4] [7, 8]) ∧
    BSRMatrix.mult_T_helper_chk exBSR [5, 6] [9, 10, 11, 12] =
      some (BSRMatrix.mult_T_helper exBSR [5, 6] [9, 10, 11, 12]) ∧
    BSRMatrix.mult_append_helper_chk exBSR [1, 2, 3, 4] [7, 8] =
      some (BSRMatrix.mult_append_helper exBSR [1, 2, 3, 4] [7, 8]) ∧
    BSRMatrix.mult_append_T_helper_chk exBSR [5, 6] [9, 10, 11, 12] =
      some (BSRMatrix.mult_append_T_helper exBSR [5, 6] [9, 10, 11, 12]) ∧
    BSRMatrix.mult_append_neg_helper_chk exBSR [1, 2, 3, 4] [7, 8] =
      some (BSRMatrix.mult_append_neg_helper exBSR [1, 2, 3, 4] [7, 8]) ∧
    BSRMatrix.mult_append_neg_T_helper_chk exBSR [5, 6] [9, 10, 11, 12] =
      some (BSRMatrix.mult_append_neg_T_helper exBSR [5, 6] [9, 10, 11, 12]) ∧
    BSRMatrix.residual_helper_chk exBSR [1, 2, 3, 4] [7, 8] [13, 14] =
      some (BSRMatrix.residual_helper exBSR [1, 2, 3, 4] [7, 8] [13, 14])) :=
  ⟨⟨by decide, rfl, rfl, rfl, rfl, rfl⟩,
    BSRMatrix.block_kernels_in_bounds exBSR (by decide) [1, 2, 3, 4] [5, 6] [7, 8]
      [9, 10, 11, 12] [13, 14] rfl rfl rfl rfl rfl⟩

/-- C25 (the code departs from the claim): the CSC dense-buffer constructor called with
`n_rows = 1`, `n_cols = 2` and a buffer of `1*2 = 2` scalars.  For column `i = 1` and row
`j = 0` it reads `_data[1*2 + 0] = _data[2]`, one past the end of the buffer. -/
theorem CSCMatrix.ctor_data_reads_past_end :
    CSCMatrix.ctor_data_reads 1 2 = [0, 2] ∧
    ¬ (∀ k ∈ CSCMatrix.ctor_data_reads 1 2, k < 1 * 2) ∧
    (CSCMatrix.ctor_data (0 : ℤ) 1 2 [1, 2]).vals = [1] := by
  decide

/-- C26: for a buffer of `n_rows*n_cols` scalars and positive block dimensions dividing the
matrix dimensions, the BSR dense-buffer constructor reads the buffer in block format, block
`(I, J)` being the contiguous slice `data[(I*(n_cols/b_cols) + J)*b_size .. +b_size)`: it
reads exactly the subscripts `0 .. n_rows*n_cols - 1`, `vals` is the concatenation, in
block-row-major order, of the slices of the kept blocks (those holding a scalar of magnitude
above `zero_tol`), `idx2` lists their block columns, and these are strictly ascending within
each block row. -/
theorem BSRMatrix.ctor_data_block_format {α : Type} [LinearOrderedRing α] (zero_tol : α)
    (n m br bc : Nat) (D : List α) (hD : D.length = n * m) (_hbr : 0 < br) (_hbc : 0 < bc)
    (hr : n % br = 0) (hc : m % bc = 0) :
    ∃ A : BSRMatrix α, BSRMatrix.ctor_data zero_tol n m br bc D = .ok A ∧
      (∀ k, k ∈ BSRMatrix.ctor_data_reads zero_tol n m br bc D ↔ k < n * m) ∧
      A.vals = (List.range (n / br)).flatMap (fun I =>
        ((List.range (m / bc)).filter
          (fun J => blockIsKept zero_tol D (m / bc) (br * bc) I J)).flatMap
            (fun J => blockSlice D (m / bc) (br * bc) I J)) ∧
      A.idx2 = (List.range (n / br)).flatMap (fun I =>
        (List.range (m / bc)).filter
          (fun J => blockIsKept zero_tol D (m / bc) (br * bc) I J)) ∧
      ∀ I < n / br,
        slice A.idx2 (load A.idx1 I) (load A.idx1 (I + 1)) =
          (List.range (m / bc)).filter
            (fun J => blockIsKept zero_tol D (m / bc) (br * bc) I J) ∧
        (slice A.idx2 (load A.idx1 I) (load A.idx1 (I + 1))).Pairwise (· < ·) := by
  obtain ⟨A, hA, _, _, _, _, _, _, _, hidx2, hvals, _, hptr⟩ :=
    BSRMatrix.bsr_ctor_data_spec zero_tol n m br bc D ⟨hr, hc⟩
  have hD2 : D.length = (n / br) * (m / bc) * (br * bc) := by
    rw [hD, grid_size n m br bc hr hc]
  have hk : ∀ I < n / br, keptBlocksAt zero_tol D (br * bc) (m / bc) I =
      (List.range (m / bc)).filter
        (fun J => blockIsKept zero_tol D (m / bc) (br * bc) I J) :=
    fun I hI => keptBlocksAt_eq_filter zero_tol D (n / br) (m / bc) (br * bc) I hD2 hI
  have s2 : ∀ I < n / br, slice A.idx2 (load A.idx1 I) (load A.idx1 (I + 1)) =
      keptBlocksAt zero_tol D (br * bc) (m / bc) I := by
    intro I hI
    rw [hptr I (by omega), hptr (I + 1) (by omega), hidx2]
    exact slice_flatMap _ (n / br) I hI
  refine ⟨A, hA, fun k => ?_, ?_, ?_, fun I hI => ⟨?_, ?_⟩⟩
  · rw [BSRMatrix.bsr_mem_ctor_data_reads, grid_size n m br bc hr hc]
  · rw [hvals]
    apply flatMap_congr_mem
    intro I hI
    have hI := List.mem_range.mp hI
    rw [hk I hI]
    apply flatMap_congr_mem
    intro J hJ
    have hJ := List.mem_range.mp (List.mem_filter.mp hJ).1
    exact blockScalars_eq_slice D (br * bc) _
      (by rw [hD2]; exact block_in_buffer (n / br) (m / bc) (br * bc) I J hI hJ)
  · rw [hidx2]
    exact flatMap_congr_mem _ _ _ (fun I hI => hk I (List.mem_range.mp hI))
  · rw [s2 I hI, hk I hI]
  · rw [s2 I hI]
    exact pairwise_keptBlocksAt zero_tol D (br * bc) (m / bc) I

theorem BSRMatrix.ctor_data_block_format_witness :
    (exBlockDense.length = 2 * 4 ∧ 0 < 2 ∧ 0 < 2 ∧ 2 % 2 = 0 ∧ 4 % 2 = 0) ∧
    ∃ A : BSRMatrix ℤ, BSRMatrix.ctor_data (0 : ℤ) 2 4 2 2 exBlockDense = .ok A ∧
      (∀ k, k ∈ BSRMatrix.ctor_data_reads (0 : ℤ) 2 4 2 2 exBlockDense ↔ k < 2 * 4) ∧
      A.vals = (List.range (2 / 2)).flatMap (fun I =>
        ((List.range (4 / 2)).filter
          (fun J => blockIsKept (0 : ℤ) exBlockDense (4 / 2) (2 * 2) I J)).flatMap
            (fun J => blockSlice exBlockDense (4 / 2) (2 * 2) I J)) ∧
      A.idx2 = (List.range (2 / 2)).flatMap (fun I =>
        (List.range (4 / 2)).filter
          (fun J => blockIsKept (0 : ℤ) exBlockDense (4 / 2) (2 * 2) I J)) ∧
      ∀ I < 2 / 2,
        slice A.idx2 (load A.idx1 I) (load A.idx1 (I + 1)) =
          (List.range (4 / 2)).filter
            (fun J => blockIsKept (0 : ℤ) exBlockDense (4 / 2) (2 * 2) I J) ∧
        (slice A.idx2 (load A.idx1 I) (load A.idx1 (I + 1))).Pairwise (· < ·) :=
  ⟨⟨rfl, by decide, by decide, rfl, rfl⟩,
    BSRMatrix.ctor_data_block_format (0 : ℤ) 2 4 2 2 exBlockDense rfl (by decide) (by decide)
      rfl rfl⟩

/-- C31: over the reals, for `p >= 1` and a family of per-process objects (each holding a
local vector of `local_n` entries), `ParVector::norm<p>()` returns on every process the
`p`-th root of the sum over the processes of the `p`-th power of each local `lpNorm<p>`, a
process with `local_n = 0` contributing 0; this is the p-norm of the concatenation of all
local vectors; and with a single process and a non-empty local vector it is the local
`lpNorm<p>`. -/
theorem ParVector.norm_spec (p : Nat) (hp : 1 ≤ p) (world : List (ParVector ℝ))
    (hw : ∀ x ∈ world, x.«local».length = x.local_n) :
    ParVector.norm Real.rpow (Vector.lpNorm Real.rpow p) p world =
      (world.map (fun x =>
        if x.local_n = 0 then 0 else Vector.lpNorm Real.rpow p x.«local» ^ p)).sum ^
          (1 / (p : ℝ)) ∧
    ParVector.norm Real.rpow (Vector.lpNorm Real.rpow p) p world =
      ((world.flatMap (fun x => x.«local»)).map (fun a => |a| ^ p)).sum ^ (1 / (p : ℝ)) ∧
    ParVector.norm Real.rpow (Vector.lpNorm Real.rpow p) p world =
      Vector.lpNorm Real.rpow p (world.flatMap (fun x => x.«local»)) ∧
    ∀ x : ParVector ℝ, x.local_n ≠ 0 →
      ParVector.norm Real.rpow (Vector.lpNorm Real.rpow p) p [x] =
        Vector.lpNorm Real.rpow p x.«local» := by
  have key : ParVector.norm Real.rpow (Vector.lpNorm Real.rpow p) p world =
      ((world.flatMap (fun x => x.«local»)).map (fun a => |a| ^ p)).sum ^ (1 / (p : ℝ)) := by
    unfold ParVector.norm
    show Real.rpow _ _ = _
    rw [ParVector.allreduce_real p hp world hw, Real.rpow_eq_pow]
  refine ⟨?_, key, ?_, ?_⟩
  · unfold ParVector.norm MPI_Allreduce_SUM
    show Real.rpow _ _ = _
    rw [Real.rpow_eq_pow]
    congr 2
    apply List.map_congr_left
    intro x _
    unfold ParVector.norm_local
    by_cases h : x.local_n = 0
    · rw [if_neg (not_not.mpr h), if_pos h]
    · rw [if_pos h, if_neg h]
      show Real.rpow _ _ = _
      rw [Real.rpow_eq_pow, Real.rpow_natCast]
  · rw [key, Vector.lpNorm_real]
  · intro x hx
    unfold ParVector.norm MPI_Allreduce_SUM ParVector.norm_local
    rw [List.map_cons, List.map_nil, List.sum_cons, List.sum_nil, add_zero, if_pos hx]
    show Real.rpow (Real.rpow _ _) _ = _
    rw [Real.rpow_eq_pow, Real.rpow_eq_pow]
    exact rpow_pow_root p hp _ (Vector.lpNorm_nonneg p _)

theorem ParVector.norm_spec_witness :
    (1 ≤ 2 ∧ ∀ x ∈ ([⟨[3, -4], 5, 2⟩, ⟨[], 5, 0⟩, ⟨[1, 1, 1], 5, 3⟩] : List (ParVector ℝ)),
      x.«local».length = x.local_n) ∧
    (ParVector.norm Real.rpow (Vector.lpNorm Real.rpow 2) 2
        [⟨[3, -4], 5, 2⟩, ⟨[], 5, 0⟩, ⟨[1, 1, 1], 5, 3⟩] =
      (([⟨[3, -4], 5, 2⟩, ⟨[], 5, 0⟩, ⟨[1, 1, 1], 5, 3⟩] : List (ParVector ℝ)).map (fun x =>
        if x.local_n = 0 then 0 else Vector.lpNorm Real.rpow 2 x.«local» ^ 2)).sum ^
          (1 / ((2 : Nat) : ℝ)) ∧
    ParVector.norm Real.rpow (Vector.lpNorm Real.rpow 2) 2
        [⟨[3, -4], 5, 2⟩, ⟨[], 5, 0⟩, ⟨[1, 1, 1], 5, 3⟩] =
      ((([⟨[3, -4], 5, 2⟩, ⟨[], 5, 0⟩, ⟨[1, 1, 1], 5, 3⟩] : List (ParVector ℝ)).flatMap
        (fun x => x.«local»)).map (fun a => |a| ^ 2)).sum ^ (1 / ((2 : Nat) : ℝ)) ∧
    ParVector.norm Real.rpow (Vector.lpNorm Real.rpow 2) 2
        [⟨[3, -4], 5, 2⟩, ⟨[], 5, 0⟩, ⟨[1, 1, 1], 5, 3⟩] =
      Vector.lpNorm Real.rpow 2
        (([⟨[3, -4], 5, 2⟩, ⟨[], 5, 0⟩, ⟨[1, 1, 1], 5, 3⟩] : List (ParVector ℝ)).flatMap
          (fun x => x.«local»)) ∧
    ∀ x : ParVector ℝ, x.local_n ≠ 0 →
      ParVector.norm Real.rpow (Vector.lpNorm Real.rpow 2) 2 [x] =
        Vector.lpNorm Real.rpow 2 x.«local») :=
  ⟨⟨by decide, by simp⟩,
    ParVector.norm_spec 2 (by decide) [⟨[3, -4], 5, 2⟩, ⟨[], 5, 0⟩, ⟨[1, 1, 1], 5, 3⟩]
      (by simp)⟩

end raptor
